import Mathlib

/-!
Verification development for the `convert_to_dbml` repository: a shallow
embedding of the DDL-to-DBML conversion pipeline (MySQL/MariaDB DDL parser,
DBML serializer, reconciliation pass, PostgreSQL parser, encoding-fallback
file reader) together with theorems settling the specification claims.

Strings are modelled as `List Char` (`Chars`); Python `str` methods and the
regular expressions used by the source are hand-compiled into executable
Lean functions, each documented with the Python construct it translates.
-/

namespace ConvertToDbml

abbrev Chars := List Char

/-- The backtick character (written via its code point). -/
def bq : Char := Char.ofNat 96

/-- The single-quote character. -/
def sq : Char := Char.ofNat 39

/-- The double-quote character. -/
def dq : Char := Char.ofNat 34

/-- The opening curly brace. -/
def obr : Char := Char.ofNat 123

/-- The closing curly brace. -/
def cbr : Char := Char.ofNat 125

/-- Python `\s` / `str.strip()` whitespace: space, tab, newline, CR, VT, FF. -/
def isWsChar (c : Char) : Bool :=
  c == ' ' || c == '\t' || c == '\n' || c == '\r' || c == Char.ofNat 11 || c == Char.ofNat 12

/-- ASCII letter (`[A-Za-z]`, stated on code points). -/
def isAsciiLetter (c : Char) : Bool :=
  (97 ≤ c.toNat && c.toNat ≤ 122) || (65 ≤ c.toNat && c.toNat ≤ 90)

/-- ASCII digit (`[0-9]`, stated on code points). -/
def isAsciiDigit (c : Char) : Bool :=
  48 ≤ c.toNat && c.toNat ≤ 57

/-- Python `\w`: letter, digit or underscore (ASCII fragment). -/
def isWordChar (c : Char) : Bool :=
  isAsciiLetter c || isAsciiDigit c || c == '_'

/-- Python `str.upper()` (ASCII fragment; non-ASCII characters are kept). -/
def upperS (s : Chars) : Chars := s.map Char.toUpper

/-- Python `str.lower()` (ASCII fragment). -/
def lowerS (s : Chars) : Chars := s.map Char.toLower

/-- Python `str.lstrip()`. -/
def lstripWs (s : Chars) : Chars := s.dropWhile isWsChar

/-- Python `str.rstrip()`. -/
def rstripWs (s : Chars) : Chars := ((s.reverse).dropWhile isWsChar).reverse

/-- Python `str.strip()`. -/
def stripWs (s : Chars) : Chars := rstripWs (lstripWs s)

/-- Python `str.strip(chars)`: remove leading/trailing characters from a set. -/
def stripSet (s : Chars) (set : List Char) : Chars :=
  (((s.dropWhile (set.contains ·)).reverse).dropWhile (set.contains ·)).reverse

/-- Python `pat in s` (substring containment). -/
def containsSub : Chars → Chars → Bool
  | s, pat =>
    if pat.isPrefixOf s then true
    else match s with
      | [] => false
      | _ :: t => containsSub t pat

/-- Python `s.startswith(pat)`. -/
def startsWith (s pat : Chars) : Bool := pat.isPrefixOf s

/-- Python `s.endswith(pat)`. -/
def endsWith (s pat : Chars) : Bool := pat.reverse.isPrefixOf s.reverse

/-- Index of the first occurrence of `pat` in `s` (`str.find`, as an `Option`). -/
def findSub : Chars → Chars → Option Nat
  | s, pat =>
    if pat.isPrefixOf s then some 0
    else match s with
      | [] => none
      | _ :: t => (findSub t pat).map (· + 1)

/-- Python `str.split(sep)` for a single-character separator. -/
def splitOnChar (sep : Char) (s : Chars) : List Chars :=
  go s [] where
  go : Chars → Chars → List Chars
    | [], acc => [acc.reverse]
    | c :: cs, acc => if c == sep then acc.reverse :: go cs [] else go cs (c :: acc)

/-- Python whitespace `str.split()`: split on whitespace runs, dropping empties. -/
def splitWsGo : Chars → Chars → List Chars
  | [], acc => if acc.isEmpty then [] else [acc.reverse]
  | c :: cs, acc =>
    if isWsChar c then
      if acc.isEmpty then splitWsGo cs [] else acc.reverse :: splitWsGo cs []
    else splitWsGo cs (c :: acc)

/-- Python `str.split()` with no argument. -/
def splitWs (s : Chars) : List Chars := splitWsGo s []

/-- Python `sep.join(parts)`. -/
def joinSep (sep : Chars) : List Chars → Chars
  | [] => []
  | [x] => x
  | x :: y :: rest => x ++ sep ++ joinSep sep (y :: rest)

/-- Python `str.replace(old, new)` for a single-character `old`
(scans the original string; replacements are not rescanned). -/
def replChar (pat : Char) (rep : Chars) (s : Chars) : Chars :=
  s.flatMap (fun c => if c == pat then rep else [c])

/-- Python `str.replace(old, new)` for a general nonempty `old`:
leftmost non-overlapping occurrences, scanning the original string.
Fuel-driven so that it is structurally recursive (fuel = length suffices). -/
def replaceSubGo (pat rep : Chars) : Nat → Chars → Chars
  | 0, s => s
  | _ + 1, [] => []
  | fuel + 1, c :: cs =>
    if pat.isPrefixOf (c :: cs) && !pat.isEmpty then
      rep ++ replaceSubGo pat rep fuel ((c :: cs).drop pat.length)
    else
      c :: replaceSubGo pat rep fuel cs

/-- Python `str.replace(old, new)` (for nonempty `old`). -/
def replaceSub (s pat rep : Chars) : Chars := replaceSubGo pat rep s.length s

/-- Python `str.count(sub)` for a nonempty `sub` (non-overlapping count). -/
def countSubGo (pat : Chars) : Nat → Chars → Nat
  | 0, _ => 0
  | _ + 1, [] => 0
  | fuel + 1, c :: cs =>
    if pat.isPrefixOf (c :: cs) && !pat.isEmpty then
      1 + countSubGo pat fuel ((c :: cs).drop pat.length)
    else
      countSubGo pat fuel cs

/-- Python `str.count(sub)` (for nonempty `sub`). -/
def countSub (s pat : Chars) : Nat := countSubGo pat s.length s

/-- Python `s.isdigit()` (ASCII fragment): nonempty and all digits. -/
def isDigitsStr (s : Chars) : Bool := !s.isEmpty && s.all isAsciiDigit

/-- Numeric value of an ASCII digit string (Python `int(part)`). -/
def natOfDigits (s : Chars) : Nat := s.foldl (fun a c => a * 10 + (c.toNat - 48)) 0

/-- Python slice index normalisation for `s[:i]` with possibly negative `i`. -/
def pySliceTo (s : Chars) (i : Int) : Chars :=
  if i < 0 then s.take (s.length - (-i).toNat) else s.take i.toNat

/-- Python slice index normalisation for `s[i:]` with possibly negative `i`. -/
def pySliceFrom (s : Chars) (i : Int) : Chars :=
  if i < 0 then s.drop (s.length - (-i).toNat) else s.drop i.toNat

/-!
## Token model of `sqlparse`

`ddl_parser.py` runs `sqlparse.parse(content)` and works on
`statement.flatten()`, the stream of leaf tokens.  The fragment of the
`sqlparse` lexer relevant to `CREATE TABLE` DDL is modelled here: whitespace
runs, backtick-quoted identifiers (one token including the backticks),
quoted string literals, `[0-9A-Za-z_]` words (classified as
DDL keyword / keyword / name by a case-insensitive table; `bigint(20)`
lexes as the word `bigint` followed by the punctuation `(`, the number `20`
and `)`), and single-character punctuation.  Values preserve the original
text; whitespace chunking differs from `sqlparse` only in ways invisible
downstream (the parser joins or filters on `value.strip()`).
-/

/-- Token types (the fragment of `sqlparse.tokens` the parser inspects). -/
inductive TType where
  | ws | kwDDL | kw | name | num | strLit | punct
deriving DecidableEq, Repr

/-- A leaf token: type and original text. -/
structure Tok where
  tt : TType
  v : Chars
deriving DecidableEq, Repr

/-- DDL keywords (`sqlparse` `KEYWORDS_COMMON` entries mapped to `Keyword.DDL`). -/
def ddlKeywords : List Chars :=
  ["CREATE", "ALTER", "DROP", "TRUNCATE"].map String.data

/-- Ordinary keywords (fragment of `sqlparse` `KEYWORDS_COMMON`/`KEYWORDS`
that can occur in `CREATE TABLE` statements). -/
def sqlKeywords : List Chars :=
  ["TABLE", "NOT", "NULL", "DEFAULT", "PRIMARY", "KEY", "UNIQUE", "FOREIGN",
   "REFERENCES", "INDEX", "CONSTRAINT", "AUTO_INCREMENT", "CURRENT_TIMESTAMP",
   "COMMENT", "ENGINE", "CHARSET", "ON", "UPDATE", "DELETE", "CASCADE",
   "USING", "BTREE", "HASH", "COLLATE", "UNSIGNED", "ZEROFILL"].map String.data

/-- Classify a completed word token (case-insensitive keyword lookup,
digit-initial words are numeric literals). -/
def mkWord (acc : Chars) : Tok :=
  let u := upperS acc
  if ddlKeywords.contains u then ⟨.kwDDL, acc⟩
  else if sqlKeywords.contains u then ⟨.kw, acc⟩
  else if acc.all isAsciiDigit then ⟨.num, acc⟩
  else ⟨.name, acc⟩

/-- Lexer state: inside a whitespace run, a word, a backtick identifier or a
quoted string. -/
inductive TSt where
  | idle
  | inWs (acc : Chars)
  | inWord (acc : Chars)
  | inTick (acc : Chars)
  | inStr (acc : Chars) (q : Char)
deriving Repr

/-- Start a token at character `c` from the idle state; single-character
punctuation is emitted immediately. -/
def beginTok (c : Char) : TSt × List Tok :=
  if isWsChar c then (.inWs [c], [])
  else if isWordChar c then (.inWord [c], [])
  else if c == bq then (.inTick [c], [])
  else if c == sq || c == dq then (.inStr [c] c, [])
  else (.idle, [⟨.punct, [c]⟩])

/-- Emit the token pending in a lexer state at end of input. -/
def flushSt : TSt → List Tok
  | .idle => []
  | .inWs acc => [⟨.ws, acc⟩]
  | .inWord acc => [mkWord acc]
  | .inTick acc => [⟨.name, acc⟩]
  | .inStr acc _ => [⟨.strLit, acc⟩]

/-- The lexer: one pass over the characters. -/
def goTok : TSt → Chars → List Tok
  | st, [] => flushSt st
  | .idle, c :: cs =>
    let p := beginTok c
    p.2 ++ goTok p.1 cs
  | .inWs acc, c :: cs =>
    if isWsChar c then goTok (.inWs (acc ++ [c])) cs
    else
      let p := beginTok c
      ⟨.ws, acc⟩ :: (p.2 ++ goTok p.1 cs)
  | .inWord acc, c :: cs =>
    if isWordChar c then goTok (.inWord (acc ++ [c])) cs
    else
      let p := beginTok c
      mkWord acc :: (p.2 ++ goTok p.1 cs)
  | .inTick acc, c :: cs =>
    if c == bq then ⟨.name, acc ++ [c]⟩ :: goTok .idle cs
    else goTok (.inTick (acc ++ [c])) cs
  | .inStr acc q, c :: cs =>
    if c == q then ⟨.strLit, acc ++ [c]⟩ :: goTok .idle cs
    else goTok (.inStr (acc ++ [c]) q) cs

/-- Tokenize a DDL text into `sqlparse`-style leaf tokens. -/
def tokenize (s : Chars) : List Tok := goTok .idle s

/-- `sqlparse.parse` statement splitting: statements end after a `;` token;
a trailing group without `;` is kept when nonempty. -/
def splitStmtsGo : List Tok → List Tok → List (List Tok)
  | acc, [] => if acc.isEmpty then [] else [acc.reverse]
  | acc, t :: ts =>
    if t.v == [';'] then (acc.reverse ++ [t]) :: splitStmtsGo [] ts
    else splitStmtsGo (t :: acc) ts

/-- Split a token stream into statements. -/
def splitStmts (toks : List Tok) : List (List Tok) := splitStmtsGo [] toks

/-- `statement.get_type() == 'CREATE'`: the first non-whitespace token is the
DDL keyword `CREATE`. -/
def isCreateStmt (toks : List Tok) : Bool :=
  match toks.find? (fun t => t.tt != .ws) with
  | some t => t.tt == .kwDDL && upperS t.v == "CREATE".data
  | none => false

/-!
## `ddl_parser.py` — the MySQL/MariaDB extractor (`DDLParser`)

Column and constraint records use the dictionary keys of the source;
each regular expression of the source is hand-compiled into a function
named after its role, with the original pattern quoted in the comment.
-/

/-- A column record (`_parse_column_definition`'s result dictionary). -/
structure Column where
  name : Chars
  type : Chars
  size : Option Chars
  nullable : Bool
  auto_increment : Bool
  primary_key : Bool
  unique : Bool
  default : Option Chars
deriving DecidableEq, Repr

/-- A constraint record (`_parse_constraint`'s result dictionary,
tagged by its `type` field). -/
inductive Constraint where
  | primary_key (columns : List Chars)
  | foreign_key (columns : List Chars) (ref_table : Chars) (ref_columns : List Chars)
  | unique (columns : List Chars)
  | index (columns : List Chars)
deriving DecidableEq, Repr

/-- A table record (`_parse_create_table`'s result dictionary). -/
structure TableInfo where
  name : Chars
  columns : List Column
  constraints : List Constraint
deriving DecidableEq, Repr

/-- `DDLParser._clean_identifier`: strip backticks/quotes from both ends,
then keep the part before `@`. -/
def clean_identifier (s : Chars) : Chars :=
  let cleaned := stripSet s [bq, dq, sq]
  if cleaned.contains '@' then (splitOnChar '@' cleaned).headD [] else cleaned

/-- Generic leftmost regex search: try the matcher at every suffix. -/
def scanFor (m : Chars → Option α) : Chars → Option α
  | [] => m []
  | s@(_ :: t) =>
    match m s with
    | some r => some r
    | none => scanFor m t

/-- Match exactly `n` characters satisfying `p` (regex `p{n}`),
returning them and the rest. -/
def takeCount (n : Nat) (p : Char → Bool) (s : Chars) : Option (Chars × Chars) :=
  let d := s.take n
  if d.length == n && d.all p then some (d, s.drop n) else none

/-- Regex `\(([^)]+)\)` anchored at the head: the first balanced-free group,
returning the (nonempty) inner text and the rest after `)`. -/
def parenGroup1R (s : Chars) : Option (Chars × Chars) :=
  match s with
  | '(' :: rest =>
    let inner := rest.takeWhile (· != ')')
    if !inner.isEmpty && (rest.drop inner.length).head? == some ')' then
      some (inner, rest.drop (inner.length + 1))
    else none
  | _ => none

/-- Regex `\(([^)]+)\)` anchored at the head, inner text only. -/
def parenGroup1 (s : Chars) : Option Chars := (parenGroup1R s).map (·.1)

/-- Column-name/type regex of `_parse_column_definition`:
`^\s*[`"]?([^`"\s]+)[`"]?\s+([A-Za-z]+(?:\([^)]*\))?)` (anchored match). -/
def colNameTypeMatch (d0 : Chars) : Option (Chars × Chars) :=
  let d := d0.dropWhile isWsChar
  let d1 := match d with
    | c :: cs => if c == bq || c == dq then cs else d
    | [] => d
  let nm := d1.takeWhile (fun c => !(c == bq || c == dq || isWsChar c))
  if nm.isEmpty then none else
  let r2 := d1.drop nm.length
  let r3 := match r2 with
    | c :: cs => if c == bq || c == dq then cs else r2
    | [] => r2
  let wsp := r3.takeWhile isWsChar
  if wsp.isEmpty then none else
  let r4 := r3.drop wsp.length
  let letters := r4.takeWhile isAsciiLetter
  if letters.isEmpty then none else
  match r4.drop letters.length with
  | '(' :: rest =>
    let inner := rest.takeWhile (· != ')')
    if (rest.drop inner.length).head? == some ')' then
      some (nm, letters ++ '(' :: inner ++ [')'])
    else some (nm, letters)
  | _ => some (nm, letters)

/-- Type/size regex of `_parse_column_definition`:
`([A-Za-z]+)(\(([^)]+)\))?` (anchored match); on failure the whole text
upper-cased becomes the base type. -/
def typeSplit (dt : Chars) : Chars × Option Chars :=
  let letters := dt.takeWhile isAsciiLetter
  if letters.isEmpty then (upperS dt, none) else
  match dt.drop letters.length with
  | '(' :: rest =>
    let inner := rest.takeWhile (· != ')')
    if !inner.isEmpty && (rest.drop inner.length).head? == some ')' then
      (upperS letters, some inner)
    else (upperS letters, none)
  | _ => (upperS letters, none)

/-- Anchored matcher for `COMMENT\s+['"].*?['"]` (IGNORECASE, DOTALL):
`COMMENT`, whitespace, an opening quote, then some later quote character. -/
def commentMatchAt (s : Chars) : Bool :=
  if upperS (s.take 7) == "COMMENT".data then
    let r := s.drop 7
    let w := r.takeWhile isWsChar
    if w.isEmpty then false else
    match r.drop w.length with
    | c :: cs => (c == sq || c == dq) && cs.any (fun x => x == sq || x == dq)
    | [] => false
  else false

/-- Start index of the `COMMENT '...'` match, if any (`re.search`). -/
def findCommentStart : Chars → Option Nat
  | [] => none
  | s@(_ :: t) =>
    if commentMatchAt s then some 0 else (findCommentStart t).map (· + 1)

/-- Alternative `['"].*?['"]` of the DEFAULT regex: a quoted literal,
closed by the first following quote character of either kind. -/
def altQuoted (s : Chars) : Option Chars :=
  match s with
  | c :: cs =>
    if c == sq || c == dq then
      let mid := cs.takeWhile (fun x => !(x == sq || x == dq))
      match (cs.drop mid.length).head? with
      | some q => some (c :: mid ++ [q])
      | none => none
    else none
  | [] => none

/-- Alternative `\d{2}:\d{2}:\d{2}` of the DEFAULT regex. -/
def altTime (s : Chars) : Option Chars :=
  match takeCount 2 isAsciiDigit s with
  | some (a, r1) =>
    match r1 with
    | ':' :: r2 =>
      match takeCount 2 isAsciiDigit r2 with
      | some (b, r3) =>
        match r3 with
        | ':' :: r4 =>
          match takeCount 2 isAsciiDigit r4 with
          | some (c, _) => some (a ++ ':' :: b ++ ':' :: c)
          | none => none
        | _ => none
      | none => none
    | _ => none
  | none => none

/-- Optional tail `(?:\s+\d{2}:\d{2}:\d{2})` of the date alternative. -/
def altTimeTail (s : Chars) : Option Chars :=
  let w := s.takeWhile isWsChar
  if w.isEmpty then none
  else (altTime (s.drop w.length)).map (w ++ ·)

/-- Alternative `\d{4}\s*-\s*\d{2}\s*-\s*\d{2}(?:\s+\d{2}:\d{2}:\d{2})?`
of the DEFAULT regex (the `\s*` tolerate sqlparse-inserted blanks). -/
def altDate (s : Chars) : Option Chars :=
  match takeCount 4 isAsciiDigit s with
  | none => none
  | some (y, r1) =>
    let w1 := r1.takeWhile isWsChar
    match r1.drop w1.length with
    | '-' :: r3 =>
      let w2 := r3.takeWhile isWsChar
      match takeCount 2 isAsciiDigit (r3.drop w2.length) with
      | none => none
      | some (m, r5) =>
        let w3 := r5.takeWhile isWsChar
        match r5.drop w3.length with
        | '-' :: r7 =>
          let w4 := r7.takeWhile isWsChar
          match takeCount 2 isAsciiDigit (r7.drop w4.length) with
          | none => none
          | some (d, r9) =>
            let base := y ++ w1 ++ '-' :: w2 ++ m ++ w3 ++ '-' :: w4 ++ d
            match altTimeTail r9 with
            | some t => some (base ++ t)
            | none => some base
        | _ => none
    | _ => none

/-- Alternative `[^\s,]+` of the DEFAULT regex. -/
def altToken (s : Chars) : Option Chars :=
  let t := s.takeWhile (fun c => !(isWsChar c || c == ','))
  if t.isEmpty then none else some t

/-- Anchored matcher for the DEFAULT-value regex of
`_parse_column_definition`:
`DEFAULT\s+(['"].*?['"]|\d{4}\s*-\s*\d{2}\s*-\s*\d{2}(?:\s+\d{2}:\d{2}:\d{2})?|\d{2}:\d{2}:\d{2}|[^\s,]+)`. -/
def defaultMatchAt (s : Chars) : Option Chars :=
  if upperS (s.take 7) == "DEFAULT".data && s.length ≥ 7 then
    let r := s.drop 7
    let w := r.takeWhile isWsChar
    if w.isEmpty then none else
    let r2 := r.drop w.length
    match altQuoted r2 with
    | some v => some v
    | none =>
      match altDate r2 with
      | some v => some v
      | none =>
        match altTime r2 with
        | some v => some v
        | none => altToken r2
  else none

/-- Prefix test `\d+\s*[-:]\s*\d+` (`re.match`) used to decide whether to
collapse sqlparse-inserted blanks inside a date/time default. -/
def numSepPrefix (v : Chars) : Bool :=
  let d1 := v.takeWhile isAsciiDigit
  if d1.isEmpty then false else
  let r := v.drop d1.length
  let w := r.takeWhile isWsChar
  match r.drop w.length with
  | c :: r2 =>
    if c == '-' || c == ':' then
      let w2 := r2.takeWhile isWsChar
      !((r2.drop w2.length).takeWhile isAsciiDigit).isEmpty
    else false
  | [] => false

/-- Strip a pair of matching quotes and unescape `\'` and `\"`
(the quoted-default post-processing of `_parse_column_definition`). -/
def stripMatchingQuotes (v : Chars) : Chars :=
  if (startsWith v [sq] && endsWith v [sq]) || (startsWith v [dq] && endsWith v [dq]) then
    let inner := (v.drop 1).dropLast
    replaceSub (replaceSub inner ['\\', sq] [sq]) ['\\', dq] [dq]
  else v

/-- `DDLParser._parse_column_definition`. -/
def parse_column_definition (definition : Chars) : Option Column :=
  match colNameTypeMatch (stripWs definition) with
  | none => none
  | some (nm, dt) =>
    let column_name := clean_identifier nm
    let ts := typeSplit dt
    let attributes_part :=
      match findCommentStart definition with
      | some i => upperS (definition.take i)
      | none => upperS definition
    let dflt :=
      match scanFor defaultMatchAt attributes_part with
      | none => none
      | some v0 =>
        let v1 := if numSepPrefix v0 then v0.filter (fun c => !isWsChar c) else v0
        some (stripMatchingQuotes v1)
    some { name := column_name
           type := ts.1
           size := ts.2
           nullable := !containsSub attributes_part "NOT NULL".data
           auto_increment := containsSub attributes_part "AUTO_INCREMENT".data
           primary_key := containsSub attributes_part "PRIMARY KEY".data
           unique := containsSub attributes_part "UNIQUE".data
           default := dflt }

/-- Anchored matcher for `PRIMARY\s+KEY\s*\(([^)]+)\)`. -/
def pkMatchAt (s : Chars) : Option Chars :=
  if startsWith s "PRIMARY".data then
    let r := s.drop 7
    let w := r.takeWhile isWsChar
    if w.isEmpty then none else
    let r2 := r.drop w.length
    if startsWith r2 "KEY".data then
      parenGroup1 ((r2.drop 3).dropWhile isWsChar)
    else none
  else none

/-- Candidates after the optional `` (?:`[^`]*`\s+)? `` group
(with the group consumed first, then without — regex backtracking order). -/
def optTickName (s : Chars) : List Chars :=
  (match s with
   | c :: cs =>
     if c == bq then
       let mid := cs.takeWhile (· != bq)
       match cs.drop mid.length with
       | b :: r2 =>
         let w := r2.takeWhile isWsChar
         if b == bq && !w.isEmpty then [r2.drop w.length] else []
       | [] => []
     else []
   | [] => []) ++ [s]

/-- Anchored matcher for `UNIQUE\s+(?:KEY\s+)?(?:`[^`]*`\s+)?\(([^)]+)\)`. -/
def uniqueMatchAt (s : Chars) : Option Chars :=
  if startsWith s "UNIQUE".data then
    let r := s.drop 6
    let w := r.takeWhile isWsChar
    if w.isEmpty then none else
    let r2 := r.drop w.length
    let afterKey :=
      (if startsWith r2 "KEY".data then
        let r3 := r2.drop 3
        let w2 := r3.takeWhile isWsChar
        if !w2.isEmpty then [r3.drop w2.length] else []
      else []) ++ [r2]
    (afterKey.flatMap optTickName).findSome? parenGroup1
  else none

/-- Anchored matcher for `` KEY\s+(?:`[^`]*`\s+)?\(([^)]+)\) ``. -/
def keyMatchAt (s : Chars) : Option Chars :=
  if startsWith s "KEY".data then
    let r := s.drop 3
    let w := r.takeWhile isWsChar
    if w.isEmpty then none
    else (optTickName (r.drop w.length)).findSome? parenGroup1
  else none

/-- Anchored matcher (IGNORECASE, run on the original-case text) for
`FOREIGN\s+KEY\s*\(([^)]+)\)\s*REFERENCES\s+([^\s(]+)\s*\(([^)]+)\)`. -/
def fkMatchAt (s : Chars) : Option (Chars × Chars × Chars) :=
  if upperS (s.take 7) == "FOREIGN".data && s.length ≥ 7 then
    let r := s.drop 7
    let w := r.takeWhile isWsChar
    if w.isEmpty then none else
    let r2 := r.drop w.length
    if upperS (r2.take 3) == "KEY".data && r2.length ≥ 3 then
      match parenGroup1R ((r2.drop 3).dropWhile isWsChar) with
      | some (cols, r4) =>
        let r5 := r4.dropWhile isWsChar
        if upperS (r5.take 10) == "REFERENCES".data && r5.length ≥ 10 then
          let r6 := r5.drop 10
          let w2 := r6.takeWhile isWsChar
          if w2.isEmpty then none else
          let r7 := r6.drop w2.length
          let tname := r7.takeWhile (fun c => !(isWsChar c || c == '('))
          if tname.isEmpty then none else
          match parenGroup1R ((r7.drop tname.length).dropWhile isWsChar) with
          | some (refcols, _) => some (cols, tname, refcols)
          | none => none
        else none
      | none => none
    else none
  else none

/-- `re.sub(r'\(\d+\)', '', col)`: drop index-length specifiers. -/
def removeSizeParens : Nat → Chars → Chars
  | 0, s => s
  | _ + 1, [] => []
  | fuel + 1, c :: cs =>
    if c == '(' then
      let d := cs.takeWhile isAsciiDigit
      if !d.isEmpty && (cs.drop d.length).head? == some ')' then
        removeSizeParens fuel (cs.drop (d.length + 1))
      else c :: removeSizeParens fuel cs
    else c :: removeSizeParens fuel cs

/-- Full-match test `^[a-zA-Z_][a-zA-Z0-9_]*$`. -/
def identOk (s : Chars) : Bool :=
  match s with
  | [] => false
  | c :: cs => (isAsciiLetter c || c == '_') && cs.all isWordChar

/-- Split a captured column list on commas and clean each entry
(`col.strip().strip('`')`). -/
def splitCleanCols (inner : Chars) : List Chars :=
  (splitOnChar ',' inner).map (fun c => stripSet (stripWs c) [bq])

/-- Clean an index/unique column entry further: drop `(length)` specifiers,
keep only plain identifiers. -/
def cleanIndexCols (inner : Chars) : List Chars :=
  ((splitOnChar ',' inner).map
    (fun c =>
      let x := stripSet (stripWs c) [bq]
      removeSizeParens x.length x)).filter identOk

/-- `DDLParser._parse_constraint`. -/
def parse_constraint (definition : Chars) : Option Constraint :=
  let u := upperS definition
  if containsSub u "PRIMARY KEY".data then
    match scanFor pkMatchAt u with
    | some inner => some (.primary_key (splitCleanCols inner))
    | none => none
  else if containsSub u "FOREIGN KEY".data then
    match scanFor fkMatchAt definition with
    | some (cols, rt, rcols) =>
      some (.foreign_key (splitCleanCols cols) (stripSet rt [bq]) (splitCleanCols rcols))
    | none => none
  else if containsSub u "UNIQUE".data then
    match scanFor uniqueMatchAt u with
    | some inner =>
      let cols := cleanIndexCols inner
      if cols.isEmpty then none else some (.unique cols)
    | none => none
  else if containsSub u "KEY".data && !containsSub u "PRIMARY".data
          && !containsSub u "FOREIGN".data then
    match scanFor keyMatchAt u with
    | some inner =>
      let cols := cleanIndexCols inner
      if cols.isEmpty then none else some (.index cols)
    | none => none
  else none

/-- The keyword list that routes an item to constraint parsing. -/
def constraintKeywords : List Chars :=
  ["PRIMARY KEY", "FOREIGN KEY", "INDEX", "UNIQUE KEY", "KEY"].map String.data

/-- Classify split items into column and constraint records
(the shared loop of `_parse_table_definition` and
`_parse_table_definition_from_string`). -/
def classifyItems (items : List Chars) : List Column × List Constraint :=
  items.foldl
    (fun acc item0 =>
      let item := stripWs item0
      if item.isEmpty then acc
      else if startsWith item "--".data || startsWith item "/*".data
          || containsSub item "한글".data || containsSub item "프로토콜".data
          || containsSub item "해당".data || !(item.any Char.isAlpha) then acc
      else
        let u := upperS item
        if constraintKeywords.any (containsSub u ·) then
          match parse_constraint item with
          | some c => (acc.1, acc.2 ++ [c])
          | none => acc
        else
          match parse_column_definition item with
          | some c => (acc.1 ++ [c], acc.2)
          | none => acc)
    ([], [])

/-- The top-level comma splitter of `_parse_table_definition`
(quote-state and parenthesis-depth aware). -/
def scanItemsGo : Chars → Option Char → Bool → Option Char → Int → Chars → List Chars → List Chars
  | [], _, _, _, _, cur, items =>
    let last := stripWs cur.reverse
    (if last.isEmpty then items else last :: items).reverse
  | c :: cs, prev, inq, qc, d, cur, items =>
    if (c == sq || c == dq) && (prev == none || prev != some '\\') then
      let st : Bool × Option Char :=
        if !inq then (true, some c)
        else if some c == qc then (false, none)
        else (inq, qc)
      scanItemsGo cs (some c) st.1 st.2 d (c :: cur) items
    else if c == '(' && !inq then scanItemsGo cs (some c) inq qc (d + 1) (c :: cur) items
    else if c == ')' && !inq then scanItemsGo cs (some c) inq qc (d - 1) (c :: cur) items
    else if c == ',' && !inq && d == 0 then
      let item := stripWs cur.reverse
      scanItemsGo cs (some c) inq qc d [] (if item.isEmpty then items else item :: items)
    else scanItemsGo cs (some c) inq qc d (c :: cur) items

/-- `DDLParser._parse_table_definition` (token path): join the
non-whitespace token values with blanks, split on top-level commas,
classify. -/
def parse_table_definition (tokens : List Tok) : List Column × List Constraint :=
  let content := joinSep [' '] ((tokens.filter (fun t => !(stripWs t.v).isEmpty)).map (·.v))
  classifyItems (scanItemsGo content none false none 0 [] [])

/-- The COMMENT-aware comma splitter of
`_parse_table_definition_from_string`. -/
def scanCommentItemsGo : Chars → Option Char → Bool → Option Char → Int → Chars → List Chars → List Chars
  | [], _, _, _, _, cur, items =>
    let last := stripWs cur.reverse
    (if last.isEmpty then items else last :: items).reverse
  | c :: cs, prev, inCom, qc, d, cur, items =>
    if !inCom && upperS ((c :: cs).take 7) == "COMMENT".data then
      scanCommentItemsGo cs (some c) true qc d (c :: cur) items
    else if inCom && (c == sq || c == dq) && (prev == none || prev != some '\\') then
      if qc == none then scanCommentItemsGo cs (some c) inCom (some c) d (c :: cur) items
      else if some c == qc then
        let inCom2 :=
          match cs.head? with
          | some n => !(n != sq && n != dq)
          | none => true
        scanCommentItemsGo cs (some c) inCom2 none d (c :: cur) items
      else scanCommentItemsGo cs (some c) inCom qc d (c :: cur) items
    else if !inCom && c == '(' then scanCommentItemsGo cs (some c) inCom qc (d + 1) (c :: cur) items
    else if !inCom && c == ')' then scanCommentItemsGo cs (some c) inCom qc (d - 1) (c :: cur) items
    else if !inCom && c == ',' && d == 0 then
      let item := stripWs cur.reverse
      scanCommentItemsGo cs (some c) inCom qc d [] (if item.isEmpty then items else item :: items)
    else scanCommentItemsGo cs (some c) inCom qc d (c :: cur) items

/-- Index of the last occurrence of a character (`str.rfind`). -/
def rfindCharIdx (s : Chars) (c : Char) : Option Nat :=
  (s.reverse.findIdx? (· == c)).map (fun i => s.length - 1 - i)

/-- `DDLParser._parse_table_definition_from_string`. -/
def parse_table_definition_from_string (content : Chars) : List Column × List Constraint :=
  match content.findIdx? (· == '('), rfindCharIdx content ')' with
  | some st, some en =>
    let table_content := (content.take en).drop (st + 1)
    classifyItems (scanCommentItemsGo table_content none false none 0 [] [])
  | _, _ => ([], [])

/-- The CREATE/TABLE/name scan of `_parse_create_table`. -/
def findTableNameGo : List Tok → Bool → Bool → Option Chars
  | [], _, _ => none
  | t :: ts, cf, tf =>
    if (t.tt == .kw || t.tt == .kwDDL) && upperS t.v == "CREATE".data then
      findTableNameGo ts true tf
    else if cf && t.tt == .kw && upperS t.v == "TABLE".data then
      findTableNameGo ts cf true
    else if tf && t.tt == .name then some (clean_identifier t.v)
    else if tf && !(stripWs t.v).isEmpty && !(!t.v.isEmpty && t.v.all isWsChar)
        && !((["(", ")", ",", ";"].map String.data).contains t.v) then
      some (clean_identifier t.v)
    else findTableNameGo ts cf tf

/-- A token whose value contains `(`, `)` and `COMMENT` (the flattened-body
special case of `_parse_create_table`). -/
def findContentTok (toks : List Tok) : Option Chars :=
  (toks.find? (fun t =>
    containsSub t.v "(".data && containsSub t.v ")".data
      && containsSub t.v "COMMENT".data)).map (·.v)

/-- Collect body tokens after the opening parenthesis until the matching
close (the paren-counting loop of `_parse_create_table`). -/
def collectBodyGo : List Tok → Int → List Tok → List Tok
  | [], _, acc => acc.reverse
  | t :: ts, d, acc =>
    let d2 := if t.v == "(".data then d + 1 else if t.v == ")".data then d - 1 else d
    if d2 == 0 then acc.reverse
    else collectBodyGo ts d2 (t :: acc)

/-- Find the first `(` token and collect the table body. -/
def findBody : List Tok → List Tok
  | [] => []
  | t :: ts => if t.v == "(".data then collectBodyGo ts 1 [] else findBody ts

/-- `DDLParser._parse_create_table`. -/
def parse_create_table (stmt : List Tok) : Option (Chars × (List Column × List Constraint)) :=
  match findTableNameGo stmt false false with
  | none => none
  | some nm =>
    if nm.isEmpty then none else
    match findContentTok stmt with
    | some s => some (nm, parse_table_definition_from_string s)
    | none =>
      let body := findBody stmt
      if body.isEmpty then none
      else some (nm, parse_table_definition body)

/-- Python dict assignment `d[k] = v`: overwrite in place, else append
(insertion order preserved, as for Python dicts). -/
def assocUpd (m : List (Chars × α)) (k : Chars) (v : α) : List (Chars × α) :=
  match m with
  | [] => [(k, v)]
  | (k0, v0) :: rest => if k0 == k then (k0, v) :: rest else (k0, v0) :: assocUpd rest k v

/-- `DDLParser.parse_ddl_content`: parse all statements, keep the
`CREATE` ones that yield a table record. -/
def parse_ddl_content (content : Chars) : List (Chars × TableInfo) :=
  (splitStmts (tokenize content)).foldl
    (fun acc stmt =>
      if isCreateStmt stmt then
        match parse_create_table stmt with
        | some (nm, r) => assocUpd acc nm ⟨nm, r.1, r.2⟩
        | none => acc
      else acc)
    []

/-!
## `dbml_converter.py` — the DBML serializer (`DBMLConverter`)
-/

/-- The MySQL-to-DBML type mapping table (`DBMLConverter.__init__`). -/
def type_mapping : List (Chars × Chars) :=
  [("BIGINT", "bigint"), ("INT", "int"), ("INTEGER", "int"),
   ("SMALLINT", "smallint"), ("TINYINT", "tinyint"), ("DECIMAL", "decimal"),
   ("NUMERIC", "decimal"), ("FLOAT", "float"), ("DOUBLE", "double"),
   ("VARCHAR", "varchar"), ("CHAR", "char"), ("TEXT", "text"),
   ("LONGTEXT", "longtext"), ("MEDIUMTEXT", "mediumtext"),
   ("TINYTEXT", "tinytext"), ("DATE", "date"), ("DATETIME", "datetime"),
   ("TIMESTAMP", "timestamp"), ("TIME", "time"), ("YEAR", "year"),
   ("BLOB", "blob"), ("LONGBLOB", "longblob"), ("MEDIUMBLOB", "mediumblob"),
   ("TINYBLOB", "tinyblob"), ("BINARY", "binary"), ("VARBINARY", "varbinary"),
   ("ENUM", "enum"), ("SET", "set"), ("JSON", "json"), ("BOOLEAN", "boolean"),
   ("BOOL", "boolean")].map (fun p => (p.1.data, p.2.data))

/-- `DBMLConverter._escape_table_name`: quote names containing blanks or
special characters. -/
def escape_table_name (n : Chars) : Chars :=
  if n.contains ' ' || (['-', '.', '/', '\\', '(', ')', '[', ']'].any n.contains) then
    dq :: n ++ [dq]
  else n

/-- Hexadecimal digit character (lowercase). -/
def hexDigitChar (n : Nat) : Char :=
  if n < 10 then Char.ofNat (48 + n) else Char.ofNat (87 + n)

/-- Hexadecimal digits of `n` (most significant first; empty for `0`). -/
def toHexGo : Nat → Nat → Chars
  | 0, _ => []
  | f + 1, n => if n == 0 then [] else toHexGo f (n / 16) ++ [hexDigitChar (n % 16)]

/-- Python `f'{n:02x}'`: lowercase hex, zero-padded to width two. -/
def hexPad2 (n : Nat) : Chars :=
  let h := toHexGo 8 n
  if h.length < 2 then List.replicate (2 - h.length) '0' ++ h else h

/-- `DBMLConverter._escape_string_value`: escape backslash, newline, CR,
tab and both quotes, then hex-escape everything outside printable ASCII. -/
def escape_string_value (v : Chars) : Chars :=
  let e1 := replChar '\\' ['\\', '\\'] v
  let e2 := replChar '\n' ['\\', 'n'] e1
  let e3 := replChar '\r' ['\\', 'r'] e2
  let e4 := replChar '\t' ['\\', 't'] e3
  let e5 := replChar sq ['\\', sq] e4
  let e6 := replChar dq ['\\', dq] e5
  e6.flatMap (fun c =>
    if 32 ≤ c.toNat && c.toNat ≤ 126 then [c]
    else '\\' :: 'x' :: hexPad2 c.toNat)

/-- Character-shape specification used to transliterate the anchored
date/time regexes. -/
inductive CSpec where
  | dig
  | lit (c : Char)
deriving DecidableEq

/-- Full match of a string against a character-shape list. -/
def shapeMatch : Chars → List CSpec → Bool
  | [], [] => true
  | c :: cs, .dig :: ps => isAsciiDigit c && shapeMatch cs ps
  | c :: cs, .lit x :: ps => c == x && shapeMatch cs ps
  | _, _ => false

/-- Shape of `^\d{4}-\d{2}-\d{2}$`. -/
def dateShapeYMD : List CSpec :=
  [.dig, .dig, .dig, .dig, .lit '-', .dig, .dig, .lit '-', .dig, .dig]

/-- Shape of `^\d{2}:\d{2}:\d{2}$`. -/
def timeShapeHMS : List CSpec :=
  [.dig, .dig, .lit ':', .dig, .dig, .lit ':', .dig, .dig]

/-- `DBMLConverter._is_date_format`: one of the three anchored date/time
patterns. -/
def is_date_format (v : Chars) : Bool :=
  shapeMatch v dateShapeYMD
    || shapeMatch v (dateShapeYMD ++ [.lit ' '] ++ timeShapeHMS)
    || shapeMatch v timeShapeHMS

/-- One dotted-quad component: one to three ASCII digits
(`\d{1,3}` between dots; splitting on `.` recovers exactly these). -/
def octetOk (p : Chars) : Bool :=
  decide (1 ≤ p.length) && decide (p.length ≤ 3) && p.all isAsciiDigit

/-- `DBMLConverter._is_ip_address`: `^\d{1,3}(\.\d{1,3}){1,3}$` (two to four
dotted components; the four-component case is the full-IPv4 pattern) with
every component in `0..255`. -/
def is_ip_address (v : Chars) : Bool :=
  let parts := splitOnChar '.' v
  if parts.length == 4 && parts.all octetOk then
    parts.all (fun p => natOfDigits p ≤ 255)
  else if (decide (2 ≤ parts.length) && decide (parts.length ≤ 4)) && parts.all octetOk then
    parts.all (fun p => natOfDigits p ≤ 255)
  else false

/-- `re.findall(r"'([^']*)'", enum_str)`: the quoted values of an ENUM
size literal (non-overlapping pairs of single quotes). -/
def enumValsGo : Nat → Chars → List Chars
  | 0, _ => []
  | _ + 1, [] => []
  | fuel + 1, c :: cs =>
    if c == sq then
      let inner := cs.takeWhile (· != sq)
      if (cs.drop inner.length).head? == some sq then
        inner :: enumValsGo fuel (cs.drop (inner.length + 1))
      else enumValsGo fuel cs
    else enumValsGo fuel cs

/-- `DBMLConverter._escape_enum_values`. -/
def escape_enum_values (s : Chars) : Chars :=
  let values := enumValsGo s.length s
  if values.isEmpty then s
  else joinSep [','] (values.map (fun v => sq :: escape_string_value v ++ [sq]))

/-- The default-value literal policy of `_convert_column_to_dbml`
(the `if`/`elif` chain on `default_value`, in source order:
`CURRENT_TIMESTAMP`, `NULL`, date shape, IP shape, bare numeric,
boolean, quoted string). -/
def convert_default_literal (v : Chars) : Chars :=
  if upperS v == "CURRENT_TIMESTAMP".data then bq :: "now()".data ++ [bq]
  else if upperS v == "NULL".data then "null".data
  else if is_date_format v then sq :: v ++ [sq]
  else if is_ip_address v then sq :: v ++ [sq]
  else if isDigitsStr v
      || (isDigitsStr (v.filter (· != '.')) && v.contains '.'
          && !is_date_format v && !is_ip_address v) then v
  else if lowerS v == "true".data || lowerS v == "false".data then v
  else sq :: escape_string_value v ++ [sq]

/-- `DBMLConverter._convert_column_to_dbml`. -/
def convert_column_to_dbml (column : Column) : Chars :=
  let name := escape_table_name column.name
  let mysql_type := upperS column.type
  let dbml_type0 :=
    match type_mapping.lookup mysql_type with
    | some t => t
    | none => lowerS mysql_type
  let dbml_type :=
    match column.size with
    | some s =>
      if !s.isEmpty then
        let si := if mysql_type == "ENUM".data then escape_enum_values s else s
        dbml_type0 ++ '(' :: si ++ [')']
      else dbml_type0
    | none => dbml_type0
  let attrs :=
    (if column.primary_key then ["pk".data] else [])
    ++ (if column.auto_increment then ["increment".data] else [])
    ++ (if !column.nullable then ["not null".data] else [])
    ++ (if column.unique && !column.primary_key then ["unique".data] else [])
    ++ (match column.default with
        | some d => ["default: ".data ++ convert_default_literal d]
        | none => [])
  if attrs.isEmpty then name ++ ' ' :: dbml_type
  else name ++ ' ' :: dbml_type ++ " [".data ++ joinSep ", ".data attrs ++ "]".data

/-- `DBMLConverter._get_actual_column_names`: resolve constraint columns
against the declared columns by lower-cased lookup (the dictionary built by
comprehension keeps the last declared column for a duplicated lower-cased
name); unresolved names pass through. -/
def get_actual_column_names (tinfo : Option TableInfo) (column_names : List Chars) : List Chars :=
  match tinfo with
  | none => column_names
  | some ti =>
    let tcm := ti.columns.foldl (fun m c => assocUpd m (lowerS c.name) c.name) []
    column_names.map (fun cn =>
      match tcm.lookup (lowerS cn) with
      | some a => a
      | none => cn)

/-- `DBMLConverter._find_table_in_data_with_name` (case-insensitive table
lookup returning the stored name as well). -/
def find_table_in_data_with_name (td : List (Chars × TableInfo)) (tname : Chars) :
    Option TableInfo × Option Chars :=
  match td.find? (fun p => lowerS p.1 == lowerS tname) with
  | some p => (some p.2, some p.1)
  | none => (none, none)

/-- The `Indexes` entries of one table (the constraint loop of
`_convert_table_to_dbml`): `unique` and `index` constraints become entries
with their column names resolved to the declared casing, primary keys and
foreign keys contribute nothing. -/
def index_definitions (tinfo : TableInfo) : List Chars :=
  tinfo.constraints.foldl
    (fun acc c => match c with
      | .primary_key _ => acc
      | .unique cols =>
        acc ++ ["    (".data ++ joinSep ", ".data (get_actual_column_names (some tinfo) cols)
                 ++ ") [unique]".data]
      | .index cols =>
        acc ++ ["    (".data ++ joinSep ", ".data (get_actual_column_names (some tinfo) cols)
                 ++ ")".data]
      | .foreign_key .. => acc)
    []

/-- `DBMLConverter._convert_table_to_dbml`. -/
def convert_table_to_dbml (table_name : Chars) (tinfo : TableInfo) : Chars :=
  let safe := escape_table_name table_name
  let pkSet := tinfo.constraints.foldl
    (fun s c => match c with
      | .primary_key cols => s ++ cols.map lowerS
      | _ => s)
    ([] : List Chars)
  let colLines := tinfo.columns.map (fun c =>
    let c2 := if pkSet.contains (lowerS c.name) then { c with primary_key := true } else c
    "  ".data ++ convert_column_to_dbml c2)
  let idxDefs := index_definitions tinfo
  let lines :=
    ("Table ".data ++ safe ++ [' ', obr]) :: colLines
      ++ (if idxDefs.isEmpty then []
          else [[], "  Indexes ".data ++ [obr]] ++ idxDefs ++ ["  ".data ++ [cbr]])
      ++ [[cbr]]
  joinSep "\n".data lines

/-- `Ref: src_table.src_col > tgt_table.tgt_col`. -/
def mkRefLine (tname src tgtTable tgtCol : Chars) : Chars :=
  "Ref: ".data ++ tname ++ '.' :: src ++ " > ".data ++ tgtTable ++ '.' :: tgtCol

/-- Append a reference line unless an identical line was already emitted
(`seen_references`). -/
def addIfNew (refs : List Chars) (line : Chars) : List Chars :=
  if refs.contains line then refs else refs ++ [line]

/-- The referenced-table name used for a `Ref:` line: the stored name of a
case-insensitive match in the batch, else the constraint's raw reference. -/
def fkTargetName (td : List (Chars × TableInfo)) (rt : Chars) : Chars :=
  match (find_table_in_data_with_name td rt).2 with
  | some n => n
  | none => rt

/-- The referenced columns used for a `Ref:` line: resolved against the
target table's declared casing when the table is in the batch, else used
verbatim. -/
def fkTargetCols (td : List (Chars × TableInfo)) (rt : Chars) (rcols : List Chars) : List Chars :=
  match (find_table_in_data_with_name td rt).1 with
  | some ti => get_actual_column_names (some ti) rcols
  | none => rcols

/-- The candidate reference lines of one foreign-key constraint: a single
line for a one-column key, one line per position pair for a composite key
of equal column counts. -/
def fkLines (td : List (Chars × TableInfo)) (tname : Chars) (tinfo : TableInfo)
    (cols : List Chars) (rt : Chars) (rcols : List Chars) : List Chars :=
  let source_cols := get_actual_column_names (some tinfo) cols
  let target_cols := fkTargetCols td rt rcols
  let target_name := fkTargetName td rt
  if source_cols.length == 1 && target_cols.length == 1 then
    [mkRefLine tname (source_cols.headD []) target_name (target_cols.headD [])]
  else if source_cols.length == target_cols.length && decide (0 < source_cols.length) then
    (List.range source_cols.length).map
      (fun i => mkRefLine tname (source_cols.getD i []) target_name (target_cols.getD i []))
  else []

/-- `DBMLConverter._extract_references`. -/
def extract_references (td : List (Chars × TableInfo)) : List Chars :=
  td.foldl
    (fun refs p =>
      p.2.constraints.foldl
        (fun refs c =>
          match c with
          | .foreign_key cols rt rcols => (fkLines td p.1 p.2 cols rt rcols).foldl addIfNew refs
          | _ => refs)
        refs)
    []

/-- `DBMLConverter.convert_tables_to_dbml`. -/
def convert_tables_to_dbml (td : List (Chars × TableInfo)) (schema_name : Option Chars) : Chars :=
  let header :=
    match schema_name with
    | some sn =>
      if sn.isEmpty then []
      else ["Project ".data ++ sn ++ [' ', obr], "  database_type: 'MySQL'".data, [cbr, '\n']]
    | none => []
  let tableBlocks := td.foldl (fun acc p => acc ++ [convert_table_to_dbml p.1 p.2, []]) []
  let refs := extract_references td
  let refPart := if refs.isEmpty then [] else "// Relationships".data :: refs
  joinSep "\n".data (header ++ tableBlocks ++ refPart)

/-!
## `DBMLConverter.validate_and_fix_missing_columns` — the reconciliation pass

The schema source directory is modelled as an association list from file
name to file text (wrapped in `Option`: `none` models a directory that
`os.path.exists` rejects).
-/

/-- The string `Indexes {`. -/
def indexesBraceStr : Chars := "Indexes ".data ++ [obr]

/-- Anchored matcher for `Table\s+(\w+)\s*\{([^}]+)\}`, returning the name,
the block content (everything before the first closing brace) and the
number of characters consumed. -/
def tableMatchAt (s : Chars) : Option (Chars × Chars × Nat) :=
  if startsWith s "Table".data then
    let r := s.drop 5
    let w := r.takeWhile isWsChar
    if w.isEmpty then none else
    let r2 := r.drop w.length
    let nm := r2.takeWhile isWordChar
    if nm.isEmpty then none else
    let r3 := r2.drop nm.length
    let w2 := r3.takeWhile isWsChar
    match r3.drop w2.length with
    | c :: rest =>
      if c == obr then
        let inner := rest.takeWhile (· != cbr)
        if !inner.isEmpty && (rest.drop inner.length).head? == some cbr then
          some (nm, inner, 5 + w.length + nm.length + w2.length + 1 + inner.length + 1)
        else none
      else none
    | [] => none
  else none

/-- `re.findall` of the table pattern: leftmost non-overlapping matches. -/
def findTablesGo : Nat → Chars → List (Chars × Chars)
  | 0, _ => []
  | _ + 1, [] => []
  | fuel + 1, s@(_ :: cs) =>
    match tableMatchAt s with
    | some (nm, inner, len) => (nm, inner) :: findTablesGo fuel (s.drop len)
    | none => findTablesGo fuel cs

/-- All `Table <name> { ... }` blocks of a DBML text. -/
def findTables (s : Chars) : List (Chars × Chars) := findTablesGo s.length s

/-- The lookahead `(?=,|\n\s*(?:PRIMARY|UNIQUE|KEY|CONSTRAINT|\)))` of the
column-extraction regex. -/
def attrLookahead (s : Chars) : Bool :=
  match s with
  | ',' :: _ => true
  | '\n' :: r =>
    let r2 := r.dropWhile isWsChar
    startsWith r2 "PRIMARY".data || startsWith r2 "UNIQUE".data
      || startsWith r2 "KEY".data || startsWith r2 "CONSTRAINT".data
      || startsWith r2 ")".data
  | _ => false

/-- The lazy group `([^,]+?)` with the lookahead: the shortest nonempty
comma-free prefix after which the lookahead holds. -/
def lazyAttrsGo : Nat → Chars → Chars → Option Chars
  | 0, _, _ => none
  | _ + 1, _, [] => none
  | fuel + 1, acc, c :: cs =>
    if c == ',' then none
    else
      let acc2 := acc ++ [c]
      if attrLookahead cs then some acc2 else lazyAttrsGo fuel acc2 cs

/-- The `\s+([^,]+?)(?=…)` tail: the regex engine prefers the longest
whitespace run, then the shortest attribute text. -/
def wsBacktrack : Nat → Chars → Option (Chars × Nat)
  | 0, _ => none
  | k + 1, r =>
    match lazyAttrsGo r.length [] (r.drop (k + 1)) with
    | some attrs => some (attrs, k + 1 + attrs.length)
    | none => wsBacktrack k r

/-- Anchored matcher for the column-extraction regex of
`_extract_columns_from_ddl_file`:
`` `([^`]+)`\s+([a-zA-Z]+(?:\([^)]*\))?)\s+([^,]+?)(?=,|\n\s*(?:PRIMARY|UNIQUE|KEY|CONSTRAINT|\))) ``,
returning name, type, attribute text and consumed length. -/
def ddlColMatchAt (s : Chars) : Option ((Chars × Chars × Chars) × Nat) :=
  match s with
  | c :: cs =>
    if c == bq then
      let nm := cs.takeWhile (· != bq)
      if !nm.isEmpty && (cs.drop nm.length).head? == some bq then
        let r := cs.drop (nm.length + 1)
        let w1 := r.takeWhile isWsChar
        if w1.isEmpty then none else
        let r2 := r.drop w1.length
        let letters := r2.takeWhile isAsciiLetter
        if letters.isEmpty then none else
        let tp : Chars × Nat :=
          match r2.drop letters.length with
          | '(' :: rest =>
            let inner := rest.takeWhile (· != ')')
            if (rest.drop inner.length).head? == some ')' then
              (letters ++ '(' :: inner ++ [')'], letters.length + inner.length + 2)
            else (letters, letters.length)
          | _ => (letters, letters.length)
        let r3 := r2.drop tp.2
        match wsBacktrack (r3.takeWhile isWsChar).length r3 with
        | some (attrs, alen) =>
          some ((nm, tp.1, attrs), 1 + nm.length + 1 + w1.length + tp.2 + alen)
        | none => none
      else none
    else none
  | [] => none

/-- `re.findall` of the column-extraction regex. -/
def ddlColsGo : Nat → Chars → List (Chars × Chars × Chars)
  | 0, _ => []
  | _ + 1, [] => []
  | fuel + 1, s@(_ :: cs) =>
    match ddlColMatchAt s with
    | some (m, len) => m :: ddlColsGo fuel (s.drop len)
    | none => ddlColsGo fuel cs

/-- A column record of the reconciliation pass
(`_extract_columns_from_ddl_file`'s result dictionary). -/
structure FixCol where
  name : Chars
  type : Chars
  nullable : Bool
  auto_increment : Bool
  default : Option Chars
deriving DecidableEq, Repr

/-- Anchored matcher for `DEFAULT\s+([^'\s]+|'[^']*')` (IGNORECASE). -/
def fixDefaultMatchAt (s : Chars) : Option Chars :=
  if upperS (s.take 7) == "DEFAULT".data && decide (7 ≤ s.length) then
    let r := s.drop 7
    let w := r.takeWhile isWsChar
    if w.isEmpty then none else
    let r2 := r.drop w.length
    let t := r2.takeWhile (fun c => !(c == sq || isWsChar c))
    if !t.isEmpty then some t
    else
      match r2 with
      | c :: cs =>
        if c == sq then
          let mid := cs.takeWhile (· != sq)
          if (cs.drop mid.length).head? == some sq then some (c :: mid ++ [sq]) else none
        else none
      | [] => none
  else none

/-- `DBMLConverter._extract_columns_from_ddl_file` (on the file's text). -/
def extract_columns_from_ddl (content : Chars) : List FixCol :=
  (ddlColsGo content.length content).map (fun m =>
    let au := upperS m.2.2
    let dflt :=
      match scanFor fixDefaultMatchAt m.2.2 with
      | some v =>
        if startsWith v [sq] && endsWith v [sq] then some ((v.drop 1).dropLast) else some v
      | none => none
    { name := m.1
      type := upperS m.2.1
      nullable := !containsSub au "NOT NULL".data
      auto_increment := containsSub au "AUTO_INCREMENT".data
      default := dflt })

/-- Column names present in a DBML table block (the line scan of
`validate_and_fix_missing_columns`): leading identifier of every
non-`Indexes`, non-`FK_`, non-comment line, matched by `^\s*(\w+)\s+`. -/
def dbml_col_names (table_content : Chars) : List Chars :=
  (splitOnChar '\n' table_content).foldl
    (fun acc line0 =>
      let line := stripWs line0
      if !line.isEmpty && !startsWith line "Indexes".data
          && !startsWith line "FK_".data && !startsWith line "//".data then
        let w0 := line.dropWhile isWsChar
        let nm := w0.takeWhile isWordChar
        if !nm.isEmpty && !((w0.drop nm.length).takeWhile isWsChar).isEmpty then
          if acc.contains nm then acc else acc ++ [nm]
        else acc
      else acc)
    []

/-- The reduced type mapping of `_convert_sql_type_to_dbml`
(`startswith` is tried in the source's insertion order). -/
def fix_type_mapping : List (Chars × Chars) :=
  [("TINYINT", "tinyint"), ("SMALLINT", "smallint"), ("MEDIUMINT", "int"),
   ("INT", "int"), ("INTEGER", "int"), ("BIGINT", "bigint"),
   ("DECIMAL", "decimal"), ("NUMERIC", "decimal"), ("FLOAT", "float"),
   ("DOUBLE", "double"), ("BIT", "bit"), ("CHAR", "char"),
   ("VARCHAR", "varchar"), ("BINARY", "binary"), ("VARBINARY", "varbinary"),
   ("TINYBLOB", "blob"), ("BLOB", "blob"), ("MEDIUMBLOB", "blob"),
   ("LONGBLOB", "blob"), ("TINYTEXT", "text"), ("TEXT", "text"),
   ("MEDIUMTEXT", "text"), ("LONGTEXT", "longtext"), ("ENUM", "enum"),
   ("SET", "set"), ("DATE", "date"), ("TIME", "time"),
   ("DATETIME", "datetime"), ("TIMESTAMP", "timestamp"), ("YEAR", "year"),
   ("JSON", "json")].map (fun p => (p.1.data, p.2.data))

/-- `DBMLConverter._convert_sql_type_to_dbml`. -/
def convert_sql_type_to_dbml (sql_type0 : Chars) : Chars :=
  let sql_type := upperS sql_type0
  match fix_type_mapping.find? (fun p => startsWith sql_type p.1) with
  | some p =>
    let size_part := stripWs (sql_type.drop p.1.length)
    if size_part.isEmpty then p.2 else p.2 ++ size_part
  | none =>
    if sql_type == "FOREIGN".data then "int".data else lowerS sql_type

/-- The attribute list synthesised for a patched column
(the inner chain of `validate_and_fix_missing_columns`). -/
def fix_col_attrs (col : FixCol) : List Chars :=
  (if !col.nullable then ["not null".data] else [])
  ++ (if col.auto_increment then ["increment".data] else [])
  ++ (match col.default with
      | some d =>
        if d.isEmpty then []
        else if upperS d == "CURRENT_TIMESTAMP".data then ["default: `now()`".data]
        else if upperS d == "NULL".data then ["default: null".data]
        else if isDigitsStr d || isDigitsStr (d.filter (fun c => c != '.' && c != '-')) then
          ["default: ".data ++ d]
        else if lowerS d == "true".data || lowerS d == "false".data then
          ["default: ".data ++ lowerS d]
        else ["default: '".data ++ escape_string_value d ++ [sq]]
      | none => [])

/-- `re.sub(r'\b' + re.escape(pat) + r'\b', rep, s)`: word-boundary
replacement, scanning the original string left to right. -/
def wbReplaceGo (pat rep : Chars) : Nat → Option Char → Chars → Chars
  | 0, _, s => s
  | _ + 1, _, [] => []
  | fuel + 1, prev, s@(c :: cs) =>
    let prevWord := match prev with
      | some p => isWordChar p
      | none => false
    let headW := isWordChar c
    let lastW := match pat.getLast? with
      | some l => isWordChar l
      | none => false
    if pat.isPrefixOf s && !pat.isEmpty then
      let afterS := s.drop pat.length
      let afterW := match afterS.head? with
        | some a => isWordChar a
        | none => false
      if (prevWord != headW) && (lastW != afterW) then
        rep ++ wbReplaceGo pat rep fuel pat.getLast? afterS
      else c :: wbReplaceGo pat rep fuel (some c) cs
    else c :: wbReplaceGo pat rep fuel (some c) cs

/-- Word-boundary replacement over a whole line. -/
def wbReplace (s pat rep : Chars) : Chars := wbReplaceGo pat rep s.length none s

/-- `DBMLConverter._fix_index_column_references`. -/
def fix_index_column_references (content : Chars) (ddlCols : List FixCol) : Chars :=
  let step : (Bool × List Chars) → Chars → (Bool × List Chars) := fun st line =>
    if containsSub line indexesBraceStr then (true, st.2 ++ [line])
    else if st.1 && stripWs line == [cbr] then (false, st.2 ++ [line])
    else if st.1 then
      let fixedLine := ddlCols.foldl
        (fun fl col =>
          [upperS col.name, lowerS col.name, col.name].foldl
            (fun fl2 patName =>
              if patName != col.name then wbReplace fl2 patName col.name else fl2)
            fl)
        line
      (true, st.2 ++ [fixedLine])
    else (st.1, st.2 ++ [line])
  joinSep "\n".data (((splitOnChar '\n' content).foldl step (false, [])).2)

/-- The set of missing columns computed for one table block
(`ground truth minus columns present in the DBML block`). -/
def table_missing_columns (files : List (Chars × Chars)) (tname tcontent : Chars) : List Chars :=
  match files.lookup (tname ++ ".sql".data) with
  | none => []
  | some ddlText =>
    let ddl_names := (extract_columns_from_ddl ddlText).map (·.name)
    let dbml_names := dbml_col_names tcontent
    ddl_names.filter (fun n => !dbml_names.contains n)

/-- Processing of one matched table block inside
`validate_and_fix_missing_columns` (patching `fixed`, the accumulated
document text). -/
def process_table (files : List (Chars × Chars)) (fixed : Chars) (tname tcontent : Chars) : Chars :=
  match files.lookup (tname ++ ".sql".data) with
  | none => fixed
  | some ddlText =>
    let ddl_columns := extract_columns_from_ddl ddlText
    let dbml_names := dbml_col_names tcontent
    let missing := (ddl_columns.map (·.name)).filter (fun n => !dbml_names.contains n)
    if missing.isEmpty then fixed
    else
      let missing_defs := ddl_columns.foldl
        (fun acc col =>
          if missing.contains col.name then
            let dbml_type := convert_sql_type_to_dbml col.type
            let attrs := fix_col_attrs col
            let attr_str :=
              if attrs.isEmpty then ([] : Chars)
              else " [".data ++ joinSep ", ".data attrs ++ "]".data
            let clean_name := replChar ' ' "_".data col.name
            acc ++ ["  ".data ++ clean_name ++ ' ' :: dbml_type ++ attr_str]
          else acc)
        []
      if missing_defs.isEmpty then fixed
      else
        let old_table_def := "Table ".data ++ tname ++ [' ', obr] ++ tcontent ++ [cbr]
        let res := missing_defs.foldl
          (fun (st : List Chars × List Chars) col_def =>
            let w0 := col_def.dropWhile isWsChar
            let nm := w0.takeWhile isWordChar
            if !nm.isEmpty && !((w0.drop nm.length).takeWhile isWsChar).isEmpty then
              if st.1.contains nm then st
              else (st.1 ++ [nm], st.2 ++ [col_def])
            else st)
          (dbml_col_names tcontent, [])
        let filtered := res.2
        if filtered.isEmpty then fixed
        else
          let new_content0 :=
            if containsSub tcontent indexesBraceStr then
              let pos : Int :=
                match findSub tcontent ('\n' :: "  ".data ++ indexesBraceStr) with
                | some n => (n : Int)
                | none => -1
              pySliceTo tcontent pos ++ '\n' :: joinSep "\n".data filtered
                ++ '\n' :: pySliceFrom tcontent pos
            else rstripWs tcontent ++ '\n' :: joinSep "\n".data filtered ++ ['\n']
          let new_content := fix_index_column_references new_content0 ddl_columns
          let new_table_def := "Table ".data ++ tname ++ [' ', obr] ++ new_content ++ [cbr]
          replaceSub fixed old_table_def new_table_def

/-- `DBMLConverter.validate_and_fix_missing_columns`: the directory is an
association list of file names to file texts (`none` = missing directory). -/
def validate_and_fix_missing_columns (dbml_content : Chars)
    (schema_dir : Option (List (Chars × Chars))) : Chars :=
  match schema_dir with
  | none => dbml_content
  | some files =>
    (findTables dbml_content).foldl
      (fun fixed p => process_table files fixed p.1 p.2)
      dbml_content

/-- `true` when the reconciliation scan finds no missing column in any
table block of the document. -/
def finds_no_missing (dbml_content : Chars) (schema_dir : Option (List (Chars × Chars))) : Bool :=
  match schema_dir with
  | none => true
  | some files =>
    (findTables dbml_content).all (fun p => (table_missing_columns files p.1 p.2).isEmpty)

/-!
## `postgresql_ddl_parser.py` — the PostgreSQL extractor
-/

/-- A PostgreSQL column record (`_parse_postgresql_column`'s dictionary;
its `comment` entry is always `None` and is omitted). -/
structure PgColumn where
  name : Chars
  type : Chars
  attributes : List Chars
  default : Option Chars
deriving DecidableEq, Repr

/-- A PostgreSQL constraint record. -/
inductive PgConstraint where
  | primary_key (columns : List Chars)
  | unique (columns : List Chars)
  | foreign_key (columns : List Chars) (ref_table : Chars) (ref_columns : List Chars)
      (ref_schema : Option Chars)
deriving DecidableEq, Repr

/-- A PostgreSQL table record (`parse_ddl_content`'s per-table dictionary). -/
structure PgTable where
  name : Chars
  schema : Option Chars
  columns : List PgColumn
  constraints : List PgConstraint
deriving DecidableEq, Repr

/-- `PostgreSQLDDLParser._clean_identifier`. -/
def pg_clean_identifier (s : Chars) : Chars :=
  let cleaned := stripSet s [dq, sq, bq]
  if cleaned.contains '.' then
    let parts := splitOnChar '.' cleaned
    if parts.length == 2 then stripSet (parts.getD 1 []) [dq, sq, bq] else cleaned
  else cleaned

/-- The PostgreSQL type mapping table (`PostgreSQLDDLParser.__init__`). -/
def postgresql_type_mapping : List (Chars × Chars) :=
  [("character varying", "VARCHAR"), ("character", "CHAR"),
   ("varchar", "VARCHAR"), ("char", "CHAR"), ("text", "TEXT"),
   ("integer", "INT"), ("int", "INT"), ("int4", "INT"),
   ("bigint", "BIGINT"), ("int8", "BIGINT"), ("smallint", "SMALLINT"),
   ("int2", "SMALLINT"), ("decimal", "DECIMAL"), ("numeric", "DECIMAL"),
   ("real", "REAL"), ("float4", "REAL"), ("double precision", "DOUBLE"),
   ("float8", "DOUBLE"), ("serial", "SERIAL"), ("bigserial", "BIGSERIAL"),
   ("smallserial", "SMALLSERIAL"), ("boolean", "BOOLEAN"),
   ("bool", "BOOLEAN"), ("date", "DATE"), ("time", "TIME"),
   ("time without time zone", "TIME"), ("time with time zone", "TIMETZ"),
   ("timestamp", "TIMESTAMP"), ("timestamp without time zone", "TIMESTAMP"),
   ("timestamp with time zone", "TIMESTAMPTZ"), ("interval", "INTERVAL"),
   ("uuid", "UUID"), ("json", "JSON"), ("jsonb", "JSONB"), ("xml", "XML"),
   ("bytea", "BYTEA"), ("inet", "INET"), ("cidr", "CIDR"),
   ("macaddr", "MACADDR"), ("point", "POINT"), ("line", "LINE"),
   ("lseg", "LSEG"), ("box", "BOX"), ("path", "PATH"),
   ("polygon", "POLYGON"), ("circle", "CIRCLE"), ("money", "MONEY"),
   ("regclass", "REGCLASS")].map (fun p => (p.1.data, p.2.data))

/-- `PostgreSQLDDLParser._normalize_postgresql_type`
(regex `^([^(]+)(\(.+\))?$` over the lowered, stripped type text). -/
def pg_normalize_type (data_type : Chars) : Chars :=
  let dtl := stripWs (lowerS data_type)
  let base := dtl.takeWhile (· != '(')
  let rest := dtl.drop base.length
  let matched : Option (Chars × Chars) :=
    if base.isEmpty then none
    else if rest.isEmpty then some (base, [])
    else if rest.head? == some '(' && rest.getLast? == some ')' && decide (3 ≤ rest.length)
        && !((rest.drop 1).dropLast.contains '\n') then some (base, rest)
    else none
  match matched with
  | some p =>
    match postgresql_type_mapping.lookup (stripWs p.1) with
    | some m => m ++ p.2
    | none => data_type
  | none =>
    match postgresql_type_mapping.lookup dtl with
    | some m => m
    | none => data_type

/-- The clause keywords that terminate the multi-word type accumulation. -/
def pgClauseKeywords : List Chars :=
  ["NOT", "NULL", "DEFAULT", "PRIMARY", "UNIQUE", "REFERENCES", "CHECK"].map String.data

/-- Anchored matcher for `DEFAULT\s+([^,\s]+(?:\([^)]*\))?)` (IGNORECASE). -/
def pgDefaultMatchAt (s : Chars) : Option Chars :=
  if upperS (s.take 7) == "DEFAULT".data && decide (7 ≤ s.length) then
    let r := s.drop 7
    let w := r.takeWhile isWsChar
    if w.isEmpty then none else
    let r2 := r.drop w.length
    let tok := r2.takeWhile (fun c => !(c == ',' || isWsChar c))
    if tok.isEmpty then none else
    match r2.drop tok.length with
    | '(' :: rr =>
      let inner := rr.takeWhile (· != ')')
      if (rr.drop inner.length).head? == some ')' then some (tok ++ '(' :: inner ++ [')'])
      else some tok
    | _ => some tok
  else none

/-- `PostgreSQLDDLParser._parse_postgresql_column`. -/
def parse_postgresql_column (item0 : Chars) : Option PgColumn :=
  let item := stripWs item0
  let parts := splitWs item
  if decide (parts.length < 2) then none else
  let column_name := pg_clean_identifier (parts.headD [])
  let tloop := (parts.drop 1).foldl
    (fun (st : Bool × Chars × Nat) p =>
      if st.1 then st
      else if pgClauseKeywords.contains (upperS p) then (true, st.2.1, st.2.2)
      else (false, (if st.2.1.isEmpty then p else st.2.1 ++ ' ' :: p), st.2.2 + 1))
    (false, [], 1)
  let data_type_clean := pg_normalize_type tloop.2.1
  let remaining_text := upperS (joinSep [' '] (parts.drop tloop.2.2))
  let attrs0 :=
    (if containsSub remaining_text "NOT NULL".data then ["not null".data] else [])
    ++ (if containsSub remaining_text "PRIMARY KEY".data then ["pk".data] else [])
    ++ (if containsSub remaining_text "UNIQUE".data then ["unique".data] else [])
  let ad : List Chars × Option Chars :=
    match scanFor pgDefaultMatchAt item with
    | none => (attrs0, none)
    | some v =>
      if upperS v == "CURRENT_TIMESTAMP".data then (attrs0, some "CURRENT_TIMESTAMP".data)
      else if containsSub (lowerS v) "nextval(".data then (attrs0 ++ ["increment".data], none)
      else (attrs0, some v)
  some { name := column_name, type := data_type_clean, attributes := ad.1, default := ad.2 }

/-- `PostgreSQLDDLParser._extract_columns_from_string`
(first `\(([^)]+)\)` group, split on commas, cleaned, empties dropped). -/
def pg_extract_columns_from_string (item : Chars) : List Chars :=
  match scanFor parenGroup1 item with
  | none => []
  | some inner =>
    ((splitOnChar ',' inner).map (fun c => pg_clean_identifier (stripWs c))).filter
      (fun c => !c.isEmpty)

/-- The quoted-name fragment `(?:")?(\w+)(?:")?` of the PostgreSQL
FOREIGN KEY / CREATE TABLE patterns: optional double quotes around a word,
returning the word and the consumed length. -/
def pgQuotedName (s : Chars) : Option (Chars × Nat) :=
  let p : Chars × Nat :=
    match s with
    | c :: cs => if c == dq then (cs, 1) else (s, 0)
    | [] => (s, 0)
  let nm := p.1.takeWhile isWordChar
  if nm.isEmpty then none
  else
    let r := p.1.drop nm.length
    match r with
    | c :: _ => if c == dq then some (nm, p.2 + nm.length + 1) else some (nm, p.2 + nm.length)
    | [] => some (nm, p.2 + nm.length)

/-- Anchored matcher (IGNORECASE) for
`FOREIGN\s+KEY\s*\(([^)]+)\)\s+REFERENCES\s+(?:(\w+)\.)?(?:")?(\w+)(?:")?\s*\(([^)]+)\)`. -/
def pgFkMatchAt (s : Chars) : Option (Chars × Option Chars × Chars × Chars) :=
  if upperS (s.take 7) == "FOREIGN".data && decide (7 ≤ s.length) then
    let r := s.drop 7
    let w := r.takeWhile isWsChar
    if w.isEmpty then none else
    let r2 := r.drop w.length
    if upperS (r2.take 3) == "KEY".data && decide (3 ≤ r2.length) then
      match parenGroup1R ((r2.drop 3).dropWhile isWsChar) with
      | some (cols, r4) =>
        let w2 := r4.takeWhile isWsChar
        if w2.isEmpty then none else
        let r5 := r4.drop w2.length
        if upperS (r5.take 10) == "REFERENCES".data && decide (10 ≤ r5.length) then
          let r6 := r5.drop 10
          let w3 := r6.takeWhile isWsChar
          if w3.isEmpty then none else
          let r7 := r6.drop w3.length
          let tail := fun (schema : Option Chars) (x : Chars) =>
            match pgQuotedName x with
            | some (nm, len) =>
              match parenGroup1R ((x.drop len).dropWhile isWsChar) with
              | some (rcols, _) => some (cols, schema, nm, rcols)
              | none => none
            | none => none
          let sw := r7.takeWhile isWordChar
          let withSchema :=
            if !sw.isEmpty && (r7.drop sw.length).head? == some '.' then
              tail (some sw) (r7.drop (sw.length + 1))
            else none
          match withSchema with
          | some m => some m
          | none => tail none r7
        else none
      | none => none
    else none
  else none

/-- `PostgreSQLDDLParser._parse_postgresql_foreign_key`. -/
def parse_postgresql_foreign_key (item : Chars) : Option PgConstraint :=
  (scanFor pgFkMatchAt item).map (fun m =>
    .foreign_key ((splitOnChar ',' m.1).map (fun c => pg_clean_identifier (stripWs c)))
      (pg_clean_identifier m.2.2.1)
      ((splitOnChar ',' m.2.2.2).map (fun c => pg_clean_identifier (stripWs c)))
      m.2.1)

/-- `PostgreSQLDDLParser._parse_postgresql_constraint`. -/
def parse_postgresql_constraint (item : Chars) : Option PgConstraint :=
  let u := upperS item
  let pk :=
    if containsSub u "PRIMARY KEY".data && containsSub u "CONSTRAINT".data then
      let cols := pg_extract_columns_from_string item
      if cols.isEmpty then none else some (PgConstraint.primary_key cols)
    else none
  match pk with
  | some c => some c
  | none =>
    if containsSub u "FOREIGN KEY".data && containsSub u "REFERENCES".data then
      parse_postgresql_foreign_key item
    else if containsSub u "UNIQUE".data && containsSub u "CONSTRAINT".data then
      let cols := pg_extract_columns_from_string item
      if cols.isEmpty then none else some (PgConstraint.unique cols)
    else none

/-- `PostgreSQLDDLParser._split_table_items`. -/
def pgSplitItemsGo : Chars → Option Char → Option Char → Int → Chars → List Chars → List Chars
  | [], _, _, _, cur, items =>
    let last := stripWs cur.reverse
    (if last.isEmpty then items else last :: items).reverse
  | c :: cs, prev, qc, d, cur, items =>
    if (c == dq || c == sq) && (prev == none || prev != some '\\') then
      let qc2 := if qc == none then some c else if qc == some c then none else qc
      pgSplitItemsGo cs (some c) qc2 d (c :: cur) items
    else if qc == none then
      if c == '(' then pgSplitItemsGo cs (some c) qc (d + 1) (c :: cur) items
      else if c == ')' then pgSplitItemsGo cs (some c) qc (d - 1) (c :: cur) items
      else if c == ',' && d == 0 then
        let item := stripWs cur.reverse
        pgSplitItemsGo cs (some c) qc d [] (if item.isEmpty then items else item :: items)
      else pgSplitItemsGo cs (some c) qc d (c :: cur) items
    else pgSplitItemsGo cs (some c) qc d (c :: cur) items

/-- `PostgreSQLDDLParser._parse_postgresql_table_content`. -/
def parse_postgresql_table_content (content : Chars) : List PgColumn × List PgConstraint :=
  (pgSplitItemsGo content none none 0 [] []).foldl
    (fun acc item0 =>
      let item := stripWs item0
      if item.isEmpty then acc
      else
        match parse_postgresql_constraint item with
        | some c => (acc.1, acc.2 ++ [c])
        | none =>
          match parse_postgresql_column item with
          | some col => (acc.1 ++ [col], acc.2)
          | none => acc)
    ([], [])

/-- Anchored matcher (IGNORECASE, DOTALL) for the whole-statement pattern
`CREATE\s+TABLE\s+(?:(\w+)\.)?(?:")?(\w+)(?:")?\s*\((.*?)\);` of
`PostgreSQLDDLParser.parse_ddl_content`, returning schema, table name,
body text and consumed length. -/
def pgCreateMatchAt (s : Chars) : Option ((Option Chars × Chars × Chars) × Nat) :=
  if upperS (s.take 6) == "CREATE".data && decide (6 ≤ s.length) then
    let r := s.drop 6
    let w1 := r.takeWhile isWsChar
    if w1.isEmpty then none else
    let r2 := r.drop w1.length
    if upperS (r2.take 5) == "TABLE".data && decide (5 ≤ r2.length) then
      let r3 := r2.drop 5
      let w2 := r3.takeWhile isWsChar
      if w2.isEmpty then none else
      let r4 := r3.drop w2.length
      let pre := 6 + w1.length + 5 + w2.length
      let tail := fun (schema : Option Chars) (x : Chars) (consumed : Nat) =>
        match pgQuotedName x with
        | some (nm, len) =>
          let x2 := x.drop len
          let w3 := x2.takeWhile isWsChar
          match x2.drop w3.length with
          | '(' :: rest =>
            match findSub rest [')', ';'] with
            | some idx =>
              some ((schema, nm, rest.take idx),
                pre + consumed + len + w3.length + 1 + idx + 2)
            | none => none
          | _ => none
        | none => none
      let sw := r4.takeWhile isWordChar
      let withSchema :=
        if !sw.isEmpty && (r4.drop sw.length).head? == some '.' then
          tail (some sw) (r4.drop (sw.length + 1)) (sw.length + 1)
        else none
      match withSchema with
      | some m => some m
      | none => tail none r4 0
    else none
  else none

/-- `re.finditer` of the CREATE TABLE pattern. -/
def pgFindCreatesGo : Nat → Chars → List (Option Chars × Chars × Chars)
  | 0, _ => []
  | _ + 1, [] => []
  | fuel + 1, s@(_ :: cs) =>
    match pgCreateMatchAt s with
    | some (m, len) => m :: pgFindCreatesGo fuel (s.drop len)
    | none => pgFindCreatesGo fuel cs

/-- All CREATE TABLE matches of a PostgreSQL DDL text. -/
def pgFindCreates (s : Chars) : List (Option Chars × Chars × Chars) :=
  pgFindCreatesGo s.length s

/-- `PostgreSQLDDLParser.parse_ddl_content`: a matched statement is
recorded only when its parsed column list is nonempty. -/
def pg_parse_ddl_content (content : Chars) : List (Chars × PgTable) :=
  (pgFindCreates content).foldl
    (fun acc m =>
      let clean := pg_clean_identifier m.2.1
      let cc := parse_postgresql_table_content m.2.2
      if !cc.1.isEmpty then
        assocUpd acc clean ⟨clean, m.1, cc.1, cc.2⟩
      else acc)
    []

/-!
## `base_ddl_parser.py` — encoding-fallback file reading

A file is a byte sequence; decoding is abstract (a function from encoding
name and bytes to an optional text), so the theorems quantify over every
decoder behaviour.
-/

/-- The fixed encoding list of `BaseDDLParser.parse_file`. -/
def encodingNames : List Chars :=
  ["utf-8", "cp949", "euc-kr", "latin-1"].map String.data

/-- The fallback loop of `parse_file`: first encoding that decodes wins. -/
def try_encodings (decode : Chars → List Nat → Option Chars) (file : List Nat) :
    List Chars → Option Chars
  | [] => none
  | e :: es =>
    match decode e file with
    | some c => some c
    | none => try_encodings decode file es

/-- `BaseDDLParser.parse_file`: decode with the fallback chain, parse the
decoded text; raise (return `Except.error`) when every encoding fails. -/
def parse_file (decode : Chars → List Nat → Option Chars) (parseContent : Chars → α)
    (file : List Nat) : Except Chars α :=
  match try_encodings decode file encodingNames with
  | some content => .ok (parseContent content)
  | none => .error "Cannot decode file with any of the supported encodings".data

/-!
## The dialect detector
-/

/-- The two dialects. -/
inductive Dialect where
  | mysql | postgresql
deriving DecidableEq, Repr

/-- Modelled from the spec: the PostgreSQL lexical indicator set of the
dialect detector (spec §4.1; the detector itself is not among the source
files under `src/`). -/
def postgresql_indicators : List Chars :=
  ["CHARACTER VARYING", "TIMESTAMP WITHOUT TIME ZONE", "JSONB", "SERIAL",
   "NEXTVAL("].map String.data

/-- Modelled from the spec: the MySQL lexical indicator set of the dialect
detector (spec §4.1). -/
def mysql_indicators : List Chars :=
  ["AUTO_INCREMENT", "TINYINT", "ENGINE=", "CHARSET="].map String.data

/-- Modelled from the spec: the case-insensitive substring-hit count for an
indicator set (spec §4.1). -/
def dialect_score (indicators : List Chars) (text : Chars) : Nat :=
  (indicators.map (fun ind => countSub (upperS text) ind)).sum

/-- Modelled from the spec: the dialect detector — a pure function of the
DDL text returning `postgresql` only when the PostgreSQL score is strictly
greater than the MySQL score, `mysql` otherwise (ties included). -/
def detect_database_type (text : Chars) : Dialect :=
  if dialect_score postgresql_indicators text > dialect_score mysql_indicators text then
    .postgresql
  else .mysql

/-!
## General lemmas about the helper functions
-/

theorem lookup_assocUpd {α : Type} (m : List (Chars × α)) (k n : Chars) (v : α) :
    (assocUpd m k v).lookup n = if n == k then some v else m.lookup n := by
  induction m with
  | nil =>
    simp only [assocUpd, List.lookup]
    cases h : n == k
    · rfl
    · rfl
  | cons hd tl ih =>
    obtain ⟨k0, v0⟩ := hd
    simp only [assocUpd]
    cases hk : k0 == k
    · simp only [Bool.false_eq_true, if_false, List.lookup]
      cases hn : n == k0
      · simpa using ih
      · have hnk0 : n = k0 := eq_of_beq hn
        have : (n == k) = false := by
          apply beq_eq_false_iff_ne.mpr
          intro h
          rw [← hnk0, h] at hk
          simp at hk
        simp [this]
    · simp only [if_true, List.lookup]
      have hk0 : k0 = k := eq_of_beq hk
      cases hn : n == k0
      · have : (n == k) = false := by
          apply beq_eq_false_iff_ne.mpr
          intro h
          rw [← hk0] at h
          rw [h] at hn
          simp at hn
        simp [this]
      · have : (n == k) = true := by rw [eq_of_beq hn, hk0]; simp
        simp [this]

theorem foldl_fixed {α : Type} {β : Type} (f : α → β → α) (l : List β) (a : α)
    (h : ∀ x ∈ l, ∀ b, f b x = b) : l.foldl f a = a := by
  induction l generalizing a with
  | nil => rfl
  | cons hd tl ih =>
    rw [List.foldl_cons, h hd (List.mem_cons_self hd tl)]
    exact ih a (fun x hx b => h x (List.mem_cons_of_mem hd hx) b)

theorem containsSub_cons (c : Char) (s pat : Chars) :
    containsSub (c :: s) pat = (pat.isPrefixOf (c :: s) || containsSub s pat) := by
  conv_lhs => rw [containsSub.eq_def]
  cases h : pat.isPrefixOf (c :: s) <;> simp [h]

theorem containsSub_of_decomp (pre pat post : Chars) :
    containsSub (pre ++ pat ++ post) pat = true := by
  induction pre with
  | nil =>
    rw [List.nil_append, containsSub.eq_def]
    have : pat.isPrefixOf (pat ++ post) = true :=
      List.isPrefixOf_iff_prefix.mpr (List.prefix_append pat post)
    simp [this]
  | cons c cs ih =>
    have he : (c :: cs) ++ pat ++ post = c :: (cs ++ pat ++ post) := by simp
    rw [he, containsSub_cons, ih]
    simp

theorem joinSep_mem_decomp (s : Chars) (l : List Chars) (x : Chars) (hx : x ∈ l) :
    ∃ a b, joinSep s l = a ++ x ++ b := by
  induction l with
  | nil => cases hx
  | cons hd tl ih =>
    rcases List.mem_cons.mp hx with h | h
    · subst h
      cases tl with
      | nil => exact ⟨[], [], by simp [joinSep]⟩
      | cons h2 t2 =>
        refine ⟨[], s ++ joinSep s (h2 :: t2), ?_⟩
        simp [joinSep, List.append_assoc]
    · obtain ⟨a, b, hab⟩ := ih h
      cases tl with
      | nil => cases h
      | cons h2 t2 =>
        refine ⟨hd ++ s ++ a, b, ?_⟩
        show joinSep s (hd :: h2 :: t2) = hd ++ s ++ a ++ x ++ b
        rw [joinSep, hab]
        simp [List.append_assoc]

theorem containsSub_of_mem_joinSep (s : Chars) (l : List Chars) (x : Chars) (hx : x ∈ l) :
    containsSub (joinSep s l) x = true := by
  obtain ⟨a, b, hab⟩ := joinSep_mem_decomp s l x hx
  rw [hab]
  exact containsSub_of_decomp a x b

theorem char_toUpper_eq_self {c : Char} (h : c.toNat < 97) : c.toUpper = c := by
  simp only [Char.toUpper]
  rw [if_neg]
  omega

/-!
## Claim theorems
-/

set_option maxRecDepth 100000

set_option maxHeartbeats 10000000

/-- The spec's example input of claim C1: the `users` table DDL. -/
def c1_input : Chars :=
  ("CREATE TABLE `users` (\n  `id` bigint(20) NOT NULL AUTO_INCREMENT,\n  `email` varchar(100) UNIQUE,\n  `created_at` timestamp DEFAULT CURRENT_TIMESTAMP,\n  PRIMARY KEY (`id`)\n);").data

/-- The full evaluation of the pipeline (extraction followed by
serialization) on the example input, established once. -/
theorem c1_output_eq :
    convert_tables_to_dbml (parse_ddl_content c1_input) none =
      ("Table users \x7b\n  id bigint [pk, increment, not null]\n  email varchar [unique]\n  created_at timestamp [default: `now()`]\n\x7d\n").data := by
  decide

/-- C1 counterexample: on the spec's example input, the serialized output of
`DDLParser.parse_ddl_content` followed by
`DBMLConverter.convert_tables_to_dbml` contains neither of the claimed
column lines `id bigint(20) [pk, increment]` and
`email varchar(100) [unique]` — the parenthesized sizes are lost on this
parse path, and the `id` line carries `not null`. -/
theorem C1_counterexample :
    containsSub (convert_tables_to_dbml (parse_ddl_content c1_input) none)
      "id bigint(20) [pk, increment]".data = false
    ∧ containsSub (convert_tables_to_dbml (parse_ddl_content c1_input) none)
      "email varchar(100) [unique]".data = false := by
  rw [c1_output_eq]
  constructor
  · decide
  · decide

/-- C1 amended: on the spec's example input, extraction followed by
serialization produces exactly the `Table users` block with column lines
`id bigint [pk, increment, not null]`, `email varchar [unique]`,
`created_at timestamp [default: `now()`]`, and no `Indexes` block (the
table-level PRIMARY KEY is absorbed into the `id` column's `pk` attribute
and the single-column UNIQUE into the `email` column's `unique` attribute;
the type sizes are dropped because the token re-join separates
`bigint (20)`, and `NOT NULL` on the pk column is emitted). -/
theorem C1_amended :
    convert_tables_to_dbml (parse_ddl_content c1_input) none =
      ("Table users \x7b\n  id bigint [pk, increment, not null]\n  email varchar [unique]\n  created_at timestamp [default: `now()`]\n\x7d\n").data
    ∧ containsSub (convert_tables_to_dbml (parse_ddl_content c1_input) none)
      "Indexes".data = false := by
  refine ⟨c1_output_eq, ?_⟩
  rw [c1_output_eq]
  decide

/-- C7 (spec-modelled): the dialect detector is a pure function of the DDL
text that returns `postgresql` exactly when the PostgreSQL indicator score
strictly exceeds the MySQL indicator score; every other case — ties
included — resolves to `mysql`. -/
theorem C7_dialect_detector (text : Chars) :
    (detect_database_type text = Dialect.postgresql
      ↔ dialect_score mysql_indicators text < dialect_score postgresql_indicators text)
    ∧ (detect_database_type text = Dialect.mysql
      ↔ ¬ dialect_score mysql_indicators text < dialect_score postgresql_indicators text) := by
  unfold detect_database_type
  by_cases h : dialect_score mysql_indicators text < dialect_score postgresql_indicators text
  · constructor
    · simp [gt_iff_lt, h]
    · simp [gt_iff_lt, h]
  · constructor
    · simp [gt_iff_lt, h]
    · simp [gt_iff_lt, h]

/-- C8: `parse_file` tries the fixed encoding list
`utf-8, cp949, euc-kr, latin-1` in order, parses the content produced by
the first encoding that decodes, raises (returns `Except.error`) when every
encoding fails, and returns a successful result only from a decoded
content. -/
theorem C8_encoding_fallback {α : Type} (decode : Chars → List Nat → Option Chars)
    (parseContent : Chars → α) (file : List Nat) :
    ((∀ e ∈ encodingNames, decode e file = none) →
      parse_file decode parseContent file
        = .error "Cannot decode file with any of the supported encodings".data)
    ∧ (∀ c, decode "utf-8".data file = some c →
        parse_file decode parseContent file = .ok (parseContent c))
    ∧ (∀ c, decode "utf-8".data file = none → decode "cp949".data file = some c →
        parse_file decode parseContent file = .ok (parseContent c))
    ∧ (∀ c, decode "utf-8".data file = none → decode "cp949".data file = none →
        decode "euc-kr".data file = some c →
        parse_file decode parseContent file = .ok (parseContent c))
    ∧ (∀ c, decode "utf-8".data file = none → decode "cp949".data file = none →
        decode "euc-kr".data file = none → decode "latin-1".data file = some c →
        parse_file decode parseContent file = .ok (parseContent c))
    ∧ (∀ r, parse_file decode parseContent file = .ok r →
        ∃ e ∈ encodingNames, ∃ c, decode e file = some c ∧ r = parseContent c) := by
  refine ⟨?_, ?_, ?_, ?_, ?_, ?_⟩
  · intro h
    have h1 := h "utf-8".data (by simp [encodingNames])
    have h2 := h "cp949".data (by simp [encodingNames])
    have h3 := h "euc-kr".data (by simp [encodingNames])
    have h4 := h "latin-1".data (by simp [encodingNames])
    simp [parse_file, encodingNames, try_encodings, h1, h2, h3, h4]
  · intro c h1
    simp [parse_file, encodingNames, try_encodings, h1]
  · intro c h1 h2
    simp [parse_file, encodingNames, try_encodings, h1, h2]
  · intro c h1 h2 h3
    simp [parse_file, encodingNames, try_encodings, h1, h2, h3]
  · intro c h1 h2 h3 h4
    simp [parse_file, encodingNames, try_encodings, h1, h2, h3, h4]
  · intro r hr
    simp only [parse_file, encodingNames, try_encodings] at hr
    cases h1 : decode "utf-8".data file with
    | some c =>
      rw [h1] at hr
      refine ⟨"utf-8".data, by simp [encodingNames], c, h1, ?_⟩
      simpa using hr.symm
    | none =>
      rw [h1] at hr
      cases h2 : decode "cp949".data file with
      | some c =>
        rw [h2] at hr
        refine ⟨"cp949".data, by simp [encodingNames], c, h2, ?_⟩
        simpa using hr.symm
      | none =>
        rw [h2] at hr
        cases h3 : decode "euc-kr".data file with
        | some c =>
          rw [h3] at hr
          refine ⟨"euc-kr".data, by simp [encodingNames], c, h3, ?_⟩
          simpa using hr.symm
        | none =>
          rw [h3] at hr
          cases h4 : decode "latin-1".data file with
          | some c =>
            rw [h4] at hr
            refine ⟨"latin-1".data, by simp [encodingNames], c, h4, ?_⟩
            simpa using hr.symm
          | none =>
            rw [h4] at hr
            simp at hr

/-- C8 witness: a decoder that fails for utf-8 and cp949 and succeeds for
euc-kr makes `parse_file` parse the euc-kr text. -/
theorem C8_encoding_fallback_witness :
    parse_file (fun e _ => if e == "euc-kr".data then some "CREATE".data else none)
      (fun c => c) [] = .ok "CREATE".data := by
  exact (C8_encoding_fallback
    (fun e _ => if e == "euc-kr".data then some "CREATE".data else none)
    (fun c => c) []).2.2.2.1 "CREATE".data (by decide) (by decide) (by decide)

/-- The per-match fold of `pg_parse_ddl_content` preserves the invariant
that every stored table has a nonempty column list. -/
theorem pg_fold_columns_nonempty (l : List (Option Chars × Chars × Chars)) :
    ∀ (acc : List (Chars × PgTable)),
      (∀ n t, acc.lookup n = some t → t.columns ≠ []) →
      ∀ n t, (l.foldl (fun acc m =>
          let clean := pg_clean_identifier m.2.1
          let cc := parse_postgresql_table_content m.2.2
          if !cc.1.isEmpty then assocUpd acc clean ⟨clean, m.1, cc.1, cc.2⟩ else acc) acc).lookup n
        = some t → t.columns ≠ [] := by
  induction l with
  | nil => intro acc hacc n t ht; exact hacc n t ht
  | cons hd tl ih =>
    intro acc hacc n t ht
    rw [List.foldl_cons] at ht
    refine ih _ ?_ n t ht
    intro n2 t2 ht2
    dsimp only at ht2
    cases hE : (parse_postgresql_table_content hd.2.2).1.isEmpty with
    | true =>
      rw [hE] at ht2
      simp only [Bool.not_true, Bool.false_eq_true, if_false] at ht2
      exact hacc n2 t2 ht2
    | false =>
      rw [hE] at ht2
      simp only [Bool.not_false, if_true] at ht2
      rw [lookup_assocUpd] at ht2
      cases hn2 : n2 == pg_clean_identifier hd.2.1 with
      | false =>
        rw [if_neg (by rw [hn2]; exact Bool.false_ne_true)] at ht2
        exact hacc n2 t2 ht2
      | true =>
        rw [if_pos hn2] at ht2
        injection ht2 with hv
        intro hc
        rw [← hv] at hc
        have hcols : (parse_postgresql_table_content hd.2.2).1 = [] := hc
        rw [hcols] at hE
        simp at hE

/-- C10: `PostgreSQLDDLParser.parse_ddl_content` never returns a table
entry with an empty column list — a matched CREATE TABLE whose body yields
zero recognized columns is omitted from the mapping. -/
theorem C10_empty_tables_omitted (content : Chars) (name : Chars) (ti : PgTable)
    (h : (pg_parse_ddl_content content).lookup name = some ti) : ti.columns ≠ [] := by
  unfold pg_parse_ddl_content at h
  exact pg_fold_columns_nonempty _ []
    (by intro n t ht; simp [List.lookup] at ht) name ti h

/-- The PostgreSQL CREATE TABLE witness statement and its expected record. -/
def c10_table : PgTable :=
  { name := "t".data, schema := none
    columns := [{ name := "a".data, type := "INT".data, attributes := [], default := none }]
    constraints := [] }

/-- C10 witness: a schema-qualified statement whose body is only a
constraint yields no entry at all, and a statement with a real column
yields an entry whose column list the theorem proves nonempty. -/
theorem C10_empty_tables_omitted_witness :
    pg_parse_ddl_content "CREATE TABLE public.t (CONSTRAINT pk PRIMARY KEY (a));".data = []
    ∧ (pg_parse_ddl_content "CREATE TABLE t (a int);".data).lookup "t".data = some c10_table
    ∧ c10_table.columns ≠ [] := by
  refine ⟨by decide, by decide, ?_⟩
  exact C10_empty_tables_omitted "CREATE TABLE t (a int);".data "t".data c10_table (by decide)

theorem band_elim {a b : Bool} (h : (a && b) = true) : a = true ∧ b = true := by
  cases a <;> cases b <;> simp_all

theorem bor_elim {a b : Bool} (h : (a || b) = true) : a = true ∨ b = true := by
  cases a <;> cases b <;> simp_all

theorem containsSub_nil (pat : Chars) : containsSub [] pat = pat.isPrefixOf [] := by
  conv_lhs => rw [containsSub.eq_def]
  cases h : pat.isPrefixOf ([] : Chars) <;> simp [h]

theorem hexDigitChar_bound (n : Nat) (h : n < 16) :
    48 ≤ (hexDigitChar n).toNat ∧ (hexDigitChar n).toNat ≤ 102 := by
  interval_cases n <;> exact (by decide)

theorem toHexGo_bound (fuel : Nat) :
    ∀ (n : Nat) (c : Char), c ∈ toHexGo fuel n → 48 ≤ c.toNat ∧ c.toNat ≤ 102 := by
  induction fuel with
  | zero => intro n c hc; simp [toHexGo] at hc
  | succ f ih =>
    intro n c hc
    rw [toHexGo] at hc
    by_cases h0 : (n == 0) = true
    · rw [if_pos h0] at hc
      simp at hc
    · rw [if_neg h0] at hc
      rcases List.mem_append.mp hc with h | h
      · exact ih _ c h
      · have : c = hexDigitChar (n % 16) := by simpa using h
        rw [this]
        exact hexDigitChar_bound _ (Nat.mod_lt _ (by norm_num))

theorem hexPad2_bound (n : Nat) (c : Char) (hc : c ∈ hexPad2 n) :
    48 ≤ c.toNat ∧ c.toNat ≤ 102 := by
  unfold hexPad2 at hc
  by_cases hl : (toHexGo 8 n).length < 2
  · rw [if_pos hl] at hc
    rcases List.mem_append.mp hc with h | h
    · have : c = '0' := List.eq_of_mem_replicate h
      rw [this]; exact (by decide)
    · exact toHexGo_bound 8 n c h
  · rw [if_neg hl] at hc
    exact toHexGo_bound 8 n c hc

/-- C9: `DBMLConverter._escape_string_value` yields only printable ASCII
(code points 32 through 126): the six special characters become two-byte
backslash escapes, and everything outside the printable range becomes a
lowercase hex escape `\xHH…`. -/
theorem C9_escape_printable :
    (∀ (s : Chars) (c : Char), c ∈ escape_string_value s → 32 ≤ c.toNat ∧ c.toNat ≤ 126)
    ∧ escape_string_value ['\\'] = ['\\', '\\']
    ∧ escape_string_value ['\n'] = ['\\', 'n']
    ∧ escape_string_value ['\r'] = ['\\', 'r']
    ∧ escape_string_value ['\t'] = ['\\', 't']
    ∧ escape_string_value [sq] = ['\\', sq]
    ∧ escape_string_value [dq] = ['\\', dq]
    ∧ escape_string_value [Char.ofNat 0xd55c] = "\\xd55c".data
    ∧ escape_string_value [Char.ofNat 1] = "\\x01".data := by
  refine ⟨?_, by decide, by decide, by decide, by decide, by decide, by decide, by decide, by decide⟩
  intro s c hc
  unfold escape_string_value at hc
  rcases List.mem_flatMap.mp hc with ⟨x, _, hcx⟩
  by_cases hcond : (decide (32 ≤ x.toNat) && decide (x.toNat ≤ 126)) = true
  · rw [if_pos hcond] at hcx
    simp only [Bool.and_eq_true, decide_eq_true_eq] at hcond
    have : c = x := by simpa using hcx
    rw [this]
    exact hcond
  · rw [if_neg hcond] at hcx
    rcases List.mem_cons.mp hcx with h | h
    · rw [h]; exact (by decide)
    · rcases List.mem_cons.mp h with h2 | h2
      · rw [h2]; exact (by decide)
      · have := hexPad2_bound x.toNat c h2
        omega

/-- C9 witness: the printable-ASCII bound applied to a member of the
escape of a Korean character. -/
theorem C9_escape_printable_witness :
    '\\' ∈ escape_string_value [Char.ofNat 0xd55c]
    ∧ 32 ≤ '\\'.toNat ∧ '\\'.toNat ≤ 126 := by
  refine ⟨by decide, ?_, ?_⟩
  · exact (C9_escape_printable.1 [Char.ofNat 0xd55c] '\\' (by decide)).1
  · exact (C9_escape_printable.1 [Char.ofNat 0xd55c] '\\' (by decide)).2

theorem splitOnChar_go_chars (sep : Char) :
    ∀ (s acc : Chars) (c : Char), (c ∈ acc ∨ c ∈ s) →
      c = sep ∨ ∃ p ∈ splitOnChar.go sep s acc, c ∈ p := by
  intro s
  induction s with
  | nil =>
    intro acc c hc
    rcases hc with h | h
    · exact Or.inr ⟨acc.reverse, by simp [splitOnChar.go], by simpa using h⟩
    · cases h
  | cons c0 cs ih =>
    intro acc c hc
    by_cases h0 : (c0 == sep) = true
    · have hc0 : c0 = sep := eq_of_beq h0
      rcases hc with h | h
      · refine Or.inr ⟨acc.reverse, ?_, by simpa using h⟩
        simp [splitOnChar.go, h0]
      · rcases List.mem_cons.mp h with h1 | h1
        · exact Or.inl (h1.trans hc0)
        · rcases ih [] c (Or.inr h1) with h2 | ⟨p, hp, hcp⟩
          · exact Or.inl h2
          · refine Or.inr ⟨p, ?_, hcp⟩
            simp only [splitOnChar.go, h0, if_true]
            exact List.mem_cons_of_mem _ hp
    · have hgo : splitOnChar.go sep (c0 :: cs) acc = splitOnChar.go sep cs (c0 :: acc) := by
        simp [splitOnChar.go, h0]
      rw [hgo]
      rcases hc with h | h
      · exact ih (c0 :: acc) c (Or.inl (List.mem_cons_of_mem c0 h))
      · rcases List.mem_cons.mp h with h1 | h1
        · exact ih (c0 :: acc) c (Or.inl (by rw [h1]; exact List.mem_cons_self c0 acc))
        · exact ih (c0 :: acc) c (Or.inr h1)

theorem is_ip_parts_ok (v : Chars) (h : is_ip_address v = true) :
    (splitOnChar '.' v).all octetOk = true := by
  unfold is_ip_address at h
  by_cases h1 : ((splitOnChar '.' v).length == 4 && (splitOnChar '.' v).all octetOk) = true
  · exact (band_elim h1).2
  · rw [if_neg h1] at h
    by_cases h2 : ((decide (2 ≤ (splitOnChar '.' v).length)
        && decide ((splitOnChar '.' v).length ≤ 4)) && (splitOnChar '.' v).all octetOk) = true
    · exact (band_elim h2).2
    · rw [if_neg h2] at h
      cases h

theorem is_ip_chars (v : Chars) (h : is_ip_address v = true) :
    ∀ c ∈ v, isAsciiDigit c = true ∨ c = '.' := by
  intro c hc
  have hparts := is_ip_parts_ok v h
  rcases splitOnChar_go_chars '.' v [] c (Or.inr hc) with h1 | ⟨p, hp, hcp⟩
  · exact Or.inr h1
  · have hpok : octetOk p = true := by
      have := List.all_eq_true.mp hparts p
      exact this hp
    have : p.all isAsciiDigit = true := by
      unfold octetOk at hpok
      exact (band_elim hpok).2
    exact Or.inl (List.all_eq_true.mp this c hcp)

theorem is_ip_upperS_eq (v : Chars) (h : is_ip_address v = true) : upperS v = v := by
  unfold upperS
  have : ∀ c ∈ v, c.toUpper = c := by
    intro c hc
    rcases is_ip_chars v h c hc with hd | hd
    · apply char_toUpper_eq_self
      unfold isAsciiDigit at hd
      simp only [Bool.and_eq_true, decide_eq_true_eq] at hd
      omega
    · rw [hd]; exact (by decide)
  calc v.map Char.toUpper = v.map id := List.map_congr_left this
    _ = v := List.map_id v

theorem shapeMatch_lit_mem :
    ∀ (ps : List CSpec) (v : Chars) (ch : Char),
      shapeMatch v ps = true → CSpec.lit ch ∈ ps → ch ∈ v := by
  intro ps
  induction ps with
  | nil => intro v ch _ hm; cases hm
  | cons p ps ih =>
    intro v ch h hm
    cases v with
    | nil =>
      cases p <;> simp [shapeMatch] at h
    | cons c cs =>
      cases p with
      | dig =>
        rw [shapeMatch] at h
        rcases List.mem_cons.mp hm with h1 | h1
        · cases h1
        · exact List.mem_cons_of_mem c (ih cs ch (band_elim h).2 h1)
      | lit x =>
        rw [shapeMatch] at h
        rcases List.mem_cons.mp hm with h1 | h1
        · injection h1 with hx
          have hcx : c = x := eq_of_beq (band_elim h).1
          rw [hx, ← hcx]
          exact List.mem_cons_self c cs
        · exact List.mem_cons_of_mem c (ih cs ch (band_elim h).2 h1)

theorem is_ip_not_date (v : Chars) (h : is_ip_address v = true) :
    is_date_format v = false := by
  cases hd : is_date_format v
  · rfl
  · exfalso
    unfold is_date_format at hd
    have hbad : ('-' : Char) ∈ v ∨ (':' : Char) ∈ v := by
      rcases bor_elim hd with h1 | h1
      · rcases bor_elim h1 with h2 | h2
        · exact Or.inl (shapeMatch_lit_mem dateShapeYMD v '-' h2 (by decide))
        · exact Or.inl (shapeMatch_lit_mem _ v '-' h2 (by decide))
      · exact Or.inr (shapeMatch_lit_mem timeShapeHMS v ':' h1 (by decide))
    rcases hbad with hb | hb <;>
      rcases is_ip_chars v h _ hb with hc | hc <;> revert hc <;> exact (by decide)

theorem ip_char_ne_of_mem (v : Chars) (h : is_ip_address v = true) (x : Char)
    (hx : x ∈ v) (hdig : isAsciiDigit x = false) (hdot : x ≠ '.') : False := by
  rcases is_ip_chars v h x hx with hc | hc
  · rw [hc] at hdig; cases hdig
  · exact hdot hc

theorem convert_default_literal_ip (v : Chars) (h : is_ip_address v = true) :
    convert_default_literal v = sq :: v ++ [sq] := by
  unfold convert_default_literal
  have hup := is_ip_upperS_eq v h
  have h1 : (upperS v == "CURRENT_TIMESTAMP".data) = false := by
    rw [hup]
    apply beq_eq_false_iff_ne.mpr
    intro he
    exact ip_char_ne_of_mem v h 'C' (by rw [he]; decide) (by decide) (by decide)
  have h2 : (upperS v == "NULL".data) = false := by
    rw [hup]
    apply beq_eq_false_iff_ne.mpr
    intro he
    exact ip_char_ne_of_mem v h 'U' (by rw [he]; decide) (by decide) (by decide)
  rw [if_neg (by rw [h1]; exact Bool.false_ne_true)]
  rw [if_neg (by rw [h2]; exact Bool.false_ne_true)]
  rw [if_neg (by rw [is_ip_not_date v h]; exact Bool.false_ne_true)]
  rw [if_pos h]

theorem containsSub_decomp (s pat : Chars) (h : containsSub s pat = true) :
    ∃ a b, s = a ++ pat ++ b := by
  induction s with
  | nil =>
    rw [containsSub_nil] at h
    have : pat <+: ([] : Chars) := List.isPrefixOf_iff_prefix.mp h
    rcases this with ⟨t, ht⟩
    exact ⟨[], t, by simp [ht]⟩
  | cons c cs ih =>
    rw [containsSub_cons] at h
    rcases bor_elim h with h1 | h1
    · have : pat <+: c :: cs := List.isPrefixOf_iff_prefix.mp h1
      rcases this with ⟨t, ht⟩
      exact ⟨[], t, by simp [← ht]⟩
    · rcases ih h1 with ⟨a, b, hab⟩
      exact ⟨c :: a, b, by simp [hab]⟩

theorem containsSub_mono (A inner B pat : Chars) (h : containsSub inner pat = true) :
    containsSub (A ++ inner ++ B) pat = true := by
  rcases containsSub_decomp inner pat h with ⟨a, b, hab⟩
  have : A ++ inner ++ B = (A ++ a) ++ pat ++ (b ++ B) := by
    rw [hab]; simp [List.append_assoc]
  rw [this]
  exact containsSub_of_decomp (A ++ a) pat (b ++ B)

theorem convert_column_default_attr_sub (col : Column) (v : Chars)
    (hd : col.default = some v) :
    containsSub (convert_column_to_dbml col)
      ("default: ".data ++ convert_default_literal v) = true := by
  unfold convert_column_to_dbml
  rw [hd]
  dsimp only
  set pre := (if col.primary_key = true then ["pk".data] else [])
    ++ (if col.auto_increment = true then ["increment".data] else [])
    ++ (if (!col.nullable) = true then ["not null".data] else [])
    ++ (if (col.unique && !col.primary_key) = true then ["unique".data] else []) with hpre
  set attr := "default: ".data ++ convert_default_literal v with hattr
  have hattrs : (pre ++ [attr]).isEmpty = false := by
    cases pre <;> simp
  rw [hattrs]
  simp only [Bool.false_eq_true, if_false]
  have hmem : attr ∈ pre ++ [attr] := List.mem_append_right pre (List.mem_cons_self attr [])
  have hjoin := containsSub_of_mem_joinSep ", ".data (pre ++ [attr]) attr hmem
  exact containsSub_mono _ _ _ _ hjoin

/-- C6: a default value in dotted-octet IP shape (all components 0–255) is
emitted as a single-quoted string by the serializer's default-literal
policy — the IP check fires before the bare-numeric check, so such a value
is never emitted bare; the emitted column line carries
`default: '<value>'`. -/
theorem C6_ip_default (col : Column) (v : Chars) (hd : col.default = some v)
    (hip : is_ip_address v = true) :
    convert_default_literal v = sq :: v ++ [sq]
    ∧ containsSub (convert_column_to_dbml col)
        ("default: ".data ++ (sq :: v ++ [sq])) = true := by
  refine ⟨convert_default_literal_ip v hip, ?_⟩
  rw [← convert_default_literal_ip v hip]
  exact convert_column_default_attr_sub col v hd

/-- The VARCHAR column of the C6 witness, with default `0.0.0.0`. -/
def c6_column : Column :=
  { name := "ip_addr".data, type := "VARCHAR".data, size := some "15".data
    nullable := true, auto_increment := false, primary_key := false
    unique := false, default := some "0.0.0.0".data }

/-- C6 witness: the IP-shaped default `0.0.0.0` on a VARCHAR column renders
quoted, and the whole column line evaluates as expected. -/
theorem C6_ip_default_witness :
    convert_column_to_dbml c6_column = "ip_addr varchar(15) [default: '0.0.0.0']".data
    ∧ convert_default_literal "0.0.0.0".data = sq :: "0.0.0.0".data ++ [sq]
    ∧ containsSub (convert_column_to_dbml c6_column)
        ("default: ".data ++ (sq :: "0.0.0.0".data ++ [sq])) = true := by
  refine ⟨by decide, ?_, ?_⟩
  · exact (C6_ip_default c6_column "0.0.0.0".data (by decide) (by decide)).1
  · exact (C6_ip_default c6_column "0.0.0.0".data (by decide) (by decide)).2

theorem mem_addIfNew (refs : List Chars) (l x : Chars) :
    x ∈ addIfNew refs l ↔ x ∈ refs ∨ x = l := by
  unfold addIfNew
  by_cases h : refs.contains l = true
  · rw [if_pos h]
    have hl : l ∈ refs := by simpa using h
    constructor
    · exact fun hx => Or.inl hx
    · rintro (hx | hx)
      · exact hx
      · rw [hx]; exact hl
  · rw [if_neg h]
    simp

theorem addIfNew_nodup (refs : List Chars) (l : Chars) (h : refs.Nodup) :
    (addIfNew refs l).Nodup := by
  unfold addIfNew
  by_cases hc : refs.contains l = true
  · rw [if_pos hc]; exact h
  · rw [if_neg hc]
    have hl : l ∉ refs := by simpa using hc
    refine List.Nodup.append h (List.nodup_singleton l) ?_
    intro a ha hb
    have : a = l := by simpa using hb
    exact hl (this ▸ ha)

theorem foldl_addIfNew_nodup (ls : List Chars) :
    ∀ refs : List Chars, refs.Nodup → (ls.foldl addIfNew refs).Nodup := by
  induction ls with
  | nil => intro refs h; exact h
  | cons hd tl ih => intro refs h; exact ih _ (addIfNew_nodup refs hd h)

theorem mem_foldl_addIfNew (ls : List Chars) :
    ∀ (refs : List Chars) (x : Chars), x ∈ ls.foldl addIfNew refs ↔ x ∈ refs ∨ x ∈ ls := by
  induction ls with
  | nil => intro refs x; simp
  | cons hd tl ih =>
    intro refs x
    rw [List.foldl_cons, ih, mem_addIfNew]
    constructor
    · rintro ((h | h) | h)
      · exact Or.inl h
      · exact Or.inr (h ▸ List.mem_cons_self hd tl)
      · exact Or.inr (List.mem_cons_of_mem hd h)
    · rintro (h | h)
      · exact Or.inl (Or.inl h)
      · rcases List.mem_cons.mp h with h1 | h1
        · exact Or.inl (Or.inr h1)
        · exact Or.inr h1

theorem foldl_step_nodup {α : Type} (step : List Chars → α → List Chars)
    (hstep : ∀ refs a, refs.Nodup → (step refs a).Nodup) :
    ∀ (ls : List α) (refs : List Chars), refs.Nodup → (ls.foldl step refs).Nodup := by
  intro ls
  induction ls with
  | nil => intro refs h; exact h
  | cons hd tl ih => intro refs h; exact ih _ (hstep refs hd h)

theorem mem_foldl_step {α : Type} (step : List Chars → α → List Chars)
    (Q : α → Chars → Prop)
    (hmem : ∀ refs a x, x ∈ step refs a ↔ x ∈ refs ∨ Q a x) :
    ∀ (ls : List α) (refs : List Chars) (x : Chars),
      x ∈ ls.foldl step refs ↔ x ∈ refs ∨ ∃ a ∈ ls, Q a x := by
  intro ls
  induction ls with
  | nil => intro refs x; simp
  | cons hd tl ih =>
    intro refs x
    rw [List.foldl_cons, ih, hmem]
    constructor
    · rintro ((h | h) | ⟨a, ha, hq⟩)
      · exact Or.inl h
      · exact Or.inr ⟨hd, List.mem_cons_self hd tl, h⟩
      · exact Or.inr ⟨a, List.mem_cons_of_mem hd ha, hq⟩
    · rintro (h | ⟨a, ha, hq⟩)
      · exact Or.inl (Or.inl h)
      · rcases List.mem_cons.mp ha with h1 | h1
        · exact Or.inl (Or.inr (h1 ▸ hq))

        · exact Or.inr ⟨a, h1, hq⟩

/-- The reference lines generated by one constraint of one table. -/
def constraintRefLines (td : List (Chars × TableInfo)) (tname : Chars) (tinfo : TableInfo)
    (c : Constraint) : List Chars :=
  match c with
  | .foreign_key cols rt rcols => fkLines td tname tinfo cols rt rcols
  | _ => []

theorem constraintStep_mem (td : List (Chars × TableInfo)) (tname : Chars) (tinfo : TableInfo) :
    ∀ (refs : List Chars) (c : Constraint) (x : Chars),
      x ∈ (match c with
            | Constraint.foreign_key cols rt rcols =>
              (fkLines td tname tinfo cols rt rcols).foldl addIfNew refs
            | _ => refs)
        ↔ x ∈ refs ∨ x ∈ constraintRefLines td tname tinfo c := by
  intro refs c x
  cases c with
  | primary_key cols => simp [constraintRefLines]
  | foreign_key cols rt rcols =>
    rw [mem_foldl_addIfNew]
    simp [constraintRefLines]
  | unique cols => simp [constraintRefLines]
  | index cols => simp [constraintRefLines]

theorem constraintStep_nodup (td : List (Chars × TableInfo)) (tname : Chars) (tinfo : TableInfo)
    (refs : List Chars) (c : Constraint) (h : refs.Nodup) :
    ((match c with
      | Constraint.foreign_key cols rt rcols =>
        (fkLines td tname tinfo cols rt rcols).foldl addIfNew refs
      | _ => refs) : List Chars).Nodup := by
  cases c with
  | primary_key cols => exact h
  | foreign_key cols rt rcols => exact foldl_addIfNew_nodup _ refs h
  | unique cols => exact h
  | index cols => exact h

theorem extract_references_nodup (td : List (Chars × TableInfo)) :
    (extract_references td).Nodup := by
  unfold extract_references
  refine foldl_step_nodup _ ?_ td [] List.nodup_nil
  intro refs p hrefs
  exact foldl_step_nodup _ (fun r c hr => constraintStep_nodup td p.1 p.2 r c hr)
    p.2.constraints refs hrefs

theorem mem_extract_references (td : List (Chars × TableInfo)) (x : Chars) :
    x ∈ extract_references td
      ↔ ∃ p ∈ td, ∃ c ∈ p.2.constraints, x ∈ constraintRefLines td p.1 p.2 c := by
  unfold extract_references
  rw [mem_foldl_step _
    (fun p x => ∃ c ∈ p.2.constraints, x ∈ constraintRefLines td p.1 p.2 c)
    (fun refs p x => mem_foldl_step _ (fun c x => x ∈ constraintRefLines td p.1 p.2 c)
      (fun r c y => constraintStep_mem td p.1 p.2 r c y) p.2.constraints refs x)
    td [] x]
  simp only [List.mem_nil_iff, false_or]

theorem count_eq_one_of_nodup_mem {α : Type} [BEq α] [LawfulBEq α]
    {l : List α} {a : α} (hnd : l.Nodup) (ha : a ∈ l) : l.count a = 1 := by
  induction l with
  | nil => cases ha
  | cons hd tl ih =>
    rw [List.count_cons]
    rcases List.nodup_cons.mp hnd with ⟨hhd, htl⟩
    rcases List.mem_cons.mp ha with h | h
    · have hz : tl.count a = 0 := List.count_eq_zero.mpr (h ▸ hhd)
      have he : (hd == a) = true := beq_iff_eq.mpr h.symm
      rw [hz, he]
      simp
    · have hne : (hd == a) = false := by
        apply beq_eq_false_iff_ne.mpr
        intro hab
        exact hhd (hab ▸ h)
      rw [ih htl h, hne]
      simp

theorem fkLines_composite (td : List (Chars × TableInfo)) (tname : Chars) (tinfo : TableInfo)
    (cols : List Chars) (rt : Chars) (rcols : List Chars)
    (hlen : (get_actual_column_names (some tinfo) cols).length
      = (fkTargetCols td rt rcols).length)
    (hN : 1 < (get_actual_column_names (some tinfo) cols).length) :
    fkLines td tname tinfo cols rt rcols =
      (List.range (get_actual_column_names (some tinfo) cols).length).map
        (fun j => mkRefLine tname ((get_actual_column_names (some tinfo) cols).getD j [])
          (fkTargetName td rt) ((fkTargetCols td rt rcols).getD j [])) := by
  unfold fkLines
  dsimp only
  have h1 : ((get_actual_column_names (some tinfo) cols).length == 1) = false := by
    apply beq_eq_false_iff_ne.mpr
    omega
  rw [h1]
  simp only [Bool.false_and, Bool.false_eq_true, if_false]
  have h2 : ((get_actual_column_names (some tinfo) cols).length
      == (fkTargetCols td rt rcols).length) = true := beq_iff_eq.mpr hlen
  have h3 : decide (0 < (get_actual_column_names (some tinfo) cols).length) = true := by
    apply decide_eq_true
    omega
  rw [h2, h3]
  simp only [Bool.and_self, if_true]

/-- C3: a composite foreign key (equal source/target column counts, more
than one column) is decomposed into one single-column `Ref:` line per
position pair, and every reference line occurs exactly once in
`_extract_references`'s output regardless of how many constraints generate
it. -/
theorem C3_composite_fk_decomposed_dedup (td : List (Chars × TableInfo))
    (tname : Chars) (tinfo : TableInfo)
    (cols : List Chars) (rt : Chars) (rcols : List Chars) (i : Nat)
    (hmem : (tname, tinfo) ∈ td)
    (hc : Constraint.foreign_key cols rt rcols ∈ tinfo.constraints)
    (hlen : (get_actual_column_names (some tinfo) cols).length
      = (fkTargetCols td rt rcols).length)
    (hN : 1 < (get_actual_column_names (some tinfo) cols).length)
    (hi : i < (get_actual_column_names (some tinfo) cols).length) :
    fkLines td tname tinfo cols rt rcols =
      (List.range (get_actual_column_names (some tinfo) cols).length).map
        (fun j => mkRefLine tname ((get_actual_column_names (some tinfo) cols).getD j [])
          (fkTargetName td rt) ((fkTargetCols td rt rcols).getD j []))
    ∧ (extract_references td).count
        (mkRefLine tname ((get_actual_column_names (some tinfo) cols).getD i [])
          (fkTargetName td rt) ((fkTargetCols td rt rcols).getD i [])) = 1 := by
  have hdec := fkLines_composite td tname tinfo cols rt rcols hlen hN
  refine ⟨hdec, ?_⟩
  have hline : mkRefLine tname ((get_actual_column_names (some tinfo) cols).getD i [])
      (fkTargetName td rt) ((fkTargetCols td rt rcols).getD i [])
      ∈ fkLines td tname tinfo cols rt rcols := by
    rw [hdec]
    exact List.mem_map.mpr ⟨i, List.mem_range.mpr hi, rfl⟩
  have hmem' : mkRefLine tname ((get_actual_column_names (some tinfo) cols).getD i [])
      (fkTargetName td rt) ((fkTargetCols td rt rcols).getD i [])
      ∈ extract_references td := by
    rw [mem_extract_references]
    exact ⟨(tname, tinfo), hmem, Constraint.foreign_key cols rt rcols, hc, hline⟩
  exact count_eq_one_of_nodup_mem (extract_references_nodup td) hmem'

/-- The child table of the C3 witness: two identical composite foreign
keys to `parent(x, y)`. -/
def c3_child : TableInfo :=
  { name := "child".data
    columns :=
      [ { name := "a".data, type := "INT".data, size := none, nullable := true
          auto_increment := false, primary_key := false, unique := false, default := none }
      , { name := "b".data, type := "INT".data, size := none, nullable := true
          auto_increment := false, primary_key := false, unique := false, default := none } ]
    constraints :=
      [ Constraint.foreign_key ["a".data, "b".data] "parent".data ["x".data, "y".data]
      , Constraint.foreign_key ["a".data, "b".data] "parent".data ["x".data, "y".data] ] }

/-- The parent table of the C3 witness. -/
def c3_parent : TableInfo :=
  { name := "parent".data
    columns :=
      [ { name := "x".data, type := "INT".data, size := none, nullable := true
          auto_increment := false, primary_key := false, unique := false, default := none }
      , { name := "y".data, type := "INT".data, size := none, nullable := true
          auto_increment := false, primary_key := false, unique := false, default := none } ]
    constraints := [] }

/-- The two-table batch of the C3 witness. -/
def c3_td : List (Chars × TableInfo) :=
  [("child".data, c3_child), ("parent".data, c3_parent)]

/-- C3 witness: on a batch where `child` carries two identical composite
foreign keys, the decomposition and the exactly-once count hold at
position 0, and the whole reference list evaluates to the two expected
single-column lines. -/
theorem C3_composite_fk_decomposed_dedup_witness :
    ((("child".data, c3_child) ∈ c3_td)
      ∧ Constraint.foreign_key ["a".data, "b".data] "parent".data ["x".data, "y".data]
          ∈ c3_child.constraints
      ∧ (get_actual_column_names (some c3_child) ["a".data, "b".data]).length
          = (fkTargetCols c3_td "parent".data ["x".data, "y".data]).length
      ∧ 1 < (get_actual_column_names (some c3_child) ["a".data, "b".data]).length
      ∧ 0 < (get_actual_column_names (some c3_child) ["a".data, "b".data]).length)
    ∧ fkLines c3_td "child".data c3_child ["a".data, "b".data] "parent".data
        ["x".data, "y".data] =
        (List.range (get_actual_column_names (some c3_child) ["a".data, "b".data]).length).map
          (fun j => mkRefLine "child".data
            ((get_actual_column_names (some c3_child) ["a".data, "b".data]).getD j [])
            (fkTargetName c3_td "parent".data)
            ((fkTargetCols c3_td "parent".data ["x".data, "y".data]).getD j []))
    ∧ (extract_references c3_td).count
        (mkRefLine "child".data
          ((get_actual_column_names (some c3_child) ["a".data, "b".data]).getD 0 [])
          (fkTargetName c3_td "parent".data)
          ((fkTargetCols c3_td "parent".data ["x".data, "y".data]).getD 0 [])) = 1
    ∧ extract_references c3_td = ["Ref: child.a > parent.x".data, "Ref: child.b > parent.y".data]
    := by
  refine ⟨⟨by decide, by decide, by decide, by decide, by decide⟩, ?_, ?_, by decide⟩
  · exact (C3_composite_fk_decomposed_dedup c3_td "child".data c3_child
      ["a".data, "b".data] "parent".data ["x".data, "y".data] 0
      (by decide) (by decide) (by decide) (by decide) (by decide)).1
  · exact (C3_composite_fk_decomposed_dedup c3_td "child".data c3_child
      ["a".data, "b".data] "parent".data ["x".data, "y".data] 0
      (by decide) (by decide) (by decide) (by decide) (by decide)).2

theorem fold_assocUpd_lookup (cols : List Column) (key : Chars) :
    ∀ m : List (Chars × Chars),
      (cols.foldl (fun m c => assocUpd m (lowerS c.name) c.name) m).lookup key
        = match (cols.filter (fun c => lowerS c.name == key)).getLast? with
          | some c => some c.name
          | none => m.lookup key := by
  induction cols with
  | nil => intro m; rfl
  | cons c cs ih =>
    intro m
    rw [List.foldl_cons, ih, List.filter_cons]
    by_cases hp : (lowerS c.name == key) = true
    · rw [if_pos hp]
      cases hcs : cs.filter (fun c => lowerS c.name == key) with
      | nil =>
        simp only [List.getLast?_nil, List.getLast?_singleton]
        rw [lookup_assocUpd]
        have hk : (key == lowerS c.name) = true := beq_iff_eq.mpr (eq_of_beq hp).symm
        rw [if_pos hk]
      | cons x xs =>
        rw [List.getLast?_cons_cons]
        cases hx : (x :: xs).getLast? with
        | none =>
          rw [List.getLast?_eq_none_iff] at hx
          cases hx
        | some y => rfl
    · rw [if_neg hp]
      cases hl : (cs.filter (fun c => lowerS c.name == key)).getLast? with
      | some c' => rfl
      | none =>
        simp only
        rw [lookup_assocUpd]
        have hk : (key == lowerS c.name) = false := by
          apply beq_eq_false_iff_ne.mpr
          intro h
          exact hp (beq_iff_eq.mpr h.symm)
        rw [hk]
        simp only [Bool.false_eq_true, if_false]

/-- Written to the specification's wording, for comparison with
`_get_actual_column_names`: resolve one constraint column name against the
declared columns by lower-cased comparison and return the matching
column's declared (canonical) casing — the last declared column wins for a
duplicated lower-cased name, as in the dictionary comprehension — or the
name verbatim when no declared column matches. -/
def spec_resolve_column (tinfo : TableInfo) (cn : Chars) : Chars :=
  match (tinfo.columns.filter (fun c => lowerS c.name == lowerS cn)).getLast? with
  | some c => c.name
  | none => cn

theorem get_actual_column_names_spec (tinfo : TableInfo) (cols : List Chars) :
    get_actual_column_names (some tinfo) cols = cols.map (spec_resolve_column tinfo) := by
  unfold get_actual_column_names
  dsimp only
  apply List.map_congr_left
  intro cn hcn
  rw [fold_assocUpd_lookup tinfo.columns (lowerS cn) []]
  unfold spec_resolve_column
  cases hl : (tinfo.columns.filter (fun c => lowerS c.name == lowerS cn)).getLast? with
  | some c => rfl
  | none => rfl

/-- The `Indexes` entries contributed by a single constraint. -/
def idxEntries (tinfo : TableInfo) (c : Constraint) : List Chars :=
  match c with
  | .unique cols =>
    ["    (".data ++ joinSep ", ".data (get_actual_column_names (some tinfo) cols)
      ++ ") [unique]".data]
  | .index cols =>
    ["    (".data ++ joinSep ", ".data (get_actual_column_names (some tinfo) cols)
      ++ ")".data]
  | _ => []

theorem index_definitions_eq (tinfo : TableInfo) :
    index_definitions tinfo = tinfo.constraints.flatMap (idxEntries tinfo) := by
  unfold index_definitions
  suffices h : ∀ (cs : List Constraint) (acc : List Chars),
      cs.foldl
        (fun acc c => match c with
          | Constraint.primary_key _ => acc
          | Constraint.unique cols =>
            acc ++ ["    (".data ++ joinSep ", ".data (get_actual_column_names (some tinfo) cols)
                     ++ ") [unique]".data]
          | Constraint.index cols =>
            acc ++ ["    (".data ++ joinSep ", ".data (get_actual_column_names (some tinfo) cols)
                     ++ ")".data]
          | Constraint.foreign_key .. => acc)
        acc = acc ++ cs.flatMap (idxEntries tinfo) by
    simpa using h tinfo.constraints []
  intro cs
  induction cs with
  | nil => intro acc; simp
  | cons c cs ih =>
    intro acc
    rw [List.foldl_cons, ih, List.flatMap_cons]
    cases c with
    | primary_key cols => simp [idxEntries]
    | unique cols => simp [idxEntries]
    | index cols => simp [idxEntries]
    | foreign_key cols rt rcols => simp [idxEntries]

theorem index_entry_mem (tinfo : TableInfo) (icols : List Chars)
    (hc : Constraint.index icols ∈ tinfo.constraints) :
    ("    (".data ++ joinSep ", ".data (get_actual_column_names (some tinfo) icols) ++ ")".data)
      ∈ index_definitions tinfo := by
  rw [index_definitions_eq]
  exact List.mem_flatMap.mpr ⟨Constraint.index icols, hc, by simp [idxEntries]⟩

theorem unique_entry_mem (tinfo : TableInfo) (ucols : List Chars)
    (hc : Constraint.unique ucols ∈ tinfo.constraints) :
    ("    (".data ++ joinSep ", ".data (get_actual_column_names (some tinfo) ucols)
        ++ ") [unique]".data)
      ∈ index_definitions tinfo := by
  rw [index_definitions_eq]
  exact List.mem_flatMap.mpr ⟨Constraint.unique ucols, hc, by simp [idxEntries]⟩

theorem containsSub_table_of_idx (tname : Chars) (tinfo : TableInfo) (entry : Chars)
    (h : entry ∈ index_definitions tinfo) :
    containsSub (convert_table_to_dbml tname tinfo) entry = true := by
  unfold convert_table_to_dbml
  dsimp only
  have hE : (index_definitions tinfo).isEmpty = false := by
    cases hi : index_definitions tinfo
    · rw [hi] at h; cases h
    · rfl
  rw [hE]
  simp only [Bool.false_eq_true, if_false]
  apply containsSub_of_mem_joinSep
  exact List.mem_cons_of_mem _
    (List.mem_append_left _ (List.mem_append_right _
      (List.mem_append_left _ (List.mem_append_right _ h))))

/-- C4: unique/index constraint columns are resolved against the declared
columns by lower-cased comparison and emitted with the declared canonical
casing (verbatim when no declared column matches): the resolver agrees
with the specification's per-column rule, and the entry built from the
resolved names appears in the table's `Indexes` entries and in the
rendered table block. -/
theorem C4_index_columns_canonical_casing (tname : Chars) (tinfo : TableInfo)
    (icols ucols : List Chars) :
    (∀ cols : List Chars,
        get_actual_column_names (some tinfo) cols = cols.map (spec_resolve_column tinfo))
    ∧ (Constraint.index icols ∈ tinfo.constraints →
        ("    (".data ++ joinSep ", ".data (icols.map (spec_resolve_column tinfo)) ++ ")".data)
            ∈ index_definitions tinfo
        ∧ containsSub (convert_table_to_dbml tname tinfo)
            ("    (".data ++ joinSep ", ".data (icols.map (spec_resolve_column tinfo))
              ++ ")".data) = true)
    ∧ (Constraint.unique ucols ∈ tinfo.constraints →
        ("    (".data ++ joinSep ", ".data (ucols.map (spec_resolve_column tinfo))
            ++ ") [unique]".data) ∈ index_definitions tinfo
        ∧ containsSub (convert_table_to_dbml tname tinfo)
            ("    (".data ++ joinSep ", ".data (ucols.map (spec_resolve_column tinfo))
              ++ ") [unique]".data) = true) := by
  refine ⟨fun cols => get_actual_column_names_spec tinfo cols, ?_, ?_⟩
  · intro hc
    have h1 := index_entry_mem tinfo icols hc
    rw [get_actual_column_names_spec] at h1
    exact ⟨h1, containsSub_table_of_idx tname tinfo _ h1⟩
  · intro hc
    have h1 := unique_entry_mem tinfo ucols hc
    rw [get_actual_column_names_spec] at h1
    exact ⟨h1, containsSub_table_of_idx tname tinfo _ h1⟩

/-- The table of the C4 witness: a declared column `beginPit` and an
index plus a unique constraint both written `BeginPit`. -/
def c4_tinfo : TableInfo :=
  { name := "pits".data
    columns :=
      [ { name := "beginPit".data, type := "INT".data, size := none, nullable := true
          auto_increment := false, primary_key := false, unique := false, default := none } ]
    constraints := [Constraint.index ["BeginPit".data], Constraint.unique ["BeginPit".data]] }

/-- C4 witness: `KEY (BeginPit)` against declared `beginPit` resolves to
the declared casing, an unmatched name passes through verbatim, and the
resolved index entry appears in the rendered table. -/
theorem C4_index_columns_canonical_casing_witness :
    Constraint.index ["BeginPit".data] ∈ c4_tinfo.constraints
    ∧ get_actual_column_names (some c4_tinfo) ["BeginPit".data] = ["beginPit".data]
    ∧ ["BeginPit".data].map (spec_resolve_column c4_tinfo) = ["beginPit".data]
    ∧ get_actual_column_names (some c4_tinfo) ["zz".data] = ["zz".data]
    ∧ ("    (".data ++ joinSep ", ".data (["BeginPit".data].map (spec_resolve_column c4_tinfo))
        ++ ")".data) = "    (beginPit)".data
    ∧ ("    (".data ++ joinSep ", ".data (["BeginPit".data].map (spec_resolve_column c4_tinfo))
        ++ ")".data) ∈ index_definitions c4_tinfo
    ∧ containsSub (convert_table_to_dbml "pits".data c4_tinfo)
        ("    (".data ++ joinSep ", ".data (["BeginPit".data].map (spec_resolve_column c4_tinfo))
          ++ ")".data) = true := by
  refine ⟨by decide, by decide, by decide, by decide, by decide, ?_, ?_⟩
  · exact ((C4_index_columns_canonical_casing "pits".data c4_tinfo
      ["BeginPit".data] ["BeginPit".data]).2.1 (by decide)).1
  · exact ((C4_index_columns_canonical_casing "pits".data c4_tinfo
      ["BeginPit".data] ["BeginPit".data]).2.1 (by decide)).2

theorem process_table_fixed (files : List (Chars × Chars)) (tname tcontent : Chars)
    (h : (table_missing_columns files tname tcontent).isEmpty = true) :
    ∀ fixed, process_table files fixed tname tcontent = fixed := by
  intro fixed
  unfold process_table
  unfold table_missing_columns at h
  cases hl : files.lookup (tname ++ ".sql".data) with
  | none => rfl
  | some ddlText =>
    rw [hl] at h
    dsimp only at h ⊢
    rw [if_pos h]

theorem validate_fixpoint (D : Chars) (dir : Option (List (Chars × Chars)))
    (h : finds_no_missing D dir = true) :
    validate_and_fix_missing_columns D dir = D := by
  unfold validate_and_fix_missing_columns
  unfold finds_no_missing at h
  cases dir with
  | none => rfl
  | some files =>
    dsimp only at h ⊢
    apply foldl_fixed
    intro p hp fixed
    exact process_table_fixed files p.1 p.2 (List.all_eq_true.mp h p hp) fixed

/-- The schema file of the C2 counterexample: its `a` column carries a
string default containing a closing brace. -/
def c2_ddl : Chars :=
  ("CREATE TABLE `t` (\n  `a` varchar(10) DEFAULT 'x\x7dy',\n  `b` int NOT NULL,"
    ++ "\n  `c` int NOT NULL\n);").data

/-- The draft document of the C2 counterexample: table `t` with only
column `b`. -/
def c2_draft : Chars := "Table t \x7b\n  b int\n\x7d\n".data

/-- The source directory of the C2 counterexample. -/
def c2_dir : Option (List (Chars × Chars)) := some [("t.sql".data, c2_ddl)]

/-- The first reconciliation pass's output on the C2 counterexample:
columns `a` (with its brace-bearing default) and `c` are appended. -/
def c2_r1 : Chars :=
  ("Table t \x7b\n  b int\n  a varchar(10) [default: 'x\x7dy']\n"
    ++ "  c int [not null]\n\x7d\n").data

/-- The second pass's output: the brace inside `a`'s patched default
truncates the table-block match, so `c` is re-inserted at the wrong
place. -/
def c2_r2 : Chars :=
  ("Table t \x7b\n  b int\n  a varchar(10) [default: 'x\n  c int [not null]\n\x7dy']\n"
    ++ "  c int [not null]\n\x7d\n").data

/-- C2 counterexample: the reconciliation pass is not idempotent. On a
draft whose schema file carries a string default containing `\x7d`, the
first pass patches that default into the document, the second pass's
table-block regex stops at the brace inside the patched default, finds
`c` missing again and inserts it a second time, so the second output
differs from the first. -/
theorem C2_counterexample :
    validate_and_fix_missing_columns c2_draft c2_dir = c2_r1
    ∧ validate_and_fix_missing_columns c2_r1 c2_dir = c2_r2
    ∧ c2_r2 ≠ c2_r1
    ∧ validate_and_fix_missing_columns
        (validate_and_fix_missing_columns c2_draft c2_dir) c2_dir
      ≠ validate_and_fix_missing_columns c2_draft c2_dir := by
  have h1 : validate_and_fix_missing_columns c2_draft c2_dir = c2_r1 := by decide
  have h2 : validate_and_fix_missing_columns c2_r1 c2_dir = c2_r2 := by decide
  refine ⟨h1, h2, by decide, ?_⟩
  rw [h1, h2]
  decide

/-- C2 amended: the reconciliation pass is idempotent whenever its own
output is clean — if the scan finds no missing column in any table block
of the first pass's output, a second invocation changes nothing. -/
theorem C2_amended (D : Chars) (dir : Option (List (Chars × Chars)))
    (h : finds_no_missing (validate_and_fix_missing_columns D dir) dir = true) :
    validate_and_fix_missing_columns (validate_and_fix_missing_columns D dir) dir
      = validate_and_fix_missing_columns D dir :=
  validate_fixpoint (validate_and_fix_missing_columns D dir) dir h

/-- The brace-free variant of the C2 schema file. -/
def c2_safe_ddl : Chars :=
  ("CREATE TABLE `t` (\n  `a` varchar(10) DEFAULT 'xy',\n  `b` int NOT NULL,"
    ++ "\n  `c` int NOT NULL\n);").data

/-- The source directory of the C2 amended witness. -/
def c2_safe_dir : Option (List (Chars × Chars)) := some [("t.sql".data, c2_safe_ddl)]

/-- C2 amended witness: with the brace-free schema file, the first pass's
output is clean and the second pass reproduces it exactly. -/
theorem C2_amended_witness :
    finds_no_missing (validate_and_fix_missing_columns c2_draft c2_safe_dir) c2_safe_dir = true
    ∧ validate_and_fix_missing_columns
        (validate_and_fix_missing_columns c2_draft c2_safe_dir) c2_safe_dir
      = validate_and_fix_missing_columns c2_draft c2_safe_dir :=
  ⟨by decide, C2_amended c2_draft c2_safe_dir (by decide)⟩

/-- ASCII lowercase letter (stated on code points). -/
def isLowerAlpha (c : Char) : Bool := decide (97 ≤ c.toNat) && decide (c.toNat ≤ 122)

/-- Name well-formedness for the amended C5 family: a nonempty
lowercase-letter column name whose upper-casing avoids the substrings
that route an item away from plain column parsing. -/
def wfColName (n : Chars) : Bool :=
  !n.isEmpty && n.all isLowerAlpha
    && !containsSub (upperS n) "KEY".data
    && !containsSub (upperS n) "INDEX".data
    && !containsSub (upperS n) "UNIQUE".data
    && !containsSub (upperS n) "DEFAULT".data
    && !containsSub (upperS n) "COMMENT".data

/-- Table-name well-formedness for the amended C5 family: nonempty,
lowercase letters, not a keyword. -/
def wfTableName (t : Chars) : Bool :=
  !t.isEmpty && t.all isLowerAlpha
    && !ddlKeywords.contains (upperS t) && !sqlKeywords.contains (upperS t)

/-- The word `CREATE` as an explicit character list. -/
def wCREATE : Chars := ['C', 'R', 'E', 'A', 'T', 'E']

/-- The word `TABLE` as an explicit character list. -/
def wTABLE : Chars := ['T', 'A', 'B', 'L', 'E']

/-- The word `int` as an explicit character list. -/
def wInt : Chars := ['i', 'n', 't']

/-- The separator `, ` as an explicit character list. -/
def sepCS : Chars := [',', ' ']

/-- One column item of the C5 family: a backtick-quoted name and type
`int`. -/
def mkColItem (n : Chars) : Chars := [bq] ++ (n ++ ([bq] ++ ([' '] ++ wInt)))

/-- The C5 family's DDL text:
`CREATE TABLE t (<item>, <item>, …);`. -/
def mkDDL (t : Chars) (ns : List Chars) : Chars :=
  wCREATE ++ ([' '] ++ (wTABLE ++ ([' '] ++ (t ++ ([' '] ++ (['('] ++
    (joinSep sepCS (ns.map mkColItem) ++ ([')'] ++ [';']))))))))

/-- The token stream of the column items (with separating commas). -/
def colToks : List Chars → List Tok
  | [] => []
  | [n] => [⟨.name, [bq] ++ (n ++ [bq])⟩, ⟨.ws, [' ']⟩, ⟨.name, wInt⟩]
  | n :: m :: rest =>
    [⟨.name, [bq] ++ (n ++ [bq])⟩, ⟨.ws, [' ']⟩, ⟨.name, wInt⟩,
     ⟨.punct, [',']⟩, ⟨.ws, [' ']⟩] ++ colToks (m :: rest)

/-- The full token stream of a C5 family statement. -/
def stmtToks (t : Chars) (ns : List Chars) : List Tok :=
  [⟨.kwDDL, wCREATE⟩, ⟨.ws, [' ']⟩, ⟨.kw, wTABLE⟩, ⟨.ws, [' ']⟩,
   ⟨.name, t⟩, ⟨.ws, [' ']⟩, ⟨.punct, ['(']⟩]
  ++ colToks ns ++ [⟨.punct, [')']⟩, ⟨.punct, [';']⟩]

/-- The column record the parser produces for a C5 family item. -/
def c5Column (n : Chars) : Column :=
  { name := n, type := "INT".data, size := none, nullable := true
    auto_increment := false, primary_key := false, unique := false, default := none }

/-- Written to the specification's wording: a *well-formed column
definition* is an item from which the documented leading
identifier-plus-type-word match extracts a name and a base type (an
optionally backtick-quoted identifier, whitespace, then an alphabetic
type word), and which is not a table-level constraint item (it is not
introduced by a constraint keyword). -/
def spec_wf_column_item (item0 : Chars) : Bool :=
  let item := stripWs item0
  let afterTick :=
    match item with
    | c :: cs => if c == bq then cs else item
    | [] => item
  let nm := afterTick.takeWhile (fun c => !(c == bq || isWsChar c))
  let r := afterTick.drop nm.length
  let r2 := match r with
    | c :: cs => if c == bq then cs else r
    | [] => r
  let w := r2.takeWhile isWsChar
  let tp := (r2.drop w.length).takeWhile isAsciiLetter
  !nm.isEmpty && !w.isEmpty && !tp.isEmpty
    && !(["PRIMARY".data, "FOREIGN".data, "UNIQUE".data, "KEY".data, "INDEX".data,
          "CONSTRAINT".data, "FULLTEXT".data, "PARTITION".data].any
          (fun kw => startsWith (upperS item) kw))

theorem toUpper_toNat_of_lower {c : Char} (h1 : 97 ≤ c.toNat) (h2 : c.toNat ≤ 122) :
    (c.toUpper).toNat = c.toNat - 32 := by
  have hU : c.toUpper = Char.ofNat (c.toNat - 32) := by
    simp only [Char.toUpper]
    rw [if_pos]
    exact ⟨h1, h2⟩
  rw [hU]
  have hk1 : 65 ≤ c.toNat - 32 := by omega
  have hk2 : c.toNat - 32 ≤ 90 := by omega
  generalize hg : c.toNat - 32 = k at hk1 hk2 ⊢
  interval_cases k <;> rfl

theorem mem_lower_range (n : Chars) (hn : n.all isLowerAlpha = true)
    {x : Char} (hx : x ∈ n) : 97 ≤ x.toNat ∧ x.toNat ≤ 122 := by
  have h := List.all_eq_true.mp hn x hx
  unfold isLowerAlpha at h
  simp only [Bool.and_eq_true, decide_eq_true_eq] at h
  exact h

theorem mem_upperS_lower_range (n : Chars) (hn : n.all isLowerAlpha = true)
    {x : Char} (hx : x ∈ upperS n) : 65 ≤ x.toNat ∧ x.toNat ≤ 90 := by
  rcases List.mem_map.mp hx with ⟨c, hc, hcx⟩
  have hcl := mem_lower_range n hn hc
  have ht := toUpper_toNat_of_lower hcl.1 hcl.2
  rw [hcx] at ht
  omega

theorem containsSub_subset (s pat : Chars) (h : containsSub s pat = true) :
    ∀ c ∈ pat, c ∈ s := by
  rcases containsSub_decomp s pat h with ⟨a, b, hab⟩
  intro c hc
  rw [hab]
  simp [hc]

theorem not_mem_lower (n : Chars) (hn : n.all isLowerAlpha = true)
    (x : Char) (hx : x.toNat < 97 ∨ 122 < x.toNat) : x ∉ n := by
  intro hmem
  have := mem_lower_range n hn hmem
  omega

theorem containsSub_lower_false (n : Chars) (hn : n.all isLowerAlpha = true)
    (pat : Chars) (x : Char) (hxp : x ∈ pat) (hx : x.toNat < 97 ∨ 122 < x.toNat) :
    containsSub n pat = false := by
  cases h : containsSub n pat
  · rfl
  · exact absurd (containsSub_subset _ _ h x hxp) (not_mem_lower n hn x hx)

theorem containsSub_upperS_lower_false (n : Chars) (hn : n.all isLowerAlpha = true)
    (pat : Chars) (x : Char) (hxp : x ∈ pat) (hx : x.toNat < 65 ∨ 90 < x.toNat) :
    containsSub (upperS n) pat = false := by
  cases h : containsSub (upperS n) pat
  · rfl
  · exfalso
    have hmem := containsSub_subset _ _ h x hxp
    have := mem_upperS_lower_range n hn hmem
    omega

theorem containsSub_split_char (A B pat : Chars) (c : Char) (hc : c ∉ pat)
    (h : containsSub (A ++ c :: B) pat = true) :
    containsSub A pat = true ∨ containsSub B pat = true := by
  induction A with
  | nil =>
    rw [List.nil_append, containsSub_cons] at h
    rcases bor_elim h with h1 | h1
    · have hp : pat <+: c :: B := List.isPrefixOf_iff_prefix.mp h1
      cases hpat : pat with
      | nil => left; rfl
      | cons p ps =>
        exfalso
        rw [hpat] at hp
        rcases hp with ⟨u, hu⟩
        rw [List.cons_append] at hu
        apply hc
        rw [hpat]
        have : p = c := by injection hu
        rw [this]
        exact List.mem_cons_self c ps
    · exact Or.inr h1
  | cons a as ih =>
    rw [List.cons_append, containsSub_cons] at h
    rcases bor_elim h with h1 | h1
    · have hp : pat <+: (a :: as) ++ c :: B := by
        rw [List.cons_append]
        exact List.isPrefixOf_iff_prefix.mp h1
      by_cases hl : pat.length ≤ (a :: as).length
      · left
        have h2 : (a :: as) <+: (a :: as) ++ c :: B := List.prefix_append _ _
        have hpfx : pat <+: a :: as := List.prefix_of_prefix_length_le hp h2 hl
        rcases hpfx with ⟨u, hu⟩
        rw [← hu]
        have := containsSub_of_decomp [] pat u
        simpa using this
      · exfalso
        apply hc
        have h2 : (a :: as) ++ [c] <+: (a :: as) ++ c :: B := by
          have : (a :: as) ++ c :: B = ((a :: as) ++ [c]) ++ B := by simp
          rw [this]
          exact List.prefix_append _ _
        have h3 : (a :: as) ++ [c] <+: pat := by
          apply List.prefix_of_prefix_length_le h2 hp
          push_neg at hl
          simp only [List.length_append, List.length_cons, List.length_nil] at hl ⊢
          omega
        exact h3.subset (by simp)
    · rcases ih h1 with h2 | h2
      · left
        rw [containsSub_cons, h2]
        simp
      · exact Or.inr h2

theorem containsSub_trans_decomp (u a b c' : Chars)
    (h : containsSub u (a ++ b ++ c') = true) : containsSub u b = true := by
  rcases containsSub_decomp u _ h with ⟨x, y, hxy⟩
  rw [hxy]
  have he : x ++ (a ++ b ++ c') ++ y = (x ++ a) ++ b ++ (c' ++ y) := by
    simp [List.append_assoc]
  rw [he]
  exact containsSub_of_decomp _ _ _

theorem takeWhile_append_break {p : Char → Bool} (w : Chars) (hw : w.all p = true)
    (c : Char) (hc : p c = false) (rest : Chars) :
    (w ++ c :: rest).takeWhile p = w := by
  induction w with
  | nil => simp [List.takeWhile_cons, hc]
  | cons a as ih =>
    rw [List.all_cons] at hw
    obtain ⟨h1, h2⟩ := band_elim hw
    rw [List.cons_append, List.takeWhile_cons, if_pos h1, ih h2]

theorem lstrip_cons (c : Char) (cs : Chars) (hc : isWsChar c = false) :
    lstripWs (c :: cs) = c :: cs := by
  simp [lstripWs, List.dropWhile_cons, hc]

theorem rstrip_snoc (s : Chars) (c : Char) (hc : isWsChar c = false) :
    rstripWs (s ++ [c]) = s ++ [c] := by
  simp [rstripWs, List.dropWhile_cons, hc]

theorem upperS_append (a b : Chars) : upperS (a ++ b) = upperS a ++ upperS b := by
  simp [upperS]

theorem upperS_cons (c : Char) (s : Chars) : upperS (c :: s) = c.toUpper :: upperS s := by
  simp [upperS]

theorem wfTableName_parts (t : Chars) (ht : wfTableName t = true) :
    t ≠ [] ∧ t.all isLowerAlpha = true ∧ ddlKeywords.contains (upperS t) = false
      ∧ sqlKeywords.contains (upperS t) = false := by
  unfold wfTableName at ht
  obtain ⟨h123, h4⟩ := band_elim ht
  obtain ⟨h12, h3⟩ := band_elim h123
  obtain ⟨h1, h2⟩ := band_elim h12
  refine ⟨?_, h2, ?_, ?_⟩
  · cases t
    · simp at h1
    · simp
  · cases hd : ddlKeywords.contains (upperS t)
    · rfl
    · rw [hd] at h3; cases h3
  · cases hs : sqlKeywords.contains (upperS t)
    · rfl
    · rw [hs] at h4; cases h4

theorem wfColName_parts (n : Chars) (hn : wfColName n = true) :
    n ≠ [] ∧ n.all isLowerAlpha = true
      ∧ containsSub (upperS n) "KEY".data = false
      ∧ containsSub (upperS n) "INDEX".data = false
      ∧ containsSub (upperS n) "UNIQUE".data = false
      ∧ containsSub (upperS n) "DEFAULT".data = false
      ∧ containsSub (upperS n) "COMMENT".data = false := by
  unfold wfColName at hn
  obtain ⟨h6', h7⟩ := band_elim hn
  obtain ⟨h5', h6⟩ := band_elim h6'
  obtain ⟨h4', h5⟩ := band_elim h5'
  obtain ⟨h3', h4⟩ := band_elim h4'
  obtain ⟨h12, h3⟩ := band_elim h3'
  obtain ⟨h1, h2⟩ := band_elim h12
  refine ⟨?_, h2, ?_, ?_, ?_, ?_, ?_⟩
  · cases n
    · simp at h1
    · simp
  all_goals
    first
      | (cases hx : containsSub (upperS n) "KEY".data
         · rfl
         · rw [hx] at h3; cases h3)
      | (cases hx : containsSub (upperS n) "INDEX".data
         · rfl
         · rw [hx] at h4; cases h4)
      | (cases hx : containsSub (upperS n) "UNIQUE".data
         · rfl
         · rw [hx] at h5; cases h5)
      | (cases hx : containsSub (upperS n) "DEFAULT".data
         · rfl
         · rw [hx] at h6; cases h6)
      | (cases hx : containsSub (upperS n) "COMMENT".data
         · rfl
         · rw [hx] at h7; cases h7)

theorem lower_all_word (n : Chars) (hl : n.all isLowerAlpha = true) :
    n.all isWordChar = true := by
  rw [List.all_eq_true] at hl ⊢
  intro c hc
  have h := hl c hc
  unfold isLowerAlpha at h
  simp only [Bool.and_eq_true, decide_eq_true_eq] at h
  unfold isWordChar isAsciiLetter
  rw [decide_eq_true h.1, decide_eq_true h.2]
  simp

theorem lower_bq_free (n : Chars) (hl : n.all isLowerAlpha = true) :
    ∀ c ∈ n, (c == bq) = false := by
  intro c hc
  apply beq_eq_false_iff_ne.mpr
  intro h
  have hr := mem_lower_range n hl hc
  rw [h] at hr
  exact absurd hr (by decide)

theorem word_not_ws {c : Char} (h : isWordChar c = true) : isWsChar c = false := by
  cases hw : isWsChar c
  · rfl
  · exfalso
    unfold isWsChar at hw
    rcases bor_elim hw with h1 | h6
    · rcases bor_elim h1 with h1 | h5
      · rcases bor_elim h1 with h1 | h4
        · rcases bor_elim h1 with h1 | h3
          · rcases bor_elim h1 with h1 | h2
            · rw [eq_of_beq h1] at h; exact absurd h (by decide)
            · rw [eq_of_beq h2] at h; exact absurd h (by decide)
          · rw [eq_of_beq h3] at h; exact absurd h (by decide)
        · rw [eq_of_beq h4] at h; exact absurd h (by decide)
      · rw [eq_of_beq h5] at h; exact absurd h (by decide)
    · rw [eq_of_beq h6] at h; exact absurd h (by decide)

theorem beginTok_word {c : Char} (hw : isWordChar c = true) :
    beginTok c = (.inWord [c], []) := by
  unfold beginTok
  rw [word_not_ws hw]
  simp only [Bool.false_eq_true, if_false]
  rw [hw]
  simp

theorem goTok_idle_word (w : Chars) (rest : Chars) (hw : w.all isWordChar = true)
    (hne : w ≠ []) :
    goTok .idle (w ++ rest) = goTok (.inWord w) rest := by
  have hrun : ∀ (v : Chars), v.all isWordChar = true →
      ∀ (acc rest : Chars), goTok (.inWord acc) (v ++ rest) = goTok (.inWord (acc ++ v)) rest := by
    intro v hv
    induction v with
    | nil => intro acc rest; simp
    | cons c cs ih =>
      rw [List.all_cons] at hv
      obtain ⟨h1, h2⟩ := band_elim hv
      intro acc rest
      rw [List.cons_append]
      show (if isWordChar c = true then goTok (.inWord (acc ++ [c])) (cs ++ rest)
            else mkWord acc :: ((beginTok c).2 ++ goTok (beginTok c).1 (cs ++ rest))) = _
      rw [if_pos h1, ih h2]
      simp
  cases w with
  | nil => exact absurd rfl hne
  | cons c cs =>
    rw [List.all_cons] at hw
    obtain ⟨h1, h2⟩ := band_elim hw
    rw [List.cons_append]
    show (beginTok c).2 ++ goTok (beginTok c).1 (cs ++ rest) = _
    rw [beginTok_word h1]
    rw [hrun cs h2 [c] rest]
    simp

theorem goTok_word_run (w : Chars) (hw : w.all isWordChar = true) :
    ∀ (acc rest : Chars), goTok (.inWord acc) (w ++ rest) = goTok (.inWord (acc ++ w)) rest := by
  induction w with
  | nil => intro acc rest; simp
  | cons c cs ih =>
    rw [List.all_cons] at hw
    obtain ⟨h1, h2⟩ := band_elim hw
    intro acc rest
    rw [List.cons_append]
    show (if isWordChar c = true then goTok (.inWord (acc ++ [c])) (cs ++ rest)
          else mkWord acc :: ((beginTok c).2 ++ goTok (beginTok c).1 (cs ++ rest))) = _
    rw [if_pos h1, ih h2]
    simp

theorem goTok_word_ws (w rest : Chars) :
    goTok (.inWord w) (' ' :: rest) = mkWord w :: goTok (.inWs [' ']) rest := by
  show (if isWordChar ' ' = true then goTok (.inWord (w ++ [' '])) rest
        else mkWord w :: ((beginTok ' ').2 ++ goTok (beginTok ' ').1 rest)) = _
  rw [if_neg (by decide)]
  rfl

theorem goTok_word_punct (w rest : Chars) (p : Char)
    (h1 : isWsChar p = false) (h2 : isWordChar p = false) (h3 : (p == bq) = false)
    (h4 : (p == sq) = false) (h5 : (p == dq) = false) :
    goTok (.inWord w) (p :: rest) = mkWord w :: ⟨.punct, [p]⟩ :: goTok .idle rest := by
  show (if isWordChar p = true then goTok (.inWord (w ++ [p])) rest
        else mkWord w :: ((beginTok p).2 ++ goTok (beginTok p).1 rest)) = _
  rw [if_neg (by rw [h2]; exact Bool.false_ne_true)]
  have hb : beginTok p = (.idle, [⟨.punct, [p]⟩]) := by
    unfold beginTok
    rw [h1]
    simp only [Bool.false_eq_true, if_false]
    rw [h2]
    simp only [Bool.false_eq_true, if_false]
    rw [h3]
    simp only [Bool.false_eq_true, if_false]
    rw [h4, h5]
    simp
  rw [hb]
  rfl

theorem goTok_idle_ws (rest : Chars) :
    goTok .idle (' ' :: rest) = goTok (.inWs [' ']) rest := rfl

theorem goTok_idle_tick (rest : Chars) :
    goTok .idle (bq :: rest) = goTok (.inTick [bq]) rest := rfl

theorem goTok_idle_punct (p : Char) (rest : Chars)
    (h1 : isWsChar p = false) (h2 : isWordChar p = false) (h3 : (p == bq) = false)
    (h4 : (p == sq) = false) (h5 : (p == dq) = false) :
    goTok .idle (p :: rest) = ⟨.punct, [p]⟩ :: goTok .idle rest := by
  show (beginTok p).2 ++ goTok (beginTok p).1 rest = _
  have hb : beginTok p = (.idle, [⟨.punct, [p]⟩]) := by
    unfold beginTok
    rw [h1]
    simp only [Bool.false_eq_true, if_false]
    rw [h2]
    simp only [Bool.false_eq_true, if_false]
    rw [h3]
    simp only [Bool.false_eq_true, if_false]
    rw [h4, h5]
    simp
  rw [hb]
  rfl

theorem goTok_ws_emit (a : Chars) (x : Char) (r : Chars) (hx : isWsChar x = false) :
    goTok (.inWs a) (x :: r) = ⟨.ws, a⟩ :: goTok .idle (x :: r) := by
  show (if isWsChar x = true then goTok (.inWs (a ++ [x])) r
        else ⟨.ws, a⟩ :: ((beginTok x).2 ++ goTok (beginTok x).1 r)) = _
  rw [if_neg (by rw [hx]; exact Bool.false_ne_true)]
  show _ = ⟨TType.ws, a⟩ :: ((beginTok x).2 ++ goTok (beginTok x).1 r)
  rfl

theorem goTok_ws_word (a w rest : Chars) (hw : w.all isWordChar = true) (hne : w ≠ []) :
    goTok (.inWs a) (w ++ rest) = ⟨.ws, a⟩ :: goTok (.inWord w) rest := by
  cases w with
  | nil => exact absurd rfl hne
  | cons c cs =>
    rw [List.all_cons] at hw
    obtain ⟨h1, h2⟩ := band_elim hw
    rw [List.cons_append, goTok_ws_emit a c (cs ++ rest) (word_not_ws h1)]
    rw [← List.cons_append, goTok_idle_word (c :: cs) rest (by rw [List.all_cons]; simp [h1, h2]) (by simp)]

theorem goTok_ws_punct (a : Chars) (p : Char) (rest : Chars)
    (h1 : isWsChar p = false) (h2 : isWordChar p = false) (h3 : (p == bq) = false)
    (h4 : (p == sq) = false) (h5 : (p == dq) = false) :
    goTok (.inWs a) (p :: rest) = ⟨.ws, a⟩ :: ⟨.punct, [p]⟩ :: goTok .idle rest := by
  rw [goTok_ws_emit a p rest h1, goTok_idle_punct p rest h1 h2 h3 h4 h5]

theorem goTok_tick_run (n : Chars) (hn : ∀ c ∈ n, (c == bq) = false) :
    ∀ (acc rest : Chars),
      goTok (.inTick acc) (n ++ bq :: rest) = ⟨.name, acc ++ (n ++ [bq])⟩ :: goTok .idle rest := by
  induction n with
  | nil =>
    intro acc rest
    rw [List.nil_append]
    show (if (bq == bq) = true then (⟨.name, acc ++ [bq]⟩ : Tok) :: goTok .idle rest
          else goTok (.inTick (acc ++ [bq])) rest) = _
    rw [if_pos (by simp)]
    simp
  | cons c cs ih =>
    intro acc rest
    have hc := hn c (List.mem_cons_self c cs)
    rw [List.cons_append]
    show (if (c == bq) = true then (⟨.name, acc ++ [c]⟩ : Tok) :: goTok .idle (cs ++ bq :: rest)
          else goTok (.inTick (acc ++ [c])) (cs ++ bq :: rest)) = _
    rw [if_neg (by rw [hc]; exact Bool.false_ne_true)]
    rw [ih (fun x hx => hn x (List.mem_cons_of_mem c hx)) (acc ++ [c]) rest]
    simp

/-- The tail of the body after one column item. -/
def joinTail : List Chars → Chars → Chars
  | [], tail => tail
  | m :: ms, tail => ',' :: ' ' :: (joinSep sepCS ((m :: ms).map mkColItem) ++ tail)

theorem join_cols_decomp (n : Chars) (ms : List Chars) (tail : Chars) :
    joinSep sepCS ((n :: ms).map mkColItem) ++ tail
      = bq :: (n ++ (bq :: (' ' :: (wInt ++ joinTail ms tail)))) := by
  cases ms with
  | nil =>
    simp [joinSep, joinTail, mkColItem, List.append_assoc]
  | cons m ms2 =>
    simp only [List.map_cons, joinSep, joinTail]
    simp [mkColItem, sepCS, List.append_assoc]

theorem goTok_body (ns : List Chars) (hn : ∀ n ∈ ns, wfColName n = true) (hns : ns ≠ []) :
    goTok .idle (joinSep sepCS (ns.map mkColItem) ++ ')' :: [';'])
      = colToks ns ++ [⟨.punct, [')']⟩, ⟨.punct, [';']⟩] := by
  induction ns with
  | nil => exact absurd rfl hns
  | cons n ms ih =>
    obtain ⟨hne, hlow, -⟩ := wfColName_parts n (hn n (List.mem_cons_self n ms))
    rw [join_cols_decomp]
    rw [goTok_idle_tick]
    rw [goTok_tick_run n (lower_bq_free n hlow) [bq] (' ' :: (wInt ++ joinTail ms (')' :: [';'])))]
    rw [goTok_idle_ws]
    rw [goTok_ws_word [' '] wInt _ (by decide) (by decide)]
    cases ms with
    | nil =>
      show _ = colToks [n] ++ _
      rw [show joinTail [] (')' :: [';']) = ')' :: [';'] from rfl]
      rw [goTok_word_punct wInt [';'] ')' (by decide) (by decide) (by decide) (by decide)
        (by decide)]
      rw [show goTok .idle [';'] = [⟨.punct, [';']⟩] from rfl]
      rw [show mkWord wInt = (⟨.name, wInt⟩ : Tok) from by decide]
      simp [colToks]
    | cons m ms2 =>
      show _ = colToks (n :: m :: ms2) ++ _
      rw [show joinTail (m :: ms2) (')' :: [';'])
        = ',' :: ' ' :: (joinSep sepCS ((m :: ms2).map mkColItem) ++ ')' :: [';']) from rfl]
      rw [goTok_word_punct wInt _ ',' (by decide) (by decide) (by decide) (by decide)
        (by decide)]
      rw [goTok_idle_ws]
      have hdec := join_cols_decomp m ms2 (')' :: [';'])
      rw [hdec]
      rw [goTok_ws_emit [' '] bq _ (by decide)]
      rw [← hdec]
      rw [ih (fun x hx => hn x (List.mem_cons_of_mem n hx)) (by simp)]
      rw [show mkWord wInt = (⟨.name, wInt⟩ : Tok) from by decide]
      simp [colToks]

theorem mkWord_name (t : Chars) (ht : wfTableName t = true) : mkWord t = ⟨.name, t⟩ := by
  obtain ⟨hne, hlow, hd, hs⟩ := wfTableName_parts t ht
  unfold mkWord
  dsimp only
  rw [show ddlKeywords.contains (upperS t) = false from hd]
  simp only [Bool.false_eq_true, if_false]
  rw [show sqlKeywords.contains (upperS t) = false from hs]
  simp only [Bool.false_eq_true, if_false]
  have hdig : t.all isAsciiDigit = false := by
    cases t with
    | nil => exact absurd rfl hne
    | cons c cs =>
      have hc := mem_lower_range (c :: cs) hlow (List.mem_cons_self c cs)
      rw [List.all_cons]
      have : isAsciiDigit c = false := by
        unfold isAsciiDigit
        rw [decide_eq_false (by omega : ¬c.toNat ≤ 57)]
        simp
      rw [this]
      simp
  rw [hdig]
  simp

theorem tokenize_mkDDL (t : Chars) (ns : List Chars)
    (ht : wfTableName t = true) (hn : ∀ n ∈ ns, wfColName n = true) (hns : ns ≠ []) :
    tokenize (mkDDL t ns) = stmtToks t ns := by
  obtain ⟨htne, htlow, -, -⟩ := wfTableName_parts t ht
  unfold tokenize mkDDL
  rw [goTok_idle_word wCREATE _ (by decide) (by decide)]
  rw [List.singleton_append]
  rw [goTok_word_ws]
  rw [goTok_ws_word [' '] wTABLE _ (by decide) (by decide)]
  rw [List.singleton_append]
  rw [goTok_word_ws]
  rw [goTok_ws_word [' '] t _ (lower_all_word t htlow) htne]
  rw [List.singleton_append]
  rw [goTok_word_ws]
  rw [List.singleton_append]
  rw [goTok_ws_punct [' '] '(' _ (by decide) (by decide) (by decide) (by decide) (by decide)]
  rw [show ([')'] ++ [';'] : Chars) = ')' :: [';'] from rfl]
  rw [goTok_body ns hn hns]
  rw [show mkWord wCREATE = (⟨.kwDDL, wCREATE⟩ : Tok) from by decide]
  rw [show mkWord wTABLE = (⟨.kw, wTABLE⟩ : Tok) from by decide]
  rw [mkWord_name t ht]
  simp [stmtToks]

theorem dropWhile_eq_self_all {p : Char → Bool} (s : Chars) (h : ∀ c ∈ s, p c = false) :
    s.dropWhile p = s := by
  cases s with
  | nil => rfl
  | cons c cs =>
    rw [List.dropWhile_cons, h c (List.mem_cons_self c cs)]
    simp

theorem stripSet_eq_self_of (s : Chars) (set : List Char)
    (h : ∀ c ∈ s, set.contains c = false) : stripSet s set = s := by
  unfold stripSet
  rw [dropWhile_eq_self_all s h]
  rw [dropWhile_eq_self_all s.reverse (fun c hc => h c (List.mem_reverse.mp hc))]
  exact List.reverse_reverse s

theorem lower_not_set (n : Chars) (hl : n.all isLowerAlpha = true) :
    ∀ c ∈ n, ([bq, dq, sq].contains c) = false := by
  intro c hc
  have hr := mem_lower_range n hl hc
  show (c == bq || (c == dq || (c == sq || false))) = false
  have h1 : (c == bq) = false := by
    apply beq_eq_false_iff_ne.mpr; intro h; rw [h] at hr; exact absurd hr (by decide)
  have h2 : (c == dq) = false := by
    apply beq_eq_false_iff_ne.mpr; intro h; rw [h] at hr; exact absurd hr (by decide)
  have h3 : (c == sq) = false := by
    apply beq_eq_false_iff_ne.mpr; intro h; rw [h] at hr; exact absurd hr (by decide)
  rw [h1, h2, h3]
  rfl

theorem clean_identifier_lower (t : Chars) (hlow : t.all isLowerAlpha = true) :
    clean_identifier t = t := by
  unfold clean_identifier
  rw [stripSet_eq_self_of t [bq, dq, sq] (lower_not_set t hlow)]
  dsimp only
  have hat : t.contains '@' = false := by
    cases hc : t.contains '@'
    · rfl
    · exfalso
      have : '@' ∈ t := by simpa using hc
      exact absurd (mem_lower_range t hlow this) (by decide)
  rw [hat]
  simp

theorem colToks_mem (ns : List Chars) :
    ∀ tok ∈ colToks ns,
      (∃ n ∈ ns, tok = ⟨.name, [bq] ++ (n ++ [bq])⟩) ∨ tok = ⟨.ws, [' ']⟩
        ∨ tok = ⟨.name, wInt⟩ ∨ tok = ⟨.punct, [',']⟩ := by
  induction ns with
  | nil => intro tok htok; cases htok
  | cons n ms ih =>
    cases ms with
    | nil =>
      intro tok htok
      simp only [colToks, List.mem_cons, List.not_mem_nil, or_false] at htok
      rcases htok with h | h | h
      · exact Or.inl ⟨n, List.mem_cons_self n [], h⟩
      · exact Or.inr (Or.inl h)
      · exact Or.inr (Or.inr (Or.inl h))
    | cons m ms2 =>
      intro tok htok
      rw [show colToks (n :: m :: ms2)
        = [⟨.name, [bq] ++ (n ++ [bq])⟩, ⟨.ws, [' ']⟩, ⟨.name, wInt⟩,
           ⟨.punct, [',']⟩, ⟨.ws, [' ']⟩] ++ colToks (m :: ms2) from rfl] at htok
      rcases List.mem_append.mp htok with h | h
      · simp only [List.mem_cons, List.not_mem_nil, or_false] at h
        rcases h with h | h | h | h | h
        · exact Or.inl ⟨n, List.mem_cons_self n _, h⟩
        · exact Or.inr (Or.inl h)
        · exact Or.inr (Or.inr (Or.inl h))
        · exact Or.inr (Or.inr (Or.inr h))
        · exact Or.inr (Or.inl h)
      · rcases ih tok h with ⟨x, hx, he⟩ | h | h | h
        · exact Or.inl ⟨x, List.mem_cons_of_mem n hx, he⟩
        · exact Or.inr (Or.inl h)
        · exact Or.inr (Or.inr (Or.inl h))
        · exact Or.inr (Or.inr (Or.inr h))

theorem tick_v_ne (n : Chars) (x : Char) (hx : (bq == x) = false) :
    (([bq] ++ (n ++ [bq]) : Chars) == [x]) = false := by
  apply beq_eq_false_iff_ne.mpr
  intro h
  rw [List.singleton_append] at h
  injection h with h1 h2
  rw [h1] at hx
  simp at hx

theorem lower_v_ne (t : Chars) (hlow : t.all isLowerAlpha = true) (x : Char)
    (hx : x.toNat < 97 ∨ 122 < x.toNat) : ((t : Chars) == [x]) = false := by
  apply beq_eq_false_iff_ne.mpr
  intro h
  have : x ∈ t := by rw [h]; exact List.mem_cons_self x []
  exact absurd (mem_lower_range t hlow this) (by omega)

theorem splitStmtsGo_single (ts : List Tok) (hts : ∀ tok ∈ ts, (tok.v == [';']) = false) :
    ∀ acc, splitStmtsGo acc (ts ++ [⟨.punct, [';']⟩])
      = [acc.reverse ++ (ts ++ [⟨.punct, [';']⟩])] := by
  induction ts with
  | nil =>
    intro acc
    simp [splitStmtsGo]
  | cons tok ts2 ih =>
    intro acc
    rw [List.cons_append]
    show (if (tok.v == [';']) = true
          then (acc.reverse ++ [tok]) :: splitStmtsGo [] (ts2 ++ [⟨.punct, [';']⟩])
          else splitStmtsGo (tok :: acc) (ts2 ++ [⟨.punct, [';']⟩])) = _
    rw [hts tok (List.mem_cons_self tok ts2)]
    simp only [Bool.false_eq_true, if_false]
    rw [ih (fun x hx => hts x (List.mem_cons_of_mem tok hx)) (tok :: acc)]
    simp

theorem stmtToks_no_semi (t : Chars) (ns : List Chars) (hlow : t.all isLowerAlpha = true) :
    ∀ tok ∈ ([⟨.kwDDL, wCREATE⟩, ⟨.ws, [' ']⟩, ⟨.kw, wTABLE⟩, ⟨.ws, [' ']⟩,
        ⟨.name, t⟩, ⟨.ws, [' ']⟩, ⟨.punct, ['(']⟩] ++ colToks ns ++ [⟨.punct, [')']⟩] :
        List Tok), (tok.v == [';']) = false := by
  intro tok htok
  rcases List.mem_append.mp htok with h | h
  · rcases List.mem_append.mp h with h | h
    · simp only [List.mem_cons, List.not_mem_nil, or_false] at h
      rcases h with h | h | h | h | h | h | h
      · rw [h]; decide
      · rw [h]; decide
      · rw [h]; decide
      · rw [h]; decide
      · rw [h]; exact lower_v_ne t hlow ';' (by decide)
      · rw [h]; decide
      · rw [h]; decide
    · rcases colToks_mem ns tok h with ⟨x, hx, he⟩ | he | he | he
      · rw [he]; exact tick_v_ne x ';' (by decide)
      · rw [he]; decide
      · rw [he]; decide
      · rw [he]; decide
  · simp only [List.mem_cons, List.not_mem_nil, or_false] at h
    rw [h]; decide

theorem splitStmts_stmtToks (t : Chars) (ns : List Chars) (hlow : t.all isLowerAlpha = true) :
    splitStmts (stmtToks t ns) = [stmtToks t ns] := by
  unfold splitStmts
  have hshape : stmtToks t ns
      = ([⟨.kwDDL, wCREATE⟩, ⟨.ws, [' ']⟩, ⟨.kw, wTABLE⟩, ⟨.ws, [' ']⟩,
          ⟨.name, t⟩, ⟨.ws, [' ']⟩, ⟨.punct, ['(']⟩] ++ colToks ns ++ [⟨.punct, [')']⟩])
        ++ [⟨.punct, [';']⟩] := by
    simp [stmtToks]
  rw [hshape, splitStmtsGo_single _ (stmtToks_no_semi t ns hlow) []]
  simp

theorem isCreate_stmtToks (t : Chars) (ns : List Chars) :
    isCreateStmt (stmtToks t ns) = true := rfl

theorem findTableName_stmtToks (t : Chars) (ns : List Chars) :
    findTableNameGo (stmtToks t ns) false false = some (clean_identifier t) := rfl

theorem findContentTok_stmtToks (t : Chars) (ns : List Chars)
    (hlow : t.all isLowerAlpha = true) (hn : ∀ n ∈ ns, wfColName n = true) :
    findContentTok (stmtToks t ns) = none := by
  unfold findContentTok
  have hfind : (stmtToks t ns).find? (fun tok =>
      containsSub tok.v "(".data && containsSub tok.v ")".data
        && containsSub tok.v "COMMENT".data) = none := by
    rw [List.find?_eq_none]
    intro tok htok
    unfold stmtToks at htok
    intro hcond
    obtain ⟨h12, _⟩ := band_elim hcond
    obtain ⟨h1, h2⟩ := band_elim h12
    rcases List.mem_append.mp htok with h | h
    · rcases List.mem_append.mp h with h | h
      · simp only [List.mem_cons, List.not_mem_nil, or_false] at h
        rcases h with h | h | h | h | h | h | h
        · rw [h] at h1; exact absurd h1 (by decide)
        · rw [h] at h1; exact absurd h1 (by decide)
        · rw [h] at h1; exact absurd h1 (by decide)
        · rw [h] at h1; exact absurd h1 (by decide)
        · rw [h] at h1
          rw [containsSub_lower_false t hlow "(".data '('
            (List.mem_cons_self _ _) (by decide)] at h1
          cases h1
        · rw [h] at h1; exact absurd h1 (by decide)
        · rw [h] at h2; exact absurd h2 (by decide)
      · rcases colToks_mem ns tok h with ⟨x, hx, he⟩ | he | he | he
        · rw [he] at h1
          have hxl := (wfColName_parts x (hn x hx)).2.1
          have hpm := containsSub_subset _ _ h1 '(' (List.mem_cons_self _ _)
          rcases List.mem_append.mp hpm with hm | hm
          · exact absurd (List.mem_singleton.mp hm) (by decide)
          · rcases List.mem_append.mp hm with hm2 | hm2
            · exact absurd (mem_lower_range x hxl hm2) (by decide)
            · exact absurd (List.mem_singleton.mp hm2) (by decide)
        · rw [he] at h1; exact absurd h1 (by decide)
        · rw [he] at h1; exact absurd h1 (by decide)
        · rw [he] at h1; exact absurd h1 (by decide)
    · simp only [List.mem_cons, List.not_mem_nil, or_false] at h
      rcases h with h | h
      · rw [h] at h1; exact absurd h1 (by decide)
      · rw [h] at h2; exact absurd h2 (by decide)
  rw [hfind]
  rfl

theorem colToks_no_paren (ns : List Chars) :
    ∀ tok ∈ colToks ns, (tok.v == "(".data) = false ∧ (tok.v == ")".data) = false := by
  intro tok htok
  rcases colToks_mem ns tok htok with ⟨x, hx, he⟩ | he | he | he
  · rw [he]
    exact ⟨tick_v_ne x '(' (by decide), tick_v_ne x ')' (by decide)⟩
  · rw [he]; exact ⟨by decide, by decide⟩
  · rw [he]; exact ⟨by decide, by decide⟩
  · rw [he]; exact ⟨by decide, by decide⟩

theorem collectBody_run (ts : List Tok)
    (hts : ∀ tok ∈ ts, (tok.v == "(".data) = false ∧ (tok.v == ")".data) = false) :
    ∀ acc, collectBodyGo (ts ++ [⟨.punct, [')']⟩, ⟨.punct, [';']⟩]) 1 acc
      = acc.reverse ++ ts := by
  induction ts with
  | nil =>
    intro acc
    simp [collectBodyGo]
  | cons tok ts2 ih =>
    intro acc
    obtain ⟨hp1, hp2⟩ := hts tok (List.mem_cons_self tok ts2)
    rw [List.cons_append]
    simp only [collectBodyGo]
    rw [hp1]
    simp only [Bool.false_eq_true, if_false]
    rw [hp2]
    simp only [Bool.false_eq_true, if_false]
    rw [show (((1 : Int) == 0) = false) from by decide]
    simp only [Bool.false_eq_true, if_false]
    rw [ih (fun x hx => hts x (List.mem_cons_of_mem tok hx)) (tok :: acc)]
    simp

theorem findBody_stmtToks (t : Chars) (ns : List Chars)
    (hlow : t.all isLowerAlpha = true) :
    findBody (stmtToks t ns) = colToks ns := by
  have ht' : ((t : Chars) == "(".data) = false := lower_v_ne t hlow '(' (by decide)
  have step1 : findBody (stmtToks t ns)
      = findBody (⟨.name, t⟩ :: (⟨.ws, [' ']⟩ :: ⟨.punct, ['(']⟩ ::
          (colToks ns ++ [⟨.punct, [')']⟩, ⟨.punct, [';']⟩]))) := rfl
  rw [step1]
  rw [show findBody (⟨.name, t⟩ :: (⟨.ws, [' ']⟩ :: ⟨.punct, ['(']⟩ ::
      (colToks ns ++ [⟨.punct, [')']⟩, ⟨.punct, [';']⟩])))
    = (if ((t : Chars) == "(".data) = true
        then collectBodyGo (⟨.ws, [' ']⟩ :: ⟨.punct, ['(']⟩ ::
          (colToks ns ++ [⟨.punct, [')']⟩, ⟨.punct, [';']⟩])) 1 []
        else findBody (⟨.ws, [' ']⟩ :: ⟨.punct, ['(']⟩ ::
          (colToks ns ++ [⟨.punct, [')']⟩, ⟨.punct, [';']⟩]))) from rfl]
  rw [ht']
  simp only [Bool.false_eq_true, if_false]
  rw [show findBody (⟨.ws, [' ']⟩ :: ⟨.punct, ['(']⟩ ::
      (colToks ns ++ [⟨.punct, [')']⟩, ⟨.punct, [';']⟩]))
    = collectBodyGo (colToks ns ++ [⟨.punct, [')']⟩, ⟨.punct, [';']⟩]) 1 [] from rfl]
  rw [collectBody_run (colToks ns) (colToks_no_paren ns) []]
  rfl

theorem colToks_ne_nil (ns : List Chars) (hns : ns ≠ []) : (colToks ns).isEmpty = false := by
  cases ns with
  | nil => exact absurd rfl hns
  | cons n ms => cases ms <;> rfl

theorem parse_create_table_stmtToks (t : Chars) (ns : List Chars)
    (ht : wfTableName t = true) (hn : ∀ n ∈ ns, wfColName n = true) (hns : ns ≠ []) :
    parse_create_table (stmtToks t ns) = some (t, parse_table_definition (colToks ns)) := by
  obtain ⟨htne, htlow, -, -⟩ := wfTableName_parts t ht
  unfold parse_create_table
  rw [findTableName_stmtToks, clean_identifier_lower t htlow]
  dsimp only
  have hemp : t.isEmpty = false := by
    cases t
    · exact absurd rfl htne
    · rfl
  rw [hemp]
  simp only [Bool.false_eq_true, if_false]
  rw [findContentTok_stmtToks t ns htlow hn]
  dsimp only
  rw [findBody_stmtToks t ns htlow]
  rw [colToks_ne_nil ns hns]
  simp

theorem bor_false {a b : Bool} (h : (a || b) = false) : a = false ∧ b = false := by
  cases a <;> cases b <;> simp_all

/-- The token values surviving the whitespace filter. -/
def colVals : List Chars → List Chars
  | [] => []
  | [n] => [[bq] ++ (n ++ [bq]), wInt]
  | n :: m :: rest => [[bq] ++ (n ++ [bq]), wInt, [',']] ++ colVals (m :: rest)

theorem stripWs_cons_ne (x : Char) (xs : Chars) (hx : isWsChar x = false) :
    (stripWs (x :: xs)).isEmpty = false := by
  unfold stripWs lstripWs rstripWs
  rw [List.dropWhile_cons, hx]
  simp only [Bool.false_eq_true, if_false]
  cases hres : ((x :: xs).reverse.dropWhile isWsChar).reverse with
  | cons y ys => rfl
  | nil =>
    exfalso
    have h0 : (x :: xs).reverse.dropWhile isWsChar = [] := by
      have := congrArg List.reverse hres
      simpa using this
    rw [List.dropWhile_eq_nil_iff] at h0
    have hxm : x ∈ (x :: xs).reverse := List.mem_reverse.mpr (List.mem_cons_self x xs)
    have := h0 x hxm
    rw [hx] at this
    cases this

theorem tickv_strip_ne (n : Chars) : (!(stripWs ([bq] ++ (n ++ [bq]))).isEmpty) = true := by
  rw [List.singleton_append, stripWs_cons_ne bq (n ++ [bq]) (by decide)]
  rfl

theorem colToks_filter (ns : List Chars) :
    ((colToks ns).filter (fun tok => !(stripWs tok.v).isEmpty)).map (·.v) = colVals ns := by
  induction ns with
  | nil => rfl
  | cons n ms ih =>
    cases ms with
    | nil =>
      simp only [colToks, colVals, List.filter_cons, List.filter_nil]
      rw [tickv_strip_ne n]
      rw [show (!(stripWs ([' '] : Chars)).isEmpty) = false from by decide]
      rw [show (!(stripWs wInt).isEmpty) = true from by decide]
      simp
    | cons m ms2 =>
      rw [show colToks (n :: m :: ms2)
        = [⟨.name, [bq] ++ (n ++ [bq])⟩, ⟨.ws, [' ']⟩, ⟨.name, wInt⟩,
           ⟨.punct, [',']⟩, ⟨.ws, [' ']⟩] ++ colToks (m :: ms2) from rfl]
      rw [List.filter_append, List.map_append]
      rw [show colVals (n :: m :: ms2)
        = [[bq] ++ (n ++ [bq]), wInt, [',']] ++ colVals (m :: ms2) from rfl]
      rw [ih]
      congr 1
      simp only [List.filter_cons, List.filter_nil]
      rw [tickv_strip_ne n]
      rw [show (!(stripWs ([' '] : Chars)).isEmpty) = false from by decide]
      rw [show (!(stripWs wInt).isEmpty) = true from by decide]
      rw [show (!(stripWs ([','] : Chars)).isEmpty) = true from by decide]
      simp

/-- Characters that the top-level comma splitter treats as ordinary. -/
def plainChar (c : Char) : Bool :=
  !(c == sq || c == dq || c == '(' || c == ')' || c == ',')

theorem plain_parts (c : Char) (hc : plainChar c = true) :
    (c == sq) = false ∧ (c == dq) = false ∧ (c == '(') = false
      ∧ (c == ')') = false ∧ (c == ',') = false := by
  unfold plainChar at hc
  have h0 : (c == sq || c == dq || c == '(' || c == ')' || c == ',') = false := by
    cases h : (c == sq || c == dq || c == '(' || c == ')' || c == ',')
    · rfl
    · rw [h] at hc; cases hc
  obtain ⟨h1234, h5⟩ := bor_false h0
  obtain ⟨h123, h4⟩ := bor_false h1234
  obtain ⟨h12, h3⟩ := bor_false h123
  obtain ⟨h1, h2⟩ := bor_false h12
  exact ⟨h1, h2, h3, h4, h5⟩

theorem lower_plain (n : Chars) (hlow : n.all isLowerAlpha = true) :
    n.all plainChar = true := by
  rw [List.all_eq_true] at hlow ⊢
  intro c hc
  have hr := mem_lower_range n (List.all_eq_true.mpr hlow) hc
  unfold plainChar
  have h1 : (c == sq) = false := by
    apply beq_eq_false_iff_ne.mpr; intro h; rw [h] at hr; exact absurd hr (by decide)
  have h2 : (c == dq) = false := by
    apply beq_eq_false_iff_ne.mpr; intro h; rw [h] at hr; exact absurd hr (by decide)
  have h3 : (c == '(') = false := by
    apply beq_eq_false_iff_ne.mpr; intro h; rw [h] at hr; exact absurd hr (by decide)
  have h4 : (c == ')') = false := by
    apply beq_eq_false_iff_ne.mpr; intro h; rw [h] at hr; exact absurd hr (by decide)
  have h5 : (c == ',') = false := by
    apply beq_eq_false_iff_ne.mpr; intro h; rw [h] at hr; exact absurd hr (by decide)
  rw [h1, h2, h3, h4, h5]
  rfl

theorem mkColItem_plain (n : Chars) (hlow : n.all isLowerAlpha = true) :
    (mkColItem n).all plainChar = true := by
  unfold mkColItem
  rw [List.all_append, List.all_append, List.all_append, List.all_append]
  rw [lower_plain n hlow]
  rw [show ([bq] : Chars).all plainChar = true from by decide]
  rw [show ([' '] : Chars).all plainChar = true from by decide]
  rw [show wInt.all plainChar = true from by decide]
  rfl

/-- Last element of a traversal, as the scanner's `prev` state. -/
def lastOr : Chars → Option Char → Option Char
  | [], p => p
  | c :: cs, _ => lastOr cs (some c)

theorem scanItems_step_plain (c : Char) (hc : plainChar c = true) (cs : Chars)
    (prev : Option Char) (cur : Chars) (items : List Chars) :
    scanItemsGo (c :: cs) prev false none 0 cur items
      = scanItemsGo cs (some c) false none 0 (c :: cur) items := by
  obtain ⟨h1, h2, h3, h4, h5⟩ := plain_parts c hc
  rw [scanItemsGo.eq_def]
  dsimp only
  rw [h1, h2]
  simp only [Bool.false_or, Bool.false_and, Bool.false_eq_true, if_false]
  rw [h3]
  simp only [Bool.false_and, Bool.false_eq_true, if_false]
  rw [h4]
  simp only [Bool.false_and, Bool.false_eq_true, if_false]
  rw [h5]
  simp only [Bool.false_and, Bool.false_eq_true, if_false]

theorem scanItems_comma (cs : Chars) (prev : Option Char) (cur : Chars) (items : List Chars) :
    scanItemsGo (',' :: cs) prev false none 0 cur items
      = scanItemsGo cs (some ',') false none 0 []
          (if (stripWs cur.reverse).isEmpty then items else stripWs cur.reverse :: items) := by
  rw [scanItemsGo.eq_def]
  dsimp only
  rw [show ((',' == sq) : Bool) = false from by decide,
     show ((',' == dq) : Bool) = false from by decide]
  simp only [Bool.false_or, Bool.false_and, Bool.false_eq_true, if_false]
  rw [show ((',' == '(') : Bool) = false from by decide]
  simp only [Bool.false_and, Bool.false_eq_true, if_false]
  rw [show ((',' == ')') : Bool) = false from by decide]
  simp only [Bool.false_and, Bool.false_eq_true, if_false]
  rw [show ((',' == ',') : Bool) = true from by decide]
  simp only [Bool.not_false, Bool.true_and, Bool.and_true]
  rw [show (((0 : Int) == 0) : Bool) = true from by decide]
  simp

theorem scanItems_nil (prev : Option Char) (cur : Chars) (items : List Chars) :
    scanItemsGo [] prev false none 0 cur items
      = ((if (stripWs cur.reverse).isEmpty then items
          else stripWs cur.reverse :: items).reverse) := by
  rw [scanItemsGo.eq_def]

theorem scanItems_run (m : Chars) (hm : m.all plainChar = true) :
    ∀ (tail : Chars) (prev : Option Char) (cur : Chars) (items : List Chars),
      scanItemsGo (m ++ tail) prev false none 0 cur items
        = scanItemsGo tail (lastOr m prev) false none 0 (m.reverse ++ cur) items := by
  induction m with
  | nil => intro tail prev cur items; simp [lastOr]
  | cons c cs ih =>
    rw [List.all_cons] at hm
    obtain ⟨h1, h2⟩ := band_elim hm
    intro tail prev cur items
    rw [List.cons_append, scanItems_step_plain c h1 (cs ++ tail) prev cur items]
    rw [ih h2 tail (some c) (c :: cur) items]
    simp [lastOr]

theorem dropWhile_append_all {p : Char → Bool} (w s : Chars) (hw : w.all p = true) :
    (w ++ s).dropWhile p = s.dropWhile p := by
  induction w with
  | nil => rfl
  | cons c cs ih =>
    rw [List.all_cons] at hw
    obtain ⟨h1, h2⟩ := band_elim hw
    rw [List.cons_append, List.dropWhile_cons, h1]
    simp only [if_true]
    exact ih h2

theorem all_reverse {p : Char → Bool} (w : Chars) (hw : w.all p = true) :
    w.reverse.all p = true := by
  rw [List.all_eq_true] at hw ⊢
  intro c hc
  exact hw c (List.mem_reverse.mp hc)

theorem rstrip_append_ws (s w : Chars) (hw : w.all isWsChar = true) :
    rstripWs (s ++ w) = rstripWs s := by
  unfold rstripWs
  rw [List.reverse_append, dropWhile_append_all w.reverse s.reverse (all_reverse w hw)]

theorem mkColItem_cons (n : Chars) :
    mkColItem n = bq :: (n ++ ([bq] ++ ([' '] ++ wInt))) := rfl

theorem rstrip_mkColItem (n : Chars) : rstripWs (mkColItem n) = mkColItem n := by
  have hsh : mkColItem n = (bq :: (n ++ ([bq] ++ [' ', 'i', 'n']))) ++ ['t'] := by
    simp [mkColItem, wInt]
  rw [hsh, rstrip_snoc _ 't' (by decide)]

theorem stripWs_sandwich (w1 w2 n : Chars) (h1 : w1.all isWsChar = true)
    (h2 : w2.all isWsChar = true) :
    stripWs (w1 ++ (mkColItem n ++ w2)) = mkColItem n := by
  unfold stripWs
  rw [show lstripWs (w1 ++ (mkColItem n ++ w2)) = lstripWs (mkColItem n ++ w2) from
    dropWhile_append_all w1 _ h1]
  rw [show lstripWs (mkColItem n ++ w2) = mkColItem n ++ w2 from by
    rw [mkColItem_cons, List.cons_append]
    exact lstrip_cons bq _ (by decide)]
  rw [rstrip_append_ws _ w2 h2, rstrip_mkColItem]

/-- The characters after one item inside the joined body text. -/
def scanTail : List Chars → Chars
  | [] => []
  | m :: ms => ' ' :: ',' :: ' ' :: joinSep [' '] (colVals (m :: ms))

theorem content_decomp (n : Chars) (ms : List Chars) :
    joinSep [' '] (colVals (n :: ms)) = mkColItem n ++ scanTail ms := by
  cases ms with
  | nil => simp [colVals, joinSep, mkColItem, scanTail, List.append_assoc]
  | cons m ms2 =>
    cases ms2 with
    | nil => simp [colVals, joinSep, mkColItem, scanTail, List.append_assoc]
    | cons m3 ms3 => simp [colVals, joinSep, mkColItem, scanTail, List.append_assoc]

theorem mkColItem_isEmpty (n : Chars) : (mkColItem n).isEmpty = false := rfl

theorem scanItems_main (ns : List Chars) (hn : ∀ n ∈ ns, wfColName n = true) :
    ∀ (w : Chars), w.all isWsChar = true →
      ∀ (prev : Option Char) (items : List Chars), ns ≠ [] →
      scanItemsGo (joinSep [' '] (colVals ns)) prev false none 0 w items
        = items.reverse ++ ns.map mkColItem := by
  induction ns with
  | nil => intro w hw prev items hne; exact absurd rfl hne
  | cons n ms ih =>
    intro w hw prev items _
    obtain ⟨hne, hlow, -⟩ := wfColName_parts n (hn n (List.mem_cons_self n ms))
    rw [content_decomp n ms]
    rw [scanItems_run (mkColItem n) (mkColItem_plain n hlow) (scanTail ms) prev w items]
    cases ms with
    | nil =>
      rw [show scanTail [] = [] from rfl]
      rw [scanItems_nil]
      have hstr : stripWs ((mkColItem n).reverse ++ w).reverse = mkColItem n := by
        rw [List.reverse_append, List.reverse_reverse]
        rw [show w.reverse ++ mkColItem n = w.reverse ++ (mkColItem n ++ []) from by simp]
        exact stripWs_sandwich w.reverse [] n (all_reverse w hw) (by decide)
      rw [hstr, mkColItem_isEmpty]
      simp
    | cons m2 ms2 =>
      rw [show scanTail (m2 :: ms2)
        = ' ' :: ',' :: ' ' :: joinSep [' '] (colVals (m2 :: ms2)) from rfl]
      rw [scanItems_step_plain ' ' (by decide)]
      rw [scanItems_comma]
      have hstr : stripWs (' ' :: ((mkColItem n).reverse ++ w)).reverse = mkColItem n := by
        rw [List.reverse_cons, List.reverse_append, List.reverse_reverse]
        rw [show w.reverse ++ mkColItem n ++ [' ']
          = w.reverse ++ (mkColItem n ++ [' ']) from by simp [List.append_assoc]]
        exact stripWs_sandwich w.reverse [' '] n (all_reverse w hw) (by decide)
      rw [hstr, mkColItem_isEmpty]
      simp only [Bool.false_eq_true, if_false]
      rw [scanItems_step_plain ' ' (by decide)]
      rw [ih (fun x hx => hn x (List.mem_cons_of_mem n hx)) [' '] (by decide)
        (some ' ') (mkColItem n :: items) (by simp)]
      simp

theorem upperS_mkColItem (n : Chars) :
    upperS (mkColItem n) = bq :: (upperS n ++ (bq :: (' ' :: ['I', 'N', 'T']))) := by
  unfold mkColItem
  rw [upperS_append, upperS_append, upperS_append, upperS_append]
  rw [show upperS [bq] = [bq] from by decide, show upperS [' '] = [' '] from by decide,
     show upperS wInt = ['I', 'N', 'T'] from by decide]
  simp

theorem range_not_ws {c : Char} (h1 : 97 ≤ c.toNat) : isWsChar c = false := by
  cases hw : isWsChar c
  · rfl
  · exfalso
    unfold isWsChar at hw
    rcases bor_elim hw with h' | h6
    · rcases bor_elim h' with h' | h5
      · rcases bor_elim h' with h' | h4
        · rcases bor_elim h' with h' | h3
          · rcases bor_elim h' with hA | h2
            · rw [eq_of_beq hA] at h1; exact absurd h1 (by decide)
            · rw [eq_of_beq h2] at h1; exact absurd h1 (by decide)
          · rw [eq_of_beq h3] at h1; exact absurd h1 (by decide)
        · rw [eq_of_beq h4] at h1; exact absurd h1 (by decide)
      · rw [eq_of_beq h5] at h1; exact absurd h1 (by decide)
    · rw [eq_of_beq h6] at h1; exact absurd h1 (by decide)

theorem lower_nm_pred (n : Chars) (hlow : n.all isLowerAlpha = true) :
    n.all (fun c => !(c == bq || c == dq || isWsChar c)) = true := by
  rw [List.all_eq_true] at hlow ⊢
  intro c hc
  have hr := mem_lower_range n (List.all_eq_true.mpr hlow) hc
  have h1 : (c == bq) = false := by
    apply beq_eq_false_iff_ne.mpr; intro h; rw [h] at hr; exact absurd hr (by decide)
  have h2 : (c == dq) = false := by
    apply beq_eq_false_iff_ne.mpr; intro h; rw [h] at hr; exact absurd hr (by decide)
  have h3 : isWsChar c = false := range_not_ws hr.1
  rw [h1, h2, h3]
  rfl

theorem ne_nil_isEmpty (n : Chars) (hne : n ≠ []) : n.isEmpty = false := by
  cases n
  · exact absurd rfl hne
  · rfl

theorem colNameTypeMatch_mkColItem (n : Chars) (hne : n ≠ [])
    (hlow : n.all isLowerAlpha = true) :
    colNameTypeMatch (mkColItem n) = some (n, wInt) := by
  have hnm : (n ++ (bq :: (' ' :: wInt))).takeWhile
      (fun c => !(c == bq || c == dq || isWsChar c)) = n :=
    takeWhile_append_break n (lower_nm_pred n hlow) bq (by decide) (' ' :: wInt)
  unfold colNameTypeMatch
  rw [show (mkColItem n).dropWhile isWsChar = bq :: (n ++ (bq :: (' ' :: wInt))) from by
    rw [mkColItem_cons, List.dropWhile_cons, show isWsChar bq = false from by decide]
    simp [List.append_assoc]]
  dsimp only
  rw [show ((bq == bq) || (bq == dq) : Bool) = true from by decide]
  simp only [if_true]
  rw [hnm]
  rw [ne_nil_isEmpty n hne]
  simp only [Bool.false_eq_true, if_false]
  rw [List.drop_left]
  dsimp only
  rw [show ((bq == bq) || (bq == dq) : Bool) = true from by decide]
  simp only [if_true]
  rw [show (' ' :: wInt).takeWhile isWsChar = [' '] from by decide]
  rw [show ([' '] : Chars).isEmpty = false from by decide]
  simp only [Bool.false_eq_true, if_false]
  rw [show (' ' :: wInt).drop ([' '] : Chars).length = wInt from by decide]
  rw [show wInt.takeWhile isAsciiLetter = wInt from by decide]
  rw [show wInt.isEmpty = false from by decide]
  simp only [Bool.false_eq_true, if_false]
  rw [show wInt.drop wInt.length = [] from by decide]

theorem sub_take_drop_contains (s : Chars) (k j : Nat) :
    containsSub s ((s.drop k).take j) = true := by
  have he : s.take k ++ ((s.drop k).take j ++ (s.drop k).drop j) = s := by
    rw [List.take_append_drop, List.take_append_drop]
  set pat := (s.drop k).take j with hp
  calc containsSub s pat
      = containsSub (s.take k ++ (pat ++ (s.drop k).drop j)) pat := by rw [he]
    _ = true := by rw [← List.append_assoc]; exact containsSub_of_decomp _ _ _

theorem findCommentStart_none (s : Chars) (h : ∀ k, commentMatchAt (s.drop k) = false) :
    findCommentStart s = none := by
  induction s with
  | nil => rfl
  | cons c t ih =>
    show (if commentMatchAt (c :: t) = true then some 0
          else (findCommentStart t).map (· + 1)) = none
    rw [show commentMatchAt (c :: t) = false from by
      have := h 0; rwa [List.drop_zero] at this]
    simp only [Bool.false_eq_true, if_false]
    rw [ih (fun k => by have := h (k + 1); rwa [List.drop_succ_cons] at this)]
    rfl

theorem scanFor_none {α : Type} (m : Chars → Option α) (s : Chars)
    (h : ∀ k, m (s.drop k) = none) : scanFor m s = none := by
  induction s with
  | nil =>
    have := h 0
    rw [List.drop_zero] at this
    simpa [scanFor] using this
  | cons c t ih =>
    show (match m (c :: t) with
          | some r => some r
          | none => scanFor m t) = none
    rw [show m (c :: t) = none from by have := h 0; rwa [List.drop_zero] at this]
    exact ih (fun k => by have := h (k + 1); rwa [List.drop_succ_cons] at this)

theorem commentMatch_none_of (s : Chars)
    (hnc : containsSub (upperS s) "COMMENT".data = false) :
    ∀ k, commentMatchAt (s.drop k) = false := by
  intro k
  unfold commentMatchAt
  cases hb : (upperS ((s.drop k).take 7) == "COMMENT".data)
  · simp
  · exfalso
    have heq : upperS ((s.drop k).take 7) = "COMMENT".data := eq_of_beq hb
    have hcomm : ((upperS s).drop k).take 7 = "COMMENT".data := by
      rw [← heq]
      unfold upperS
      rw [List.map_take, List.map_drop]
    have hsub := sub_take_drop_contains (upperS s) k 7
    rw [hcomm, hnc] at hsub
    cases hsub

theorem upper_item_lt97 (n : Chars) (hlow : n.all isLowerAlpha = true) :
    ∀ c ∈ upperS (mkColItem n), c.toNat < 97 := by
  intro c hc
  rw [upperS_mkColItem] at hc
  rcases List.mem_cons.mp hc with h | h
  · rw [h]; decide
  · rcases List.mem_append.mp h with h | h
    · have := mem_upperS_lower_range n hlow h
      omega
    · rcases List.mem_cons.mp h with h | h
      · rw [h]; decide
      · rcases List.mem_cons.mp h with h | h
        · rw [h]; decide
        · rcases List.mem_cons.mp h with h | h
          · rw [h]; decide
          · rcases List.mem_cons.mp h with h | h
            · rw [h]; decide
            · rcases List.mem_cons.mp h with h | h
              · rw [h]; decide
              · cases h

theorem upperS_id_of_lt97 (s : Chars) (h : ∀ c ∈ s, c.toNat < 97) : upperS s = s := by
  unfold upperS
  calc s.map Char.toUpper = s.map id :=
        List.map_congr_left (fun c hc => char_toUpper_eq_self (h c hc))
    _ = s := List.map_id s

theorem defaultMatch_none_of (u : Chars) (hup : ∀ c ∈ u, c.toNat < 97)
    (hnc : containsSub u "DEFAULT".data = false) :
    ∀ k, defaultMatchAt (u.drop k) = none := by
  intro k
  unfold defaultMatchAt
  cases hb : (upperS ((u.drop k).take 7) == "DEFAULT".data)
  · simp
  · exfalso
    have heq : upperS ((u.drop k).take 7) = "DEFAULT".data := eq_of_beq hb
    have hid : upperS ((u.drop k).take 7) = (u.drop k).take 7 := by
      apply upperS_id_of_lt97
      intro c hc
      exact hup c (List.mem_of_mem_drop (List.mem_of_mem_take hc))
    rw [hid] at heq
    have hsub := sub_take_drop_contains u k 7
    rw [heq, hnc] at hsub
    cases hsub

theorem contains_upper_item_false (n : Chars) (pat : Chars) (hbq : bq ∉ pat)
    (hnil : containsSub [] pat = false)
    (hnpat : containsSub (upperS n) pat = false)
    (htail : containsSub (' ' :: ['I', 'N', 'T'] : Chars) pat = false) :
    containsSub (upperS (mkColItem n)) pat = false := by
  cases h : containsSub (upperS (mkColItem n)) pat
  · rfl
  · exfalso
    rw [upperS_mkColItem] at h
    have h1 : containsSub ([] ++ bq :: (upperS n ++ (bq :: (' ' :: ['I', 'N', 'T'])))) pat
        = true := by simpa using h
    rcases containsSub_split_char [] _ pat bq hbq h1 with h2 | h2
    · rw [hnil] at h2; cases h2
    · rcases containsSub_split_char (upperS n) _ pat bq hbq h2 with h3 | h3
      · rw [hnpat] at h3; cases h3
      · rw [htail] at h3; cases h3

theorem parse_column_definition_mkColItem (n : Chars) (hwf : wfColName n = true) :
    parse_column_definition (mkColItem n) = some (c5Column n) := by
  obtain ⟨hne, hlow, hkey, hidx, huni, hdef, hcom⟩ := wfColName_parts n hwf
  have hstrip : stripWs (mkColItem n) = mkColItem n := by
    have := stripWs_sandwich [] [] n (by decide) (by decide)
    simpa using this
  have hucomm : containsSub (upperS (mkColItem n)) "COMMENT".data = false :=
    contains_upper_item_false n _ (by decide) (by decide) hcom (by decide)
  have hudef : containsSub (upperS (mkColItem n)) "DEFAULT".data = false :=
    contains_upper_item_false n _ (by decide) (by decide) hdef (by decide)
  have hunn : containsSub (upperS (mkColItem n)) "NOT NULL".data = false :=
    contains_upper_item_false n _ (by decide) (by decide)
      (containsSub_upperS_lower_false n hlow _ ' ' (by decide) (by decide)) (by decide)
  have huai : containsSub (upperS (mkColItem n)) "AUTO_INCREMENT".data = false :=
    contains_upper_item_false n _ (by decide) (by decide)
      (containsSub_upperS_lower_false n hlow _ '_' (by decide) (by decide)) (by decide)
  have hupk : containsSub (upperS (mkColItem n)) "PRIMARY KEY".data = false :=
    contains_upper_item_false n _ (by decide) (by decide)
      (containsSub_upperS_lower_false n hlow _ ' ' (by decide) (by decide)) (by decide)
  have huuq : containsSub (upperS (mkColItem n)) "UNIQUE".data = false :=
    contains_upper_item_false n _ (by decide) (by decide) huni (by decide)
  unfold parse_column_definition
  rw [hstrip, colNameTypeMatch_mkColItem n hne hlow]
  dsimp only
  rw [findCommentStart_none (mkColItem n) (commentMatch_none_of (mkColItem n) hucomm)]
  dsimp only
  rw [scanFor_none defaultMatchAt (upperS (mkColItem n))
    (defaultMatch_none_of (upperS (mkColItem n)) (upper_item_lt97 n hlow) hudef)]
  dsimp only
  rw [clean_identifier_lower n hlow]
  rw [show typeSplit wInt = (['I', 'N', 'T'], none) from by decide]
  rw [hunn, huai, hupk, huuq]
  rfl

theorem item_chars_le (n : Chars) (hlow : n.all isLowerAlpha = true) :
    ∀ c ∈ mkColItem n, c.toNat ≤ 122 := by
  intro c hc
  rw [mkColItem_cons] at hc
  rcases List.mem_cons.mp hc with h | h
  · rw [h]; decide
  · rcases List.mem_append.mp h with h | h
    · exact (mem_lower_range n hlow h).2
    · rcases List.mem_append.mp h with h | h
      · rw [List.mem_singleton.mp h]; decide
      · rcases List.mem_append.mp h with h | h
        · rw [List.mem_singleton.mp h]; decide
        · rw [show wInt = ['i', 'n', 't'] from rfl] at h
          rcases List.mem_cons.mp h with h | h
          · rw [h]; decide
          · rcases List.mem_cons.mp h with h | h
            · rw [h]; decide
            · rw [List.mem_singleton.mp h]; decide

theorem contains_item_big_false (n : Chars) (hlow : n.all isLowerAlpha = true)
    (pat : Chars) (x : Char) (hx : x ∈ pat) (hbig : 122 < x.toNat) :
    containsSub (mkColItem n) pat = false := by
  cases h : containsSub (mkColItem n) pat
  · rfl
  · exfalso
    have hmem := containsSub_subset _ _ h x hx
    have hle := item_chars_le n hlow x hmem
    omega

theorem item_any_alpha (n : Chars) : (mkColItem n).any Char.isAlpha = true := by
  apply List.any_eq_true.mpr
  refine ⟨'i', ?_, by decide⟩
  unfold mkColItem
  exact List.mem_append_right _ (List.mem_append_right _ (List.mem_append_right _
    (List.mem_append_right _ (by decide))))

theorem constraint_any_false (n : Chars) (hwf : wfColName n = true) :
    constraintKeywords.any (fun kw => containsSub (upperS (mkColItem n)) kw) = false := by
  obtain ⟨hne, hlow, hkey, hidx, -⟩ := wfColName_parts n hwf
  have hKEY : containsSub (upperS (mkColItem n)) "KEY".data = false :=
    contains_upper_item_false n _ (by decide) (by decide) hkey (by decide)
  have hIDX : containsSub (upperS (mkColItem n)) "INDEX".data = false :=
    contains_upper_item_false n _ (by decide) (by decide) hidx (by decide)
  have hsub : ∀ pre : Chars, pre ++ "KEY".data ++ [] = pre ++ "KEY".data := by
    intro pre; simp
  have hPK : containsSub (upperS (mkColItem n)) "PRIMARY KEY".data = false := by
    cases h : containsSub (upperS (mkColItem n)) "PRIMARY KEY".data
    · rfl
    · exfalso
      have h2 := containsSub_trans_decomp (upperS (mkColItem n)) "PRIMARY ".data "KEY".data []
        (by rw [show ("PRIMARY ".data ++ "KEY".data ++ ([] : Chars)) = "PRIMARY KEY".data
              from by decide]
            exact h)
      rw [hKEY] at h2
      cases h2
  have hFK : containsSub (upperS (mkColItem n)) "FOREIGN KEY".data = false := by
    cases h : containsSub (upperS (mkColItem n)) "FOREIGN KEY".data
    · rfl
    · exfalso
      have h2 := containsSub_trans_decomp (upperS (mkColItem n)) "FOREIGN ".data "KEY".data []
        (by rw [show ("FOREIGN ".data ++ "KEY".data ++ ([] : Chars)) = "FOREIGN KEY".data
              from by decide]
            exact h)
      rw [hKEY] at h2
      cases h2
  have hUK : containsSub (upperS (mkColItem n)) "UNIQUE KEY".data = false := by
    cases h : containsSub (upperS (mkColItem n)) "UNIQUE KEY".data
    · rfl
    · exfalso
      have h2 := containsSub_trans_decomp (upperS (mkColItem n)) "UNIQUE ".data "KEY".data []
        (by rw [show ("UNIQUE ".data ++ "KEY".data ++ ([] : Chars)) = "UNIQUE KEY".data
              from by decide]
            exact h)
      rw [hKEY] at h2
      cases h2
  rw [show constraintKeywords
    = ["PRIMARY KEY".data, "FOREIGN KEY".data, "INDEX".data, "UNIQUE KEY".data, "KEY".data]
    from rfl]
  simp only [List.any_cons, List.any_nil]
  rw [hPK, hFK, hIDX, hUK, hKEY]
  rfl

theorem classifyItems_cols (ns : List Chars) (hn : ∀ n ∈ ns, wfColName n = true) :
    classifyItems (ns.map mkColItem) = (ns.map c5Column, []) := by
  unfold classifyItems
  suffices h : ∀ (ms : List Chars), (∀ n ∈ ms, wfColName n = true) →
      ∀ acc : List Column × List Constraint,
      (ms.map mkColItem).foldl
        (fun acc item0 =>
          let item := stripWs item0
          if item.isEmpty then acc
          else if startsWith item "--".data || startsWith item "/*".data
              || containsSub item "한글".data || containsSub item "프로토콜".data
              || containsSub item "해당".data || !(item.any Char.isAlpha) then acc
          else
            let u := upperS item
            if constraintKeywords.any (containsSub u ·) then
              match parse_constraint item with
              | some c => (acc.1, acc.2 ++ [c])
              | none => acc
            else
              match parse_column_definition item with
              | some c => (acc.1 ++ [c], acc.2)
              | none => acc)
        acc = (acc.1 ++ ms.map c5Column, acc.2) by
    have happ := h ns hn ([], [])
    simpa using happ
  intro ms
  induction ms with
  | nil => intro _ acc; simp
  | cons n ms2 ih =>
    intro hm acc
    obtain ⟨hne, hlow, -⟩ := wfColName_parts n (hm n (List.mem_cons_self n ms2))
    have hstrip : stripWs (mkColItem n) = mkColItem n := by
      have := stripWs_sandwich [] [] n (by decide) (by decide)
      simpa using this
    rw [List.map_cons, List.foldl_cons]
    dsimp only
    rw [hstrip]
    rw [mkColItem_isEmpty n]
    simp only [Bool.false_eq_true, if_false]
    rw [show startsWith (mkColItem n) "--".data = false from rfl,
       show startsWith (mkColItem n) "/*".data = false from rfl]
    rw [contains_item_big_false n hlow "한글".data '한' (by decide) (by decide),
       contains_item_big_false n hlow "프로토콜".data '프' (by decide) (by decide),
       contains_item_big_false n hlow "해당".data '해' (by decide) (by decide)]
    rw [item_any_alpha n]
    simp only [Bool.or_false, Bool.false_or, Bool.not_true, Bool.false_eq_true, if_false]
    rw [constraint_any_false n (hm n (List.mem_cons_self n ms2))]
    simp only [Bool.false_eq_true, if_false]
    rw [parse_column_definition_mkColItem n (hm n (List.mem_cons_self n ms2))]
    dsimp only
    rw [ih (fun x hx => hm x (List.mem_cons_of_mem n hx)) (acc.1 ++ [c5Column n], acc.2)]
    simp

theorem parse_table_definition_cols (ns : List Chars)
    (hn : ∀ n ∈ ns, wfColName n = true) (hns : ns ≠ []) :
    parse_table_definition (colToks ns) = (ns.map c5Column, []) := by
  unfold parse_table_definition
  dsimp only
  rw [colToks_filter ns]
  rw [scanItems_main ns hn [] (by decide) none [] hns]
  rw [show (([] : List Chars).reverse ++ ns.map mkColItem) = ns.map mkColItem from by simp]
  exact classifyItems_cols ns hn

/-- C5 amended, restricted to the family this theorem quantifies over
and no further: for every table name `t` (nonempty, lowercase letters
only, not an SQL keyword) and every nonempty list of column names (each
nonempty, lowercase letters only, upper-casing containing none of
`KEY`, `INDEX`, `UNIQUE`, `DEFAULT`, `COMMENT` as a substring), the
statement `CREATE TABLE t (\x60n1\x60 int, …, \x60nk\x60 int);` — `k`
well-formed, attribute-free column definitions and no constraint
items — parses to exactly one table, named `t`, with exactly `k`
columns (in order, named as declared, typed `INT`, nullable, with no
flags) and zero constraints.  The attribute-free restriction is
essential and cannot be relaxed to a condition on names alone, because
item classification tests keyword containment over the whole item text
(see the counterexample's `DEFAULT abckey` part). -/
theorem C5_amended (t : Chars) (ns : List Chars)
    (ht : wfTableName t = true) (hns : ns ≠ [])
    (hn : ∀ n ∈ ns, wfColName n = true) :
    parse_ddl_content (mkDDL t ns)
      = [(t, { name := t, columns := ns.map c5Column, constraints := [] })]
    ∧ (ns.map c5Column).length = ns.length := by
  constructor
  · obtain ⟨htne, htlow, -, -⟩ := wfTableName_parts t ht
    unfold parse_ddl_content
    rw [tokenize_mkDDL t ns ht hn hns, splitStmts_stmtToks t ns htlow]
    simp only [List.foldl_cons, List.foldl_nil]
    rw [isCreate_stmtToks t ns]
    simp only [if_true]
    rw [parse_create_table_stmtToks t ns ht hn hns]
    rw [parse_table_definition_cols ns hn hns]
    rfl
  · simp

/-- C5 witness: the two-column instance `CREATE TABLE users
(backticked id int, backticked email int);` satisfies the amended
hypotheses and parses to the single expected table. -/
theorem C5_amended_witness :
    (wfTableName "users".data = true
      ∧ (["id".data, "email".data] : List Chars) ≠ []
      ∧ (∀ n ∈ (["id".data, "email".data] : List Chars), wfColName n = true))
    ∧ parse_ddl_content (mkDDL "users".data ["id".data, "email".data])
        = [("users".data,
            { name := "users".data, columns := ["id".data, "email".data].map c5Column
              constraints := [] })]
    ∧ (["id".data, "email".data].map c5Column).length = 2 := by
  refine ⟨⟨by decide, by decide, by decide⟩, ?_, ?_⟩
  · exact (C5_amended "users".data ["id".data, "email".data]
      (by decide) (by decide) (by decide)).1
  · exact (C5_amended "users".data ["id".data, "email".data]
      (by decide) (by decide) (by decide)).2

/-- C5 counterexample: `\x60monkey\x60 int` is a well-formed column
definition in the specification's sense (leading identifier plus type
word, not introduced by a constraint keyword), yet the statement
`CREATE TABLE t (\x60monkey\x60 int);` — one well-formed column
definition, no constraint items — parses to table `t` with zero columns
(and zero constraints), not one column: the classifier routes the item
to constraint parsing because `MONKEY` contains `KEY`, and the
constraint parse fails, dropping the item.  The effect is not confined
to column names: `\x60a\x60 int DEFAULT abckey` is also well-formed with
a keyword-free name, yet its attribute text contains `KEY`, so the
classifier — which tests substring containment over the whole
upper-cased item — drops it the same way. -/
theorem C5_counterexample :
    spec_wf_column_item ("`monkey` int").data = true
    ∧ parse_ddl_content "CREATE TABLE t (`monkey` int);".data
        = [("t".data, { name := "t".data, columns := [], constraints := [] })]
    ∧ ([] : List Column).length ≠ 1
    ∧ spec_wf_column_item ("`a` int DEFAULT abckey").data = true
    ∧ containsSub (upperS "a".data) "KEY".data = false
    ∧ parse_ddl_content "CREATE TABLE t (`a` int DEFAULT abckey);".data
        = [("t".data, { name := "t".data, columns := [], constraints := [] })] := by
  refine ⟨by decide, by decide, by decide, by decide, by decide, by decide⟩

end ConvertToDbml
